import Mathlib

/-! The rotate lexer (`src/frontend/lexer.cpp`).

A shallow embedding of `rotate::Lexer`.  The scanner state is a record that
is passed through every member function; each C++ loop becomes a function
that recurses on a step budget which is computed from the length of the
buffer at the call site.

Conventions
* Bytes are natural numbers; character constants are written as their ASCII
  codes with the C literal in a comment.
* `index`, `len`, `line` are natural numbers: the cursor and `len` stay within
  the length of the buffer plus one and `line` within twice that length, so the
  32 bit counters of the source do not wrap on buffers shorter than `2^31`
  bytes.
* A read at or past the end of the buffer yields NUL.
* `isdigit`, `isalpha`, `isalnum` are those of the C locale.
-/

namespace rotate

/-! ## Data model (`token.hpp`) -/

/-- Token kinds: the enumeration of `token.hpp` (there `TknType`; `lexer.cpp`
names it `token_type`), in its order. -/
inductive token_type
  | Identifier | BuiltinFunc | To | In | As | Delete | Equal | Integer
  | IntKeyword | UintKeyword | Float | FloatKeyword | String | Char | CharKeyword
  | True | False | BoolKeyword | SemiColon | Colon | ColonColon | Function
  | PLUS | MINUS | Star | DIV | OpenParen | CloseParen | OpenCurly | CloseCurly
  | OpenSQRBrackets | CloseSQRBrackets | Return | Import | If | Else | For | While
  | Greater | GreaterEql | Less | LessEql | Dot | Not | NotEqual | And | Or | Comma
  | Public | Switch | Enum | EqualEqual | Break | AddEqual | SubEqual | MultEqual
  | DivEqual | Struct | Ref | Nil | EOT
  deriving DecidableEq

/-- Failure kinds: the enumeration of `token.hpp` (there `LexErr`; `lexer.cpp`
names it `error_type`), and `LEXER_INVALID_BUILTN_FN`, which `lex_builtin_funcs`
assigns and whose declaration is not among the sources. -/
inductive error_type
  | UNKNOWN | OUT_OF_MEMORY | LEXER_INVALID_CHAR | TOO_LONG_IDENTIFIER | TOO_LONG_NUMBER
  | TOO_LONG_STRING | TABS | WINDOWS_CRAP | NOT_CLOSED_CHAR | NOT_VALID_ESCAPE_CHAR
  | NOT_CLOSED_STRING | FILE_EMPTY | END_OF_FILE | BAD_TOKEN_AT_GLOBAL | NOT_CLOSED_COMMENT
  | UNSUPPORTED | LEXER_INVALID_BUILTN_FN
  deriving DecidableEq

/-- The three return codes of the sub-scanners.  `EXIT_DONE` is declared in a
header that is not among the sources; the three codes are the three distinct
cases of the switch in `Lexer::lex`. -/
inductive exit_code
  | EXIT_SUCCESS | EXIT_FAILURE | EXIT_DONE
  deriving DecidableEq

/-- A token: kind, offset of its first byte, length and line. -/
structure Token where
  type : token_type
  index : Nat
  length : Nat
  line : Nat
  deriving DecidableEq

/-- Modelled from the spec: `file_t` (`file.hpp` is not among the sources), the
immutable byte sequence of the source buffer.  Its `length` is the number of
bytes; the buffer is NUL terminated, and a read at or past the end yields NUL. -/
structure file_t where
  contents : List Nat
  deriving DecidableEq

/-- The field `file->length`. -/
def file_t.length (f : file_t) : Nat := f.contents.length

/-- The read `file->contents[i]`. -/
def file_t.at (f : file_t) (i : Nat) : Nat := f.contents.getD i 0

/-- The members of `Lexer` (`lexer.hpp` is not among the sources): those that
the constructor initialises, and `begin_tok_line`, which `lex_director`
assigns. -/
structure Lexer where
  index : Nat
  len : Nat
  line : Nat
  begin_tok_line : Nat
  file : file_t
  file_length : Nat
  is_done : Bool
  error : error_type
  tokens : List Token
  deriving DecidableEq

/-- The constructor `Lexer::Lexer(file)`.  `begin_tok_line` is not initialised
by the constructor; it is assigned by `lex_director` before it is read. -/
def Lexer.new (file : file_t) : Lexer :=
  { index := 0, len := 0, line := 1, begin_tok_line := 0, file := file,
    file_length := file.length, is_done := false, error := error_type.UNKNOWN,
    tokens := [] }

/-! ## Character classes of the C locale -/

/-- The C function `isdigit`. -/
def isdigit (c : Nat) : Bool := decide (48 ≤ c) && decide (c ≤ 57)

/-- The C function `isalpha`. -/
def isalpha (c : Nat) : Bool :=
  (decide (65 ≤ c) && decide (c ≤ 90)) || (decide (97 ≤ c) && decide (c ≤ 122))

/-- The C function `isalnum`. -/
def isalnum (c : Nat) : Bool := isalpha c || isdigit c

/-! ## Cursor primitives -/

/-- The member `Lexer::current`. -/
def current (l : Lexer) : Nat := l.file.at l.index

/-- The member `Lexer::peek`. -/
def peek (l : Lexer) : Nat := l.file.at (l.index + 1)

/-- The member `Lexer::past`.  It is only called after at least one advance,
when `index` is positive. -/
def past (l : Lexer) : Nat := l.file.at (l.index - 1)

/-- The member `Lexer::is_not_eof`. -/
def is_not_eof (l : Lexer) : Bool := decide (l.index < l.file_length)

/-- The member `Lexer::advance`. -/
def advance (l : Lexer) : Lexer :=
  { l with index := l.index + 1, line := if current l = 10 then l.line + 1 else l.line }

/-- The member `Lexer::advance_len_times`. -/
def advance_len_times (l : Lexer) : Lexer :=
  { l with index := l.index + l.len }

/-- The member `Lexer::advance_len_inc`. -/
def advance_len_inc (l : Lexer) : Lexer :=
  { l with index := l.index + 1, len := l.len + 1,
           line := l.line + (if current l = 10 then 1 else 0) }

/-- The comparison `strncmp(a, b, n) == 0` of two NUL terminated byte strings. -/
def strncmp_eq : List Nat → List Nat → Nat → Bool
  | _, _, 0 => true
  | a, b, n + 1 =>
    if a.headD 0 ≠ b.headD 0 then false
    else if a.headD 0 = 0 then true
    else strncmp_eq a.tail b.tail n

/-- The member `Lexer::keyword_match`. -/
def keyword_match (l : Lexer) (string : List Nat) (length : Nat) : Bool :=
  strncmp_eq (l.file.contents.drop l.index) string length

/-- The subtraction `a - b` of two `u32` values: it wraps modulo `2 ^ 32` when
`b` exceeds `a`. -/
def u32_sub (a b : Nat) : Nat := if b ≤ a then a - b else (a + 2 ^ 32 - b) % 2 ^ 32

/-- The member `Lexer::reverse_len_for_error`, `index -= len` on the unsigned
cursor: when `len` exceeds the cursor, the cursor wraps modulo `2 ^ 32`. -/
def reverse_len_for_error (l : Lexer) : exit_code × Lexer :=
  (exit_code.EXIT_FAILURE, { l with index := u32_sub l.index l.len })

/-- The loop of `add_token`: `advance()` is called `n` times. -/
def advance_times : Nat → Lexer → Lexer
  | 0, l => l
  | n + 1, l => advance_times n (advance l)

/-- The member `Lexer::add_token`. -/
def add_token (l : Lexer) (type : token_type) : exit_code × Lexer :=
  let l1 := { l with tokens := l.tokens ++ [⟨type, l.index, l.len, l.begin_tok_line⟩] }
  (exit_code.EXIT_SUCCESS, advance_times l1.len l1)

/-- The number of steps that a loop reading forward from the cursor can take
before the cursor is at the end of the buffer. -/
def Lexer.budget (l : Lexer) : Nat := l.file.length - l.index

/-! ## Whitespace -/

/-- The loop of `skip_whitespace`. -/
def skip_whitespace_loop : Nat → Lexer → Lexer
  | 0, l => l
  | n + 1, l =>
    if current l = 10 then
      skip_whitespace_loop n { l with index := l.index + 1, line := l.line + 1 }
    else if current l = 32 then
      skip_whitespace_loop n { l with index := l.index + 1 }
    else l

/-- The member `Lexer::skip_whitespace`. -/
def skip_whitespace (l : Lexer) : Lexer := skip_whitespace_loop l.budget l

/-! ## Identifiers and keywords -/

/-- The `while` loop of `lex_identifiers`. -/
def lex_identifiers_loop : Nat → Lexer → Lexer
  | 0, l => l
  | n + 1, l =>
    if isalnum (current l) || decide (current l = 95) then
      lex_identifiers_loop n (advance_len_inc l)
    else l

/-- The `switch (len)` of `lex_identifiers`: the kind of the run of `len`
bytes at the cursor. -/
def lex_identifiers_type (l : Lexer) : token_type :=
  let c := current l
  if l.len = 2 then
    if c = 102 /- 'f' -/ then
      if keyword_match l [102, 110] 2 /- "fn" -/ then token_type.Function
      else token_type.Identifier
    else if c = 105 /- 'i' -/ then
      if keyword_match l [105, 102] 2 /- "if" -/ then token_type.If
      else if keyword_match l [105, 110] 2 /- "in" -/ then token_type.In
      else token_type.Identifier
    else if c = 111 /- 'o' -/ then
      if keyword_match l [111, 114] 2 /- "or" -/ then token_type.Or
      else token_type.Identifier
    else token_type.Identifier
  else if l.len = 3 then
    if c = 102 /- 'f' -/ then
      if keyword_match l [102, 111, 114] 3 /- "for" -/ then token_type.For
      else token_type.Identifier
    else if c = 112 /- 'p' -/ then
      if keyword_match l [112, 117, 98] 3 /- "pub" -/ then token_type.Public
      else token_type.Identifier
    else if c = 105 /- 'i' -/ then
      if keyword_match l [105, 110, 116] 3 /- "int" -/ then token_type.IntKeyword
      else token_type.Identifier
    else if c = 114 /- 'r' -/ then
      if keyword_match l [114, 101, 102] 3 /- "ref" -/ then token_type.Ref
      else token_type.Identifier
    else if c = 97 /- 'a' -/ then
      if keyword_match l [97, 110, 100] 3 /- "and" -/ then token_type.And
      else token_type.Identifier
    else if c = 110 /- 'n' -/ then
      if keyword_match l [110, 105, 108] 3 /- "nil" -/ then token_type.Nil
      else token_type.Identifier
    else token_type.Identifier
  else if l.len = 4 then
    if c = 101 /- 'e' -/ then
      if keyword_match l [101, 108, 115, 101] 4 /- "else" -/ then token_type.Else
      else if keyword_match l [101, 110, 117, 109] 4 /- "enum" -/ then token_type.Enum
      else token_type.Identifier
    else if c = 116 /- 't' -/ then
      if keyword_match l [116, 114, 117, 101] 4 /- "true" -/ then token_type.True
      else token_type.Identifier
    else if c = 99 /- 'c' -/ then
      if keyword_match l [99, 104, 97, 114] 4 /- "char" -/ then token_type.CharKeyword
      else token_type.Identifier
    else if c = 98 /- 'b' -/ then
      if keyword_match l [98, 111, 111, 108] 4 /- "bool" -/ then token_type.BoolKeyword
      else token_type.Identifier
    else if c = 117 /- 'u' -/ then
      if keyword_match l [117, 105, 110, 116] 4 /- "uint" -/ then token_type.UintKeyword
      else token_type.Identifier
    else token_type.Identifier
  else if l.len = 5 then
    if c = 119 /- 'w' -/ then
      if keyword_match l [119, 104, 105, 108, 101] 5 /- "while" -/ then token_type.While
      else token_type.Identifier
    else if c = 102 /- 'f' -/ then
      if keyword_match l [102, 97, 108, 115, 101] 5 /- "false" -/ then token_type.False
      else if keyword_match l [102, 108, 111, 97, 116] 5 /- "float" -/ then
        token_type.FloatKeyword
      else token_type.Identifier
    else if c = 98 /- 'b' -/ then
      if keyword_match l [98, 114, 101, 97, 107] 5 /- "break" -/ then token_type.Break
      else token_type.Identifier
    else token_type.Identifier
  else if l.len = 6 then
    if c = 114 /- 'r' -/ then
      if keyword_match l [114, 101, 116, 117, 114, 110] 6 /- "return" -/ then token_type.Return
      else token_type.Identifier
    else if c = 105 /- 'i' -/ then
      if keyword_match l [105, 109, 112, 111, 114, 116] 6 /- "import" -/ then token_type.Import
      else token_type.Identifier
    else if c = 100 /- 'd' -/ then
      if keyword_match l [100, 101, 108, 101, 116, 101] 6 /- "delete" -/ then token_type.Delete
      else token_type.Identifier
    else if c = 115 /- 's' -/ then
      if keyword_match l [115, 116, 114, 117, 99, 116] 6 /- "struct" -/ then token_type.Struct
      else if keyword_match l [115, 119, 105, 116, 99, 104] 6 /- "switch" -/ then
        token_type.Switch
      else token_type.Identifier
    else token_type.Identifier
  else token_type.Identifier

/-- The member `Lexer::lex_identifiers`. -/
def lex_identifiers (l : Lexer) : exit_code × Lexer :=
  let l1 := advance_len_inc l
  let l2 := lex_identifiers_loop l1.budget l1
  let l3 := { l2 with index := l2.index - l2.len }
  let _type := lex_identifiers_type l3
  if l3.len > 100 then
    (exit_code.EXIT_FAILURE, { l3 with error := error_type.TOO_LONG_IDENTIFIER })
  else add_token l3 _type

/-! ## Numbers -/

/-- The `while` loop of `lex_numbers`; the flag is `reached_dot`. -/
def lex_numbers_loop : Nat → Lexer → Bool → Lexer × Bool
  | 0, l, reached_dot => (l, reached_dot)
  | n + 1, l, reached_dot =>
    if isdigit (current l) || decide (current l = 46) then
      let l1 := advance_len_inc l
      if current l1 = 46 then
        if reached_dot then (l1, reached_dot)
        else lex_numbers_loop n l1 true
      else lex_numbers_loop n l1 reached_dot
    else (l, reached_dot)

/-- The member `Lexer::lex_numbers`.  Above 100 bytes it logs a message and
returns failure; it assigns no failure kind and does not rewind. -/
def lex_numbers (l : Lexer) : exit_code × Lexer :=
  let r := lex_numbers_loop l.budget l false
  let l1 := r.1
  if l1.len > 100 then (exit_code.EXIT_FAILURE, l1)
  else
    let l2 := { l1 with index := l1.index - l1.len }
    add_token l2 (if r.2 then token_type.Float else token_type.Integer)

/-! ## Strings and characters -/

/-- The `while` loop of `lex_strings`: `Except.error` is the early
`return EXIT_FAILURE` at a NUL byte, `Except.ok` the exit of the loop. -/
def lex_strings_loop : Nat → Lexer → Except Lexer Lexer
  | 0, l => Except.ok l
  | n + 1, l =>
    if current l ≠ 34 ∧ past l ≠ 92 then
      if current l = 0 then
        Except.error { (reverse_len_for_error l).2 with error := error_type.NOT_CLOSED_STRING }
      else lex_strings_loop n (advance_len_inc l)
    else Except.ok l

/-- The member `Lexer::lex_strings`.  A length above `UINT16_MAX` is logged
only.  The statement `index -= len++` rewinds by the old `len` and leaves
`len` one larger. -/
def lex_strings (l : Lexer) : exit_code × Lexer :=
  let l1 := advance_len_inc l
  match lex_strings_loop (l1.budget + 1) l1 with
  | Except.error l2 => (exit_code.EXIT_FAILURE, l2)
  | Except.ok l2 =>
    let l3 := advance_len_inc l2
    let l4 := { l3 with index := l3.index - l3.len, len := l3.len + 1 }
    add_token l4 token_type.String

/-- The escape bytes accepted by `lex_chars`: `n t r b f \ '`. -/
def lex_chars_escape (c : Nat) : Bool :=
  decide (c = 110) || decide (c = 116) || decide (c = 114) || decide (c = 98) ||
  decide (c = 102) || decide (c = 92) || decide (c = 39)

/-- The member `Lexer::lex_chars`. -/
def lex_chars (l : Lexer) : exit_code × Lexer :=
  let l1 := advance_len_inc l
  if current l1 ≠ 92 ∧ peek l1 = 39 then
    let l2 := advance_len_inc (advance_len_inc l1)
    add_token { l2 with index := l2.index - l2.len } token_type.Char
  else if current l1 = 92 then
    let l2 := advance_len_inc l1
    if lex_chars_escape (current l2) then
      let l3 := advance_len_inc l2
      if current l3 = 39 then
        let l4 := advance_len_inc l3
        add_token { l4 with index := l4.index - l4.len } token_type.Char
      else
        reverse_len_for_error { l3 with error := error_type.LEXER_INVALID_CHAR }
    else
      reverse_len_for_error { l2 with error := error_type.NOT_VALID_ESCAPE_CHAR }
  else (exit_code.EXIT_FAILURE, l1)

/-! ## Symbols and comments -/

/-- The loop of the `//` branch of `lex_symbols`. -/
def line_comment_loop : Nat → Lexer → Lexer
  | 0, l => l
  | n + 1, l =>
    if is_not_eof l && decide (current l ≠ 10) then line_comment_loop n (advance l)
    else l

/-- The loop of the block comment branch of `lex_symbols`; the flag is
`end_comment`. -/
def block_comment_loop : Nat → Lexer → Bool → Lexer
  | 0, l, _ => l
  | n + 1, l, end_comment =>
    if is_not_eof l && !end_comment then
      if past l ≠ 47 ∧ current l = 42 ∧ peek l = 47 then
        block_comment_loop n (advance (advance l)) true
      else block_comment_loop n (advance l) end_comment
    else l

/-- A one byte operator `one` that becomes `two` when the next byte is `q`. -/
def lex_symbols_pair (l : Lexer) (p q : Nat) (two one : token_type) : exit_code × Lexer :=
  if p = q then add_token { l with len := l.len + 1 } two
  else add_token l one

/-- The member `Lexer::lex_symbols`. -/
def lex_symbols (l0 : Lexer) : exit_code × Lexer :=
  let c := current l0
  let p := peek l0
  let l := { l0 with len := 1 }
  if c = 123 /- '{' -/ then add_token l token_type.OpenCurly
  else if c = 125 /- '}' -/ then add_token l token_type.CloseCurly
  else if c = 40 /- '(' -/ then add_token l token_type.OpenParen
  else if c = 41 /- ')' -/ then add_token l token_type.CloseParen
  else if c = 91 /- '[' -/ then add_token l token_type.OpenSQRBrackets
  else if c = 93 /- ']' -/ then add_token l token_type.CloseSQRBrackets
  else if c = 59 /- ';' -/ then add_token l token_type.SemiColon
  else if c = 44 /- ',' -/ then add_token l token_type.Comma
  else if c = 46 /- '.' -/ then lex_symbols_pair l p 46 token_type.To token_type.Dot
  else if c = 58 /- ':' -/ then lex_symbols_pair l p 58 token_type.ColonColon token_type.Colon
  else if c = 62 /- '>' -/ then lex_symbols_pair l p 61 token_type.GreaterEql token_type.Greater
  else if c = 60 /- '<' -/ then lex_symbols_pair l p 61 token_type.LessEql token_type.Less
  else if c = 61 /- '=' -/ then lex_symbols_pair l p 61 token_type.EqualEqual token_type.Equal
  else if c = 43 /- '+' -/ then lex_symbols_pair l p 61 token_type.AddEqual token_type.PLUS
  else if c = 45 /- '-' -/ then lex_symbols_pair l p 61 token_type.SubEqual token_type.MINUS
  else if c = 42 /- '*' -/ then lex_symbols_pair l p 61 token_type.MultEqual token_type.Star
  else if c = 47 /- '/' -/ then
    if p = 61 /- '=' -/ then add_token { l with len := l.len + 1 } token_type.DivEqual
    else if p = 47 /- '/' -/ then
      (exit_code.EXIT_SUCCESS, line_comment_loop l.budget l)
    else if p = 42 /- '*' -/ then
      let l1 := advance l
      (exit_code.EXIT_SUCCESS, block_comment_loop l1.budget l1 false)
    else add_token l token_type.DIV
  else if c = 33 /- '!' -/ then lex_symbols_pair l p 61 token_type.NotEqual token_type.Not
  else if c = 0 then (exit_code.EXIT_DONE, { l with is_done := true })
  else if c = 9 /- '\t' -/ then (exit_code.EXIT_FAILURE, { l with error := error_type.TABS })
  else if c = 13 /- '\r' -/ then
    (exit_code.EXIT_FAILURE, { l with error := error_type.WINDOWS_CRAP })
  else (exit_code.EXIT_FAILURE, { l with error := error_type.LEXER_INVALID_CHAR })

/-! ## Builtin functions -/

/-- The `while` loop of `lex_builtin_funcs`. -/
def lex_builtin_funcs_loop : Nat → Lexer → Lexer
  | 0, l => l
  | n + 1, l =>
    if isalpha (current l) then lex_builtin_funcs_loop n (advance_len_inc l) else l

/-- The `switch (len)` of `lex_builtin_funcs`: whether the name at the cursor
is one of `col`, `line`, `file`, `print`, `println`. -/
def lex_builtin_funcs_match (l : Lexer) : Bool :=
  if l.len = 3 then keyword_match l [99, 111, 108] 3 /- "col" -/
  else if l.len = 4 then
    keyword_match l [108, 105, 110, 101] 4 /- "line" -/ ||
    keyword_match l [102, 105, 108, 101] 4 /- "file" -/
  else if l.len = 5 then keyword_match l [112, 114, 105, 110, 116] 5 /- "print" -/
  else if l.len = 7 then keyword_match l [112, 114, 105, 110, 116, 108, 110] 7 /- "println" -/
  else false

/-- The member `Lexer::lex_builtin_funcs`.  The first `index -= len` puts the
cursor back on the first letter of the name.  On failure
`reverse_len_for_error` rewinds by `len` a second time: the cursor, which is
unsigned, wraps modulo `2 ^ 32` when the name is longer than the bytes before
it, and `Lexer::lex` then calls `report_error`, whose first read is
`file->contents[index]`. -/
def lex_builtin_funcs (l : Lexer) : exit_code × Lexer :=
  let l1 := advance l
  let l2 := lex_builtin_funcs_loop l1.budget l1
  let l3 := { l2 with index := l2.index - l2.len }
  if lex_builtin_funcs_match l3 then add_token l3 token_type.BuiltinFunc
  else reverse_len_for_error { l3 with error := error_type.LEXER_INVALID_BUILTN_FN }

/-! ## Dispatch and main loop -/

/-- The member `Lexer::lex_director`. -/
def lex_director (l0 : Lexer) : exit_code × Lexer :=
  let l1 := skip_whitespace l0
  let l := { l1 with len := 0, begin_tok_line := l1.line }
  let c := current l
  if isdigit c then lex_numbers l
  else if c = 39 /- single quote -/ then lex_chars l
  else if c = 34 /- double quote -/ then lex_strings l
  else if c = 95 /- '_' -/ ∨ isalpha c then lex_identifiers l
  else if c = 64 /- '@' -/ then lex_builtin_funcs l
  else lex_symbols l

/-- The backward loop of `report_error`,
`while (contents[low] != '\n' && low > 0) { low--; col++; }`, from `low` and
`col`: the values of `low` and `col` when it ends. -/
def report_error_back (f : file_t) : Nat → Nat → Nat × Nat
  | 0, col => (0, col)
  | low + 1, col =>
    if f.at (low + 1) ≠ 10 then report_error_back f low (col + 1) else (low + 1, col)

/-- The forward loop of `report_error`,
`while (contents[_length] != '\n' && _length + 1 < file->length) _length++`,
with a step budget. -/
def report_error_forward (f : file_t) : Nat → Nat → Nat
  | 0, _length => _length
  | n + 1, _length =>
    if f.at _length ≠ 10 ∧ _length + 1 < f.length then report_error_forward f n (_length + 1)
    else _length

/-- The numbers that `report_error` prints from: the start `low` of the source
line, the column `col`, the length `_length` of the line, the width `spaces`
before the carets, the line, and the number of carets (`none` for the
truncation marker). -/
structure diagnostic where
  low : Nat
  col : Nat
  _length : Nat
  spaces : Nat
  line : Nat
  carets : Option Nat
  deriving DecidableEq

/-- The computation of `report_error`.  `low`, `col`, `_length` and `spaces`
are `u32` in the source: the subtractions wrap modulo `2^32`. -/
def report_error_diagnostic (l : Lexer) : diagnostic :=
  let back := report_error_back l.file l.index 0
  let low := (back.1 + 1) % 2 ^ 32
  let _length := report_error_forward l.file (l.file.length - l.index) l.index
  { low := low, col := back.2,
    _length := (_length + 2 ^ 32 - low) % 2 ^ 32,
    spaces := ((l.index + 2 ^ 32 - low) % 2 ^ 32 + 1) % 2 ^ 32,
    line := l.line,
    carets := if l.len < 101 then some l.len else none }

/-- The member `Lexer::report_error`: it prints the diagnostic that
`report_error_diagnostic` computes, changes no member and returns
`EXIT_FAILURE`. -/
def report_error (l : Lexer) : exit_code × Lexer := (exit_code.EXIT_FAILURE, l)

/-- The `do ... while (true)` loop of `Lexer::lex` with a step budget; `none`
when the budget is used up before the loop returns. -/
def lex_loop : Nat → Lexer → Option (exit_code × Lexer)
  | 0, _ => none
  | n + 1, l =>
    match lex_director l with
    | (exit_code.EXIT_SUCCESS, l1) => lex_loop n l1
    | (exit_code.EXIT_DONE, l1) =>
      some (exit_code.EXIT_SUCCESS, (add_token { l1 with len := 0 } token_type.EOT).2)
    | (exit_code.EXIT_FAILURE, l1) => some (report_error l1)

/-- The member `Lexer::lex`.  Every pass of the loop that continues moves the
cursor forward, so `budget + 1` passes are enough. -/
def lex (l : Lexer) : Option (exit_code × Lexer) := lex_loop (l.budget + 1) l

/-! ## Functions used to state the properties -/

/-- The number of newline bytes among the `k` bytes from offset `i`. -/
def nl_count (f : file_t) (i : Nat) : Nat → Nat
  | 0 => 0
  | k + 1 => (if f.at i = 10 then 1 else 0) + nl_count f (i + 1) k

/-- The function `advance_len_inc` applied `k` times. -/
def advance_len_inc_times : Nat → Lexer → Lexer
  | 0, l => l
  | k + 1, l => advance_len_inc_times k (advance_len_inc l)

/-- The length of the run of bytes that satisfy `p` from offset `i`, cut at `n`. -/
def run_length (p : Nat → Bool) (f : file_t) (i : Nat) : Nat → Nat
  | 0 => 0
  | n + 1 => if p (f.at i) then run_length p f (i + 1) n + 1 else 0

/-- What a sub-scanner that is dispatched on the state `l` may return.  With
`EXIT_SUCCESS` the cursor has moved forward and at most one token, which is
not the sentinel, has been appended; otherwise the tokens are unchanged. -/
def Outcome (l : Lexer) (r : exit_code × Lexer) : Prop :=
  r.2.file = l.file ∧ r.2.file_length = l.file_length ∧
  r.2.begin_tok_line = l.begin_tok_line ∧
  match r.1 with
  | exit_code.EXIT_SUCCESS =>
    r.2.error = l.error ∧ l.index < r.2.index ∧ current l ≠ 0 ∧
    (r.2.tokens = l.tokens ∨
      ∃ tok, r.2.tokens = l.tokens ++ [tok] ∧ tok.type ≠ token_type.EOT ∧
        l.index ≤ tok.index ∧ 1 ≤ tok.length ∧ tok.index + tok.length = r.2.index ∧
        tok.line = l.begin_tok_line)
  | exit_code.EXIT_FAILURE => r.2.tokens = l.tokens
  | exit_code.EXIT_DONE =>
    r.2.tokens = l.tokens ∧ r.2.error = l.error ∧ r.2.index = l.index ∧
    r.2.line = l.line ∧ current l = 0

/-- The state on which `lex_director` dispatches: whitespace is skipped, `len`
is reset and the line of the pending token is recorded. -/
def dispatch_state (l : Lexer) : Lexer :=
  { skip_whitespace l with len := 0, begin_tok_line := (skip_whitespace l).line }

/-- Stated from the spec (4.2, the keyword set): the kind of an identifier
shaped lexeme.  Each of the 25 keywords has its own kind; every other lexeme
is an `Identifier`.  This is the table the claim lists, to be compared with
`lex_identifiers_type`. -/
def keyword_kind (w : List Nat) : token_type :=
  if w = [102, 110] /- "fn" -/ then token_type.Function
  else if w = [105, 102] /- "if" -/ then token_type.If
  else if w = [105, 110] /- "in" -/ then token_type.In
  else if w = [111, 114] /- "or" -/ then token_type.Or
  else if w = [102, 111, 114] /- "for" -/ then token_type.For
  else if w = [112, 117, 98] /- "pub" -/ then token_type.Public
  else if w = [105, 110, 116] /- "int" -/ then token_type.IntKeyword
  else if w = [114, 101, 102] /- "ref" -/ then token_type.Ref
  else if w = [97, 110, 100] /- "and" -/ then token_type.And
  else if w = [110, 105, 108] /- "nil" -/ then token_type.Nil
  else if w = [101, 108, 115, 101] /- "else" -/ then token_type.Else
  else if w = [101, 110, 117, 109] /- "enum" -/ then token_type.Enum
  else if w = [116, 114, 117, 101] /- "true" -/ then token_type.True
  else if w = [99, 104, 97, 114] /- "char" -/ then token_type.CharKeyword
  else if w = [98, 111, 111, 108] /- "bool" -/ then token_type.BoolKeyword
  else if w = [117, 105, 110, 116] /- "uint" -/ then token_type.UintKeyword
  else if w = [119, 104, 105, 108, 101] /- "while" -/ then token_type.While
  else if w = [102, 97, 108, 115, 101] /- "false" -/ then token_type.False
  else if w = [102, 108, 111, 97, 116] /- "float" -/ then token_type.FloatKeyword
  else if w = [98, 114, 101, 97, 107] /- "break" -/ then token_type.Break
  else if w = [114, 101, 116, 117, 114, 110] /- "return" -/ then token_type.Return
  else if w = [105, 109, 112, 111, 114, 116] /- "import" -/ then token_type.Import
  else if w = [100, 101, 108, 101, 116, 101] /- "delete" -/ then token_type.Delete
  else if w = [115, 116, 114, 117, 99, 116] /- "struct" -/ then token_type.Struct
  else if w = [115, 119, 105, 116, 99, 104] /- "switch" -/ then token_type.Switch
  else token_type.Identifier

/-- The bytes of an identifier: ASCII letters, digits and the underscore. -/
def is_ident_byte (c : Nat) : Bool := isalnum c || decide (c = 95)

/-- Stated from the spec (4.7): the ten operators that have a two byte form,
as (first byte, completing byte, kind of the two byte operator, kind of the
one byte operator). -/
def operator_pairs : List (Nat × Nat × token_type × token_type) :=
  [ (46, 46, token_type.To, token_type.Dot)                /- `.`  `..` -/,
    (58, 58, token_type.ColonColon, token_type.Colon)      /- `:`  `::` -/,
    (62, 61, token_type.GreaterEql, token_type.Greater)    /- `>`  `>=` -/,
    (60, 61, token_type.LessEql, token_type.Less)          /- `<`  `<=` -/,
    (61, 61, token_type.EqualEqual, token_type.Equal)      /- `=`  `==` -/,
    (43, 61, token_type.AddEqual, token_type.PLUS)         /- `+`  `+=` -/,
    (45, 61, token_type.SubEqual, token_type.MINUS)        /- `-`  `-=` -/,
    (42, 61, token_type.MultEqual, token_type.Star)        /- `*`  `*=` -/,
    (47, 61, token_type.DivEqual, token_type.DIV)          /- `/`  `/=` -/,
    (33, 61, token_type.NotEqual, token_type.Not)          /- `!`  `!=` -/ ]

/-- The state of the pass after `k` dispatches that all returned
`EXIT_SUCCESS`; `none` when one of them did not. -/
def dispatches : Nat → Lexer → Option Lexer
  | 0, l => some l
  | k + 1, l =>
    match lex_director l with
    | (exit_code.EXIT_SUCCESS, l1) => dispatches k l1
    | _ => none

/-- Stated from the spec (4.6): the names of the directive set, `col`, `line`,
`file`, `print`, `println`. -/
def builtin_names : List (List Nat) :=
  [ [99, 111, 108]                       /- "col" -/,
    [108, 105, 110, 101]                 /- "line" -/,
    [102, 105, 108, 101]                 /- "file" -/,
    [112, 114, 105, 110, 116]            /- "print" -/,
    [112, 114, 105, 110, 116, 108, 110]  /- "println" -/ ]

/-- The order of two consecutive tokens: the second one starts at or after the
end of the first one, and strictly after its start. -/
def token_before (a b : Token) : Prop := a.index + a.length ≤ b.index ∧ a.index < b.index

/-- The tokens of a sequence are in source order and do not overlap. -/
def tokens_ordered (ts : List Token) : Prop := List.Chain' token_before ts

/-- A complete pass over a buffer, from a freshly constructed `Lexer`. -/
def scan (buffer : List Nat) : Option (exit_code × Lexer) := lex (Lexer.new ⟨buffer⟩)

/-- The token sequence of a complete pass. -/
def scan_tokens (buffer : List Nat) : Option (exit_code × List Token) :=
  (scan buffer).map (fun r => (r.1, r.2.tokens))

/-- The bytes of the buffer from offset `i`, `k` of them. -/
def slice (f : file_t) (i k : Nat) : List Nat := (f.contents.drop i).take k

/-- The kind of the first token of a pass over `buffer` that returns success;
`none` when the pass fails. -/
def first_kind (buffer : List Nat) : Option token_type :=
  match scan buffer with
  | some (exit_code.EXIT_SUCCESS, r) => r.tokens.head?.map Token.type
  | _ => none

/-- The slice of the token `t` lies inside the buffer, and a pass over that
slice alone succeeds with a first token of the kind of `t`; for a
`BuiltinFunc` token, whose slice is the name without the `@`, the first token
is an `Identifier`. -/
def relexes (f : file_t) (t : Token) : Prop :=
  t.index + t.length ≤ f.length ∧
  first_kind (slice f t.index t.length) =
    some (if t.type = token_type.BuiltinFunc then token_type.Identifier else t.type)

/-- A dispatch on the state `l` that returns success appends no token, or a
`String` token, or a token of which `relexes` holds. -/
def token_relexes (l : Lexer) (r : exit_code × Lexer) : Prop :=
  r.1 = exit_code.EXIT_SUCCESS →
    r.2.tokens = l.tokens ∨
    ∃ tok, r.2.tokens = l.tokens ++ [tok] ∧
      (tok.type = token_type.String ∨ relexes l.file tok)

end rotate

namespace rotate

/-! ## The cursor primitives in closed form -/

theorem u32_sub_of_le (a b : Nat) (h : b ≤ a) : u32_sub a b = a - b := if_pos h

theorem u32_sub_add_cancel (a b : Nat) : u32_sub (a + b) b = a := by
  rw [u32_sub_of_le _ _ (Nat.le_add_left b a), Nat.add_sub_cancel]

theorem advance_times_eq (k : Nat) (l : Lexer) :
    advance_times k l =
      { l with index := l.index + k, line := l.line + nl_count l.file l.index k } := by
  induction k generalizing l with
  | zero => simp [advance_times, nl_count]
  | succ k ih =>
    simp only [advance_times, ih, advance, nl_count, current]
    by_cases h : l.file.at l.index = 10 <;> simp [h] <;> omega

theorem advance_len_inc_times_eq (k : Nat) (l : Lexer) :
    advance_len_inc_times k l =
      { l with index := l.index + k, len := l.len + k,
               line := l.line + nl_count l.file l.index k } := by
  induction k generalizing l with
  | zero => simp [advance_len_inc_times, nl_count]
  | succ k ih =>
    simp only [advance_len_inc_times, ih, advance_len_inc, nl_count, current]
    by_cases h : l.file.at l.index = 10 <;> simp [h] <;> omega

theorem add_token_eq (l : Lexer) (type : token_type) :
    add_token l type =
      (exit_code.EXIT_SUCCESS,
        { l with tokens := l.tokens ++ [⟨type, l.index, l.len, l.begin_tok_line⟩],
                 index := l.index + l.len,
                 line := l.line + nl_count l.file l.index l.len }) := by
  simp [add_token, advance_times_eq]

/-! ## Runs of bytes -/

theorem at_eq_zero_of_le (f : file_t) (i : Nat) (h : f.length ≤ i) : f.at i = 0 := by
  unfold file_t.at file_t.length at *
  rw [List.getD_eq_default _ _ h]

theorem lt_length_of_at_ne_zero (f : file_t) (i : Nat) (h : f.at i ≠ 0) : i < f.length := by
  by_contra hn
  exact h (at_eq_zero_of_le f i (by omega))

theorem run_length_le (p : Nat → Bool) (f : file_t) (i n : Nat) : run_length p f i n ≤ n := by
  induction n generalizing i with
  | zero => simp [run_length]
  | succ n ih =>
    simp only [run_length]
    split
    · have := ih (i + 1); omega
    · omega

theorem run_length_all (p : Nat → Bool) (f : file_t) (i n j : Nat)
    (h : j < run_length p f i n) : p (f.at (i + j)) = true := by
  induction n generalizing i j with
  | zero => simp [run_length] at h
  | succ n ih =>
    simp only [run_length] at h
    split at h
    · rename_i hp
      cases j with
      | zero => simpa using hp
      | succ j =>
        have := ih (i + 1) j (by omega)
        rwa [show i + 1 + j = i + (j + 1) by omega] at this
    · omega

theorem run_length_stop (p : Nat → Bool) (f : file_t) (i n : Nat)
    (h : run_length p f i n < n) : p (f.at (i + run_length p f i n)) = false := by
  induction n generalizing i with
  | zero => omega
  | succ n ih =>
    simp only [run_length] at h ⊢
    split
    · rename_i hp
      simp only [hp, if_true] at h
      have := ih (i + 1) (by omega)
      rwa [show i + 1 + run_length p f (i + 1) n = i + (run_length p f (i + 1) n + 1) by omega]
        at this
    · rename_i hp
      simpa using hp

theorem run_length_le_budget (p : Nat → Bool) (hp : p 0 = false) (f : file_t) (i n : Nat) :
    run_length p f i n ≤ f.length - i := by
  induction n generalizing i with
  | zero => simp [run_length]
  | succ n ih =>
    simp only [run_length]
    split
    · rename_i h
      have hi : i < f.length := by
        apply lt_length_of_at_ne_zero
        intro h0
        rw [h0, hp] at h
        exact Bool.noConfusion h
      have := ih (i + 1); omega
    · omega

/-- With a budget of at least the rest of the buffer, a run ends at a byte
that does not satisfy the predicate. -/
theorem run_length_exit (p : Nat → Bool) (hp : p 0 = false) (f : file_t) (i n : Nat)
    (hn : f.length - i ≤ n) : p (f.at (i + run_length p f i n)) = false := by
  by_cases h : run_length p f i n < n
  · exact run_length_stop p f i n h
  · have h1 := run_length_le p f i n
    have h2 := run_length_le_budget p hp f i n
    rw [at_eq_zero_of_le f _ (by omega)]
    exact hp

/-! ## The loops in closed form -/

/-- The bytes skipped by `skip_whitespace`. -/
theorem skip_whitespace_loop_eq (n : Nat) (l : Lexer) :
    skip_whitespace_loop n l =
      advance_times
        (run_length (fun c => decide (c = 10) || decide (c = 32)) l.file l.index n) l := by
  induction n generalizing l with
  | zero => simp [skip_whitespace_loop, run_length, advance_times]
  | succ n ih =>
    simp only [skip_whitespace_loop, run_length, current]
    by_cases h10 : l.file.at l.index = 10
    · simp [h10, ih, advance_times, advance, current]
    · by_cases h32 : l.file.at l.index = 32
      · simp [h32, ih, advance_times, advance, current]
      · simp [h10, h32, advance_times]

theorem lex_identifiers_loop_eq (n : Nat) (l : Lexer) :
    lex_identifiers_loop n l =
      advance_len_inc_times (run_length is_ident_byte l.file l.index n) l := by
  induction n generalizing l with
  | zero => simp [lex_identifiers_loop, run_length, advance_len_inc_times]
  | succ n ih =>
    simp only [lex_identifiers_loop, run_length, current, is_ident_byte]
    by_cases h : (isalnum (l.file.at l.index) || decide (l.file.at l.index = 95)) = true
    · simp only [h, if_true, ih, advance_len_inc_times]
      simp [advance_len_inc]
    · simp [h, advance_len_inc_times]

theorem lex_builtin_funcs_loop_eq (n : Nat) (l : Lexer) :
    lex_builtin_funcs_loop n l =
      advance_len_inc_times (run_length isalpha l.file l.index n) l := by
  induction n generalizing l with
  | zero => simp [lex_builtin_funcs_loop, run_length, advance_len_inc_times]
  | succ n ih =>
    simp only [lex_builtin_funcs_loop, run_length, current]
    by_cases h : isalpha (l.file.at l.index) = true
    · simp only [h, if_true, ih, advance_len_inc_times]
      simp [advance_len_inc]
    · simp [h, advance_len_inc_times]

theorem lex_numbers_loop_eq (n : Nat) (l : Lexer) (reached_dot : Bool) :
    ∃ k, k ≤ n ∧ (lex_numbers_loop n l reached_dot).1 = advance_len_inc_times k l ∧
      (0 < n → isdigit (current l) = true → 1 ≤ k) := by
  induction n generalizing l reached_dot with
  | zero => exact ⟨0, Nat.le_refl 0, rfl, fun h => absurd h (Nat.lt_irrefl 0)⟩
  | succ n ih =>
    simp only [lex_numbers_loop]
    by_cases hc : (isdigit (current l) || decide (current l = 46)) = true
    · rw [if_pos hc]
      by_cases hd : current (advance_len_inc l) = 46
      · rw [if_pos hd]
        cases reached_dot with
        | true => exact ⟨1, by omega, rfl, fun _ _ => Nat.le_refl 1⟩
        | false =>
          obtain ⟨k, hk, he, _⟩ := ih (advance_len_inc l) true
          exact ⟨k + 1, by omega, by simpa [advance_len_inc_times] using he, fun _ _ => by omega⟩
      · rw [if_neg hd]
        obtain ⟨k, hk, he, _⟩ := ih (advance_len_inc l) reached_dot
        exact ⟨k + 1, by omega, by simpa [advance_len_inc_times] using he, fun _ _ => by omega⟩
    · rw [if_neg hc]
      refine ⟨0, by omega, rfl, fun _ h => ?_⟩
      simp [h] at hc

theorem lex_strings_loop_eq (n : Nat) (l : Lexer) :
    ∃ k, k ≤ n ∧
      (lex_strings_loop n l = Except.ok (advance_len_inc_times k l) ∨
       lex_strings_loop n l =
         Except.error
           { (reverse_len_for_error (advance_len_inc_times k l)).2 with
             error := error_type.NOT_CLOSED_STRING }) := by
  induction n generalizing l with
  | zero => exact ⟨0, Nat.le_refl 0, Or.inl rfl⟩
  | succ n ih =>
    simp only [lex_strings_loop]
    by_cases hc : current l ≠ 34 ∧ past l ≠ 92
    · rw [if_pos hc]
      by_cases h0 : current l = 0
      · rw [if_pos h0]
        exact ⟨0, by omega, Or.inr rfl⟩
      · rw [if_neg h0]
        obtain ⟨k, hk, he⟩ := ih (advance_len_inc l)
        exact ⟨k + 1, by omega, by simpa [advance_len_inc_times] using he⟩
    · rw [if_neg hc]
      exact ⟨0, by omega, Or.inl rfl⟩

theorem line_comment_loop_eq (n : Nat) (l : Lexer) :
    ∃ k, k ≤ n ∧ line_comment_loop n l = advance_times k l ∧
      (0 < n → is_not_eof l = true → current l ≠ 10 → 1 ≤ k) := by
  induction n generalizing l with
  | zero => exact ⟨0, Nat.le_refl 0, rfl, fun h => absurd h (Nat.lt_irrefl 0)⟩
  | succ n ih =>
    simp only [line_comment_loop]
    by_cases hc : (is_not_eof l && decide (current l ≠ 10)) = true
    · rw [if_pos hc]
      obtain ⟨k, hk, he, _⟩ := ih (advance l)
      exact ⟨k + 1, by omega, by simpa [advance_times] using he, fun _ _ _ => by omega⟩
    · rw [if_neg hc]
      refine ⟨0, by omega, rfl, fun _ h1 h2 => ?_⟩
      simp [h1, h2] at hc

theorem block_comment_loop_eq (n : Nat) (l : Lexer) (end_comment : Bool) :
    ∃ k, block_comment_loop n l end_comment = advance_times k l := by
  induction n generalizing l end_comment with
  | zero => exact ⟨0, rfl⟩
  | succ n ih =>
    simp only [block_comment_loop]
    by_cases hc : (is_not_eof l && !end_comment) = true
    · rw [if_pos hc]
      by_cases hx : past l ≠ 47 ∧ current l = 42 ∧ peek l = 47
      · rw [if_pos hx]
        obtain ⟨k, he⟩ := ih (advance (advance l)) true
        exact ⟨k + 2, by simpa [advance_times] using he⟩
      · rw [if_neg hx]
        obtain ⟨k, he⟩ := ih (advance l) end_comment
        exact ⟨k + 1, by simpa [advance_times] using he⟩
    · rw [if_neg hc]
      exact ⟨0, rfl⟩

/-! ## What one dispatch does -/

theorem outcome_add_token (l0 l : Lexer) (type : token_type)
    (hty : type ≠ token_type.EOT) (hfile : l.file = l0.file)
    (hfl : l.file_length = l0.file_length) (hbtl : l.begin_tok_line = l0.begin_tok_line)
    (herr : l.error = l0.error) (htok : l.tokens = l0.tokens) (hidx : l0.index ≤ l.index)
    (hlen : 1 ≤ l.len) (hcur : current l0 ≠ 0) : Outcome l0 (add_token l type) := by
  rw [add_token_eq]
  refine ⟨hfile, hfl, hbtl, herr, ?_, hcur, Or.inr ⟨⟨type, l.index, l.len, l.begin_tok_line⟩, ?_⟩⟩
  · show l0.index < l.index + l.len
    omega
  · simp [htok, hty, hidx, hlen, hbtl]

theorem outcome_single (l : Lexer) (type : token_type) (hty : type ≠ token_type.EOT)
    (hcur : current l ≠ 0) : Outcome l (add_token { l with len := 1 } type) :=
  outcome_add_token l _ type hty rfl rfl rfl rfl rfl (Nat.le_refl _) (Nat.le_refl _) hcur

theorem outcome_line_comment (l : Lexer) (hfl : l.file_length = l.file.length)
    (hcur : current l = 47) :
    Outcome l (exit_code.EXIT_SUCCESS,
      line_comment_loop (Lexer.budget { l with len := 1 }) { l with len := 1 }) := by
  have hlt : l.index < l.file.length :=
    lt_length_of_at_ne_zero l.file l.index (by unfold current at hcur; omega)
  obtain ⟨k, _, he, hk⟩ := line_comment_loop_eq (Lexer.budget { l with len := 1 }) { l with len := 1 }
  have hk1 : 1 ≤ k := by
    apply hk
    · show 0 < l.file.length - l.index
      omega
    · simp [is_not_eof, hfl, hlt]
    · show current l ≠ 10
      omega
  rw [he, advance_times_eq]
  refine ⟨rfl, rfl, rfl, rfl, ?_, by omega, Or.inl rfl⟩
  show l.index < l.index + k
  omega

theorem outcome_block_comment (l : Lexer) (hcur : current l = 47) :
    Outcome l (exit_code.EXIT_SUCCESS,
      block_comment_loop (advance { l with len := 1 }).budget (advance { l with len := 1 })
        false) := by
  obtain ⟨k, he⟩ :=
    block_comment_loop_eq (advance { l with len := 1 }).budget (advance { l with len := 1 }) false
  rw [he, advance_times_eq]
  refine ⟨rfl, rfl, rfl, rfl, ?_, by omega, Or.inl rfl⟩
  show l.index < l.index + 1 + k
  omega

theorem outcome_ite (P : Prop) [Decidable P] (l : Lexer) (a b : exit_code × Lexer)
    (ha : P → Outcome l a) (hb : ¬P → Outcome l b) : Outcome l (if P then a else b) := by
  split
  · exact ha (by assumption)
  · exact hb (by assumption)

theorem lex_symbols_outcome (l : Lexer) (hfl : l.file_length = l.file.length) :
    Outcome l (lex_symbols l) := by
  unfold lex_symbols
  dsimp only
  repeat' refine outcome_ite _ l _ _ (fun _ => ?_) (fun _ => ?_)
  all_goals
    first
    | exact outcome_single l _ (by decide) (by omega)
    | exact outcome_add_token l _ _ (by decide) rfl rfl rfl rfl rfl (Nat.le_refl _)
        (by simp) (by omega)
    | exact outcome_line_comment l hfl (by assumption)
    | exact outcome_block_comment l (by assumption)
    | exact ⟨rfl, rfl, rfl, rfl, rfl, rfl, rfl, by assumption⟩
    | exact ⟨rfl, rfl, rfl, rfl⟩


theorem ite_ne_EOT (P : Prop) [Decidable P] (a b : token_type)
    (ha : a ≠ token_type.EOT) (hb : b ≠ token_type.EOT) :
    (if P then a else b) ≠ token_type.EOT := by
  split
  · exact ha
  · exact hb

theorem lex_identifiers_type_ne_EOT (l : Lexer) : lex_identifiers_type l ≠ token_type.EOT := by
  unfold lex_identifiers_type
  dsimp only
  repeat' refine ite_ne_EOT _ _ _ ?_ ?_
  all_goals decide

theorem lex_identifiers_outcome (l : Lexer) (hlen : l.len = 0) (hcur : current l ≠ 0) :
    Outcome l (lex_identifiers l) := by
  unfold lex_identifiers
  dsimp only
  rw [lex_identifiers_loop_eq, advance_len_inc_times_eq]
  simp only [advance_len_inc, hlen]
  refine outcome_ite _ l _ _ (fun _ => ⟨rfl, rfl, rfl, rfl⟩) (fun _ => ?_)
  refine outcome_add_token l _ _ (lex_identifiers_type_ne_EOT _) rfl rfl rfl rfl rfl ?_ ?_ hcur
  · simp only []
    omega
  · simp only []
    omega

theorem lex_numbers_outcome (l : Lexer) (hlen : l.len = 0) (hdig : isdigit (current l) = true) :
    Outcome l (lex_numbers l) := by
  have hcur : current l ≠ 0 := by
    intro h
    rw [h] at hdig
    exact Bool.noConfusion hdig
  have hlt : l.index < l.file.length := lt_length_of_at_ne_zero l.file l.index hcur
  unfold lex_numbers
  dsimp only
  obtain ⟨k, _, he, hk⟩ := lex_numbers_loop_eq l.budget l false
  have hk1 : 1 ≤ k := hk (by show 0 < l.file.length - l.index; omega) hdig
  rw [he, advance_len_inc_times_eq]
  simp only [hlen]
  refine outcome_ite _ l _ _ (fun _ => ⟨rfl, rfl, rfl, rfl⟩) (fun _ => ?_)
  refine outcome_add_token l _ _ ?_ rfl rfl rfl rfl rfl ?_ ?_ hcur
  · split <;> decide
  · simp only []
    omega
  · simp only []
    omega

theorem lex_strings_outcome (l : Lexer) (hlen : l.len = 0) (hcur : current l ≠ 0) :
    Outcome l (lex_strings l) := by
  unfold lex_strings
  dsimp only
  obtain ⟨k, _, he⟩ := lex_strings_loop_eq ((advance_len_inc l).budget + 1) (advance_len_inc l)
  rcases he with he | he
  · rw [he]
    dsimp only
    rw [advance_len_inc_times_eq]
    simp only [advance_len_inc, hlen]
    refine outcome_add_token l _ _ (by decide) rfl rfl rfl rfl rfl ?_ ?_ hcur
    · simp only []
      omega
    · simp only []
      omega
  · rw [he]
    dsimp only
    rw [advance_len_inc_times_eq]
    exact ⟨rfl, rfl, rfl, rfl⟩

theorem lex_chars_outcome (l : Lexer) (hlen : l.len = 0) (hcur : current l ≠ 0) :
    Outcome l (lex_chars l) := by
  unfold lex_chars
  dsimp only
  simp only [advance_len_inc, hlen, reverse_len_for_error]
  repeat' refine outcome_ite _ l _ _ (fun _ => ?_) (fun _ => ?_)
  all_goals
    first
    | exact ⟨rfl, rfl, rfl, rfl⟩
    | (refine outcome_add_token l _ _ (by decide) rfl rfl rfl rfl rfl ?_ ?_ hcur <;>
        simp only [] <;> omega)

theorem lex_builtin_funcs_match_len (l : Lexer) (h : lex_builtin_funcs_match l = true) :
    1 ≤ l.len := by
  by_contra hn
  have h0 : l.len = 0 := by omega
  simp [lex_builtin_funcs_match, h0] at h

theorem lex_builtin_funcs_outcome (l : Lexer) (hlen : l.len = 0) (hcur : current l ≠ 0) :
    Outcome l (lex_builtin_funcs l) := by
  unfold lex_builtin_funcs
  dsimp only
  rw [lex_builtin_funcs_loop_eq, advance_len_inc_times_eq]
  simp only [advance, hlen, reverse_len_for_error]
  refine outcome_ite _ l _ _ (fun hm => ?_) (fun _ => ⟨rfl, rfl, rfl, rfl⟩)
  refine outcome_add_token l _ _ (by decide) rfl rfl rfl rfl rfl ?_ ?_ hcur
  · simp only []
    omega
  · exact lex_builtin_funcs_match_len _ hm


theorem skip_whitespace_eq (l : Lexer) :
    ∃ k, skip_whitespace l = advance_times k l ∧
      current (advance_times k l) ≠ 10 ∧ current (advance_times k l) ≠ 32 := by
  refine ⟨run_length (fun c => decide (c = 10) || decide (c = 32)) l.file l.index l.budget,
    skip_whitespace_loop_eq _ _, ?_⟩
  have h := run_length_exit (fun c => decide (c = 10) || decide (c = 32)) (by decide)
    l.file l.index l.budget (Nat.le_refl _)
  rw [advance_times_eq]
  simpa [current] using h

theorem dispatch_state_eq (l : Lexer) :
    ∃ k, dispatch_state l =
      { l with index := l.index + k, len := 0,
               line := l.line + nl_count l.file l.index k,
               begin_tok_line := l.line + nl_count l.file l.index k } := by
  obtain ⟨k, hk, _⟩ := skip_whitespace_eq l
  exact ⟨k, by simp [dispatch_state, hk, advance_times_eq]⟩

theorem lex_director_eq (l : Lexer) :
    lex_director l =
      (let d := dispatch_state l
       if isdigit (current d) then lex_numbers d
       else if current d = 39 then lex_chars d
       else if current d = 34 then lex_strings d
       else if current d = 95 ∨ isalpha (current d) then lex_identifiers d
       else if current d = 64 then lex_builtin_funcs d
       else lex_symbols d) := rfl

theorem lex_director_outcome (l : Lexer) (hfl : l.file_length = l.file.length) :
    Outcome (dispatch_state l) (lex_director l) := by
  have hfl1 : (dispatch_state l).file_length = (dispatch_state l).file.length := by
    obtain ⟨k, hk⟩ := dispatch_state_eq l
    rw [hk]
    exact hfl
  have hlen : (dispatch_state l).len = 0 := rfl
  rw [lex_director_eq]
  dsimp only
  refine outcome_ite _ _ _ _ (fun h => lex_numbers_outcome _ hlen h) (fun _ => ?_)
  refine outcome_ite _ _ _ _ (fun h => lex_chars_outcome _ hlen (by omega)) (fun _ => ?_)
  refine outcome_ite _ _ _ _ (fun h => lex_strings_outcome _ hlen (by omega)) (fun _ => ?_)
  refine outcome_ite _ _ _ _ (fun h => lex_identifiers_outcome _ hlen ?_) (fun _ => ?_)
  · rcases h with h | h
    · omega
    · intro h0
      rw [h0] at h
      exact Bool.noConfusion h
  refine outcome_ite _ _ _ _ (fun h => lex_builtin_funcs_outcome _ hlen (by omega)) (fun _ => ?_)
  exact lex_symbols_outcome _ hfl1


theorem lex_director_success (l l1 : Lexer) (hfl : l.file_length = l.file.length)
    (h : lex_director l = (exit_code.EXIT_SUCCESS, l1)) :
    l1.file = l.file ∧ l1.file_length = l.file_length ∧ l1.error = l.error ∧
    l.index < l1.index ∧ l.index < l.file.length ∧
    (l1.tokens = l.tokens ∨
      ∃ tok, l1.tokens = l.tokens ++ [tok] ∧ tok.type ≠ token_type.EOT ∧
        l.index ≤ tok.index ∧ 1 ≤ tok.length ∧ tok.index + tok.length = l1.index) := by
  have ho := lex_director_outcome l hfl
  obtain ⟨k, hk⟩ := dispatch_state_eq l
  rw [h] at ho
  obtain ⟨h1, h2, _, h3, h4, h5, h6⟩ := ho
  have hlt := lt_length_of_at_ne_zero _ _ h5
  rw [hk] at h1 h2 h3 h4 h6 hlt
  dsimp only at h1 h2 h3 h4 h6 hlt
  refine ⟨h1, h2, h3, by omega, by omega, ?_⟩
  rcases h6 with h6 | ⟨tok, ht, hty, hi, hl, hs, _⟩
  · exact Or.inl h6
  · exact Or.inr ⟨tok, ht, hty, by omega, hl, hs⟩

theorem lex_director_failure (l l1 : Lexer) (hfl : l.file_length = l.file.length)
    (h : lex_director l = (exit_code.EXIT_FAILURE, l1)) :
    l1.file = l.file ∧ l1.file_length = l.file_length ∧ l1.tokens = l.tokens := by
  have ho := lex_director_outcome l hfl
  obtain ⟨k, hk⟩ := dispatch_state_eq l
  rw [h] at ho
  obtain ⟨h1, h2, _, h3⟩ := ho
  rw [hk] at h1 h2 h3
  exact ⟨h1, h2, h3⟩

theorem lex_director_done (l l1 : Lexer) (hfl : l.file_length = l.file.length)
    (h : lex_director l = (exit_code.EXIT_DONE, l1)) :
    l1.file = l.file ∧ l1.file_length = l.file_length ∧ l1.tokens = l.tokens ∧
    l1.error = l.error ∧ l.index ≤ l1.index := by
  have ho := lex_director_outcome l hfl
  obtain ⟨k, hk⟩ := dispatch_state_eq l
  rw [h] at ho
  obtain ⟨h1, h2, _, h3, h4, h5, _⟩ := ho
  rw [hk] at h1 h2 h3 h4 h5
  dsimp only at h5
  exact ⟨h1, h2, h3, h4, by omega⟩

/-! ## The main loop -/

theorem lex_loop_succ (n : Nat) (l : Lexer) :
    lex_loop (n + 1) l =
      match lex_director l with
      | (exit_code.EXIT_SUCCESS, l1) => lex_loop n l1
      | (exit_code.EXIT_DONE, l1) =>
        some (exit_code.EXIT_SUCCESS, (add_token { l1 with len := 0 } token_type.EOT).2)
      | (exit_code.EXIT_FAILURE, l1) => some (report_error l1) := rfl

/-- The loop of `lex` returns when its budget exceeds the rest of the buffer. -/
theorem lex_loop_returns (n : Nat) (l : Lexer) (hfl : l.file_length = l.file.length)
    (hn : l.budget < n) : ∃ r, lex_loop n l = some r := by
  induction n generalizing l with
  | zero => omega
  | succ n ih =>
    rw [lex_loop_succ]
    rcases hd : lex_director l with ⟨e, l1⟩
    cases e with
    | EXIT_SUCCESS =>
      obtain ⟨h1, h2, _, h4, h5, _⟩ := lex_director_success l l1 hfl hd
      apply ih l1 (by rw [h2, h1, hfl])
      unfold Lexer.budget at hn ⊢
      rw [h1]
      omega
    | EXIT_FAILURE => exact ⟨_, rfl⟩
    | EXIT_DONE => exact ⟨_, rfl⟩

/-- A result of the loop of `lex` does not depend on the budget. -/
theorem lex_loop_mono (n m : Nat) (l : Lexer) (r : exit_code × Lexer)
    (h : lex_loop n l = some r) : lex_loop (n + m) l = some r := by
  induction n generalizing l with
  | zero => exact Option.noConfusion h
  | succ n ih =>
    rw [show n + 1 + m = (n + m) + 1 by omega, lex_loop_succ]
    rw [lex_loop_succ] at h
    rcases hd : lex_director l with ⟨e, l1⟩
    rw [hd] at h
    cases e with
    | EXIT_SUCCESS => exact ih l1 h
    | EXIT_FAILURE => exact h
    | EXIT_DONE => exact h

theorem lex_loop_eq_lex (n : Nat) (l : Lexer) (hfl : l.file_length = l.file.length)
    (hn : l.budget < n) : lex_loop n l = lex l := by
  obtain ⟨r, hr⟩ := lex_loop_returns (l.budget + 1) l hfl (Nat.lt_succ_self _)
  have := lex_loop_mono (l.budget + 1) (n - (l.budget + 1)) l r hr
  rw [show l.budget + 1 + (n - (l.budget + 1)) = n by omega] at this
  rw [this, lex, hr]

/-- Every pass returns: `lex` is total. -/
theorem lex_returns (l : Lexer) (hfl : l.file_length = l.file.length) :
    ∃ r, lex l = some r :=
  lex_loop_returns _ l hfl (Nat.lt_succ_self _)


theorem lex_loop_tokens (n : Nat) (l r : Lexer) (hfl : l.file_length = l.file.length)
    (hno : ∀ x ∈ l.tokens, x.type ≠ token_type.EOT)
    (h : lex_loop n l = some (exit_code.EXIT_SUCCESS, r)) :
    ∃ ts t, r.tokens = ts ++ [t] ∧ t.type = token_type.EOT ∧ t.length = 0 ∧
      ∀ x ∈ ts, x.type ≠ token_type.EOT := by
  induction n generalizing l with
  | zero => exact Option.noConfusion h
  | succ n ih =>
    rw [lex_loop_succ] at h
    rcases hd : lex_director l with ⟨e, l1⟩
    rw [hd] at h
    cases e with
    | EXIT_SUCCESS =>
      obtain ⟨h1, h2, _, _, _, h6⟩ := lex_director_success l l1 hfl hd
      refine ih l1 (by rw [h2, h1, hfl]) ?_ h
      rcases h6 with h6 | ⟨tok, ht, hty, _⟩
      · rw [h6]
        exact hno
      · rw [ht]
        intro x hx
        rcases List.mem_append.mp hx with hx | hx
        · exact hno x hx
        · rw [List.mem_singleton.mp hx]
          exact hty
    | EXIT_FAILURE =>
      dsimp only [report_error] at h
      simp at h
    | EXIT_DONE =>
      obtain ⟨_, _, h3, _⟩ := lex_director_done l l1 hfl hd
      dsimp only at h
      rw [add_token_eq] at h
      simp only [Option.some.injEq, Prod.mk.injEq, true_and] at h
      subst h
      exact ⟨l.tokens, _, by rw [h3], rfl, rfl, hno⟩

/-! ## Reading a known lexeme at the cursor -/

theorem at_eq_headD_drop (f : file_t) (i : Nat) : f.at i = (f.contents.drop i).headD 0 := by
  unfold file_t.at
  induction f.contents generalizing i with
  | nil => simp
  | cons x xs ih =>
    cases i with
    | zero => simp
    | succ i => simp

theorem drop_succ_of_drop_cons (xs : List Nat) (i : Nat) (x : Nat) (w : List Nat)
    (h : xs.drop i = x :: w) : xs.drop (i + 1) = w := by
  have := congrArg List.tail h
  simpa [List.tail_drop] using this

theorem run_length_lexeme (p : Nat → Bool) (f : file_t) (w rest : List Nat) (i n : Nat)
    (hdrop : f.contents.drop i = w ++ rest) (hall : ∀ x ∈ w, p x = true)
    (hstop : p (rest.headD 0) = false) (hn : w.length ≤ n) :
    run_length p f i n = w.length := by
  induction w generalizing i n with
  | nil =>
    cases n with
    | zero => rfl
    | succ n =>
      simp only [run_length, at_eq_headD_drop, hdrop, List.nil_append, hstop]
      rfl
  | cons x w ih =>
    cases n with
    | zero => simp at hn
    | succ n =>
      have hx : p x = true := hall x (List.mem_cons_self x w)
      simp only [run_length, at_eq_headD_drop, hdrop, List.cons_append, List.headD_cons, hx,
        if_true, List.length_cons]
      rw [ih (i + 1) n (drop_succ_of_drop_cons _ _ _ _ hdrop)
        (fun y hy => hall y (List.mem_cons_of_mem x hy)) (by simpa using hn)]

theorem nl_count_lexeme (f : file_t) (w rest : List Nat) (i : Nat)
    (hdrop : f.contents.drop i = w ++ rest) (hall : ∀ x ∈ w, x ≠ 10) :
    nl_count f i w.length = 0 := by
  induction w generalizing i with
  | nil => rfl
  | cons x w ih =>
    have hx : x ≠ 10 := hall x (List.mem_cons_self x w)
    simp only [List.length_cons, nl_count, at_eq_headD_drop, hdrop, List.cons_append,
      List.headD_cons, hx, if_false]
    rw [ih (i + 1) (drop_succ_of_drop_cons _ _ _ _ hdrop)
      (fun y hy => hall y (List.mem_cons_of_mem x hy))]

theorem length_of_drop (f : file_t) (w rest : List Nat) (i : Nat)
    (hdrop : f.contents.drop i = w ++ rest) :
    f.length - i = w.length + rest.length := by
  have := congrArg List.length hdrop
  simpa [file_t.length] using this

theorem strncmp_eq_lexeme (w rest s : List Nat) (hlen : w.length = s.length)
    (hnz : ∀ x ∈ w, x ≠ 0) : strncmp_eq (w ++ rest) s s.length = decide (w = s) := by
  induction w generalizing s with
  | nil =>
    cases s with
    | nil => simp [strncmp_eq]
    | cons y s => simp at hlen
  | cons x w ih =>
    cases s with
    | nil => simp at hlen
    | cons y s =>
      have hx : x ≠ 0 := hnz x (List.mem_cons_self x w)
      simp only [List.length_cons, strncmp_eq, List.cons_append, List.headD_cons, List.tail_cons]
      by_cases hxy : x = y
      · subst hxy
        simp only [ne_eq, not_true_eq_false, if_false, hx]
        rw [ih s (by simpa using hlen) (fun z hz => hnz z (List.mem_cons_of_mem x hz))]
        simp
      · simp [hxy]

theorem keyword_match_lexeme (l : Lexer) (w rest s : List Nat)
    (hdrop : l.file.contents.drop l.index = w ++ rest) (hlen : w.length = s.length)
    (hnz : ∀ x ∈ w, x ≠ 0) : keyword_match l s s.length = decide (w = s) := by
  unfold keyword_match
  rw [hdrop]
  exact strncmp_eq_lexeme w rest s hlen hnz

theorem current_eq_headD (l : Lexer) (w : List Nat)
    (hdrop : l.file.contents.drop l.index = w) : current l = w.headD 0 := by
  unfold current
  rw [at_eq_headD_drop, hdrop]

theorem lex_identifiers_type_len2 (l : Lexer) (a b : Nat) (rest : List Nat)
    (hdrop : l.file.contents.drop l.index = [a, b] ++ rest) (hlen : l.len = 2)
    (hnz : ∀ x ∈ [a, b], x ≠ 0) : lex_identifiers_type l = keyword_kind [a, b] := by
  have hk : ∀ x0 x1, keyword_match l [x0, x1] 2 = decide ([a, b] = [x0, x1]) :=
    fun x0 x1 => keyword_match_lexeme l [a, b] rest [x0, x1] hdrop rfl hnz
  have hcur : current l = a := current_eq_headD l _ hdrop
  simp only [lex_identifiers_type, hlen, hcur, hk]
  by_cases h1 : [a, b] = [102, 110]
  · cases h1
    rfl
  by_cases h2 : [a, b] = [105, 102]
  · cases h2
    rfl
  by_cases h3 : [a, b] = [105, 110]
  · cases h3
    rfl
  by_cases h4 : [a, b] = [111, 114]
  · cases h4
    rfl
  simp only [h1, h2, h3, h4, decide_False, Bool.false_eq_true, if_false, ite_self, keyword_kind]
  simp

theorem lex_identifiers_type_len3 (l : Lexer) (a b c : Nat) (rest : List Nat)
    (hdrop : l.file.contents.drop l.index = [a, b, c] ++ rest) (hlen : l.len = 3)
    (hnz : ∀ x ∈ [a, b, c], x ≠ 0) : lex_identifiers_type l = keyword_kind [a, b, c] := by
  have hk : ∀ x0 x1 x2, keyword_match l [x0, x1, x2] 3 = decide ([a, b, c] = [x0, x1, x2]) :=
    fun x0 x1 x2 => keyword_match_lexeme l [a, b, c] rest [x0, x1, x2] hdrop rfl hnz
  have hcur : current l = a := current_eq_headD l _ hdrop
  simp only [lex_identifiers_type, hlen, hcur, hk]
  by_cases h1 : [a, b, c] = [102, 111, 114]
  · cases h1
    rfl
  by_cases h2 : [a, b, c] = [112, 117, 98]
  · cases h2
    rfl
  by_cases h3 : [a, b, c] = [105, 110, 116]
  · cases h3
    rfl
  by_cases h4 : [a, b, c] = [114, 101, 102]
  · cases h4
    rfl
  by_cases h5 : [a, b, c] = [97, 110, 100]
  · cases h5
    rfl
  by_cases h6 : [a, b, c] = [110, 105, 108]
  · cases h6
    rfl
  simp only [h1, h2, h3, h4, h5, h6, decide_False, Bool.false_eq_true, if_false, ite_self, keyword_kind]
  simp

theorem lex_identifiers_type_len4 (l : Lexer) (a b c d : Nat) (rest : List Nat)
    (hdrop : l.file.contents.drop l.index = [a, b, c, d] ++ rest) (hlen : l.len = 4)
    (hnz : ∀ x ∈ [a, b, c, d], x ≠ 0) : lex_identifiers_type l = keyword_kind [a, b, c, d] := by
  have hk : ∀ x0 x1 x2 x3, keyword_match l [x0, x1, x2, x3] 4 = decide ([a, b, c, d] = [x0, x1, x2, x3]) :=
    fun x0 x1 x2 x3 => keyword_match_lexeme l [a, b, c, d] rest [x0, x1, x2, x3] hdrop rfl hnz
  have hcur : current l = a := current_eq_headD l _ hdrop
  simp only [lex_identifiers_type, hlen, hcur, hk]
  by_cases h1 : [a, b, c, d] = [101, 108, 115, 101]
  · cases h1
    rfl
  by_cases h2 : [a, b, c, d] = [101, 110, 117, 109]
  · cases h2
    rfl
  by_cases h3 : [a, b, c, d] = [116, 114, 117, 101]
  · cases h3
    rfl
  by_cases h4 : [a, b, c, d] = [99, 104, 97, 114]
  · cases h4
    rfl
  by_cases h5 : [a, b, c, d] = [98, 111, 111, 108]
  · cases h5
    rfl
  by_cases h6 : [a, b, c, d] = [117, 105, 110, 116]
  · cases h6
    rfl
  simp only [h1, h2, h3, h4, h5, h6, decide_False, Bool.false_eq_true, if_false, ite_self, keyword_kind]
  simp

theorem lex_identifiers_type_len5 (l : Lexer) (a b c d e : Nat) (rest : List Nat)
    (hdrop : l.file.contents.drop l.index = [a, b, c, d, e] ++ rest) (hlen : l.len = 5)
    (hnz : ∀ x ∈ [a, b, c, d, e], x ≠ 0) : lex_identifiers_type l = keyword_kind [a, b, c, d, e] := by
  have hk : ∀ x0 x1 x2 x3 x4, keyword_match l [x0, x1, x2, x3, x4] 5 = decide ([a, b, c, d, e] = [x0, x1, x2, x3, x4]) :=
    fun x0 x1 x2 x3 x4 => keyword_match_lexeme l [a, b, c, d, e] rest [x0, x1, x2, x3, x4] hdrop rfl hnz
  have hcur : current l = a := current_eq_headD l _ hdrop
  simp only [lex_identifiers_type, hlen, hcur, hk]
  by_cases h1 : [a, b, c, d, e] = [119, 104, 105, 108, 101]
  · cases h1
    rfl
  by_cases h2 : [a, b, c, d, e] = [102, 97, 108, 115, 101]
  · cases h2
    rfl
  by_cases h3 : [a, b, c, d, e] = [102, 108, 111, 97, 116]
  · cases h3
    rfl
  by_cases h4 : [a, b, c, d, e] = [98, 114, 101, 97, 107]
  · cases h4
    rfl
  simp only [h1, h2, h3, h4, decide_False, Bool.false_eq_true, if_false, ite_self, keyword_kind]
  simp

theorem lex_identifiers_type_len6 (l : Lexer) (a b c d e f : Nat) (rest : List Nat)
    (hdrop : l.file.contents.drop l.index = [a, b, c, d, e, f] ++ rest) (hlen : l.len = 6)
    (hnz : ∀ x ∈ [a, b, c, d, e, f], x ≠ 0) : lex_identifiers_type l = keyword_kind [a, b, c, d, e, f] := by
  have hk : ∀ x0 x1 x2 x3 x4 x5, keyword_match l [x0, x1, x2, x3, x4, x5] 6 = decide ([a, b, c, d, e, f] = [x0, x1, x2, x3, x4, x5]) :=
    fun x0 x1 x2 x3 x4 x5 => keyword_match_lexeme l [a, b, c, d, e, f] rest [x0, x1, x2, x3, x4, x5] hdrop rfl hnz
  have hcur : current l = a := current_eq_headD l _ hdrop
  simp only [lex_identifiers_type, hlen, hcur, hk]
  by_cases h1 : [a, b, c, d, e, f] = [114, 101, 116, 117, 114, 110]
  · cases h1
    rfl
  by_cases h2 : [a, b, c, d, e, f] = [105, 109, 112, 111, 114, 116]
  · cases h2
    rfl
  by_cases h3 : [a, b, c, d, e, f] = [100, 101, 108, 101, 116, 101]
  · cases h3
    rfl
  by_cases h4 : [a, b, c, d, e, f] = [115, 116, 114, 117, 99, 116]
  · cases h4
    rfl
  by_cases h5 : [a, b, c, d, e, f] = [115, 119, 105, 116, 99, 104]
  · cases h5
    rfl
  simp only [h1, h2, h3, h4, h5, decide_False, Bool.false_eq_true, if_false, ite_self, keyword_kind]
  simp

theorem lex_identifiers_type_lexeme (l : Lexer) (w rest : List Nat)
    (hdrop : l.file.contents.drop l.index = w ++ rest) (hlen : l.len = w.length)
    (hnz : ∀ x ∈ w, x ≠ 0) : lex_identifiers_type l = keyword_kind w := by
  rcases w with _ | ⟨a, _ | ⟨b, _ | ⟨c, _ | ⟨d, _ | ⟨e, _ | ⟨f, _ | ⟨g, w⟩⟩⟩⟩⟩⟩⟩
  · simp [lex_identifiers_type, keyword_kind, hlen]
  · simp [lex_identifiers_type, keyword_kind, hlen]
  · exact lex_identifiers_type_len2 l a b rest hdrop hlen hnz
  · exact lex_identifiers_type_len3 l a b c rest hdrop hlen hnz
  · exact lex_identifiers_type_len4 l a b c d rest hdrop hlen hnz
  · exact lex_identifiers_type_len5 l a b c d e rest hdrop hlen hnz
  · exact lex_identifiers_type_len6 l a b c d e f rest hdrop hlen hnz
  · have h7 : ∀ n, n < 7 → ¬ (w.length + 1 + 1 + 1 + 1 + 1 + 1 + 1 = n) := by
      intro n hn
      omega
    simp only [List.length_cons] at hlen
    simp only [lex_identifiers_type, hlen, h7 2 (by omega), h7 3 (by omega), h7 4 (by omega),
      h7 5 (by omega), h7 6 (by omega), if_false, keyword_kind]
    simp

/-! ## Dispatch on a known first byte -/

theorem dispatch_state_of_not_space (l : Lexer) (h10 : current l ≠ 10) (h32 : current l ≠ 32) :
    dispatch_state l = { l with len := 0, begin_tok_line := l.line } := by
  have : skip_whitespace l = l := by
    unfold skip_whitespace
    cases l.budget with
    | zero => rfl
    | succ n => simp [skip_whitespace_loop, h10, h32]
  simp [dispatch_state, this]

theorem lex_director_identifier (l : Lexer) (h : current l = 95 ∨ isalpha (current l) = true) :
    lex_director l = lex_identifiers { l with len := 0, begin_tok_line := l.line } := by
  have hc : (current l = 95 ∨ (65 ≤ current l ∧ current l ≤ 90)) ∨
      (97 ≤ current l ∧ current l ≤ 122) := by
    simp only [isalpha, Bool.or_eq_true, Bool.and_eq_true, decide_eq_true_eq] at h
    tauto
  rw [lex_director_eq, dispatch_state_of_not_space l (by omega) (by omega)]
  have hcur : current { l with len := 0, begin_tok_line := l.line } = current l := rfl
  have hd : isdigit (current l) = false := by
    simp only [isdigit, Bool.and_eq_false_iff, decide_eq_false_iff_not]
    omega
  simp only [hcur, hd]
  rw [if_neg (by simp), if_neg (by omega), if_neg (by omega), if_pos h]

theorem lex_director_number (l : Lexer) (h : isdigit (current l) = true) :
    lex_director l = lex_numbers { l with len := 0, begin_tok_line := l.line } := by
  have hc : 48 ≤ current l ∧ current l ≤ 57 := by
    simpa [isdigit] using h
  rw [lex_director_eq, dispatch_state_of_not_space l (by omega) (by omega)]
  have hcur : current { l with len := 0, begin_tok_line := l.line } = current l := rfl
  simp only [hcur, h, if_true]

theorem lex_director_symbol (l : Lexer) (h10 : current l ≠ 10) (h32 : current l ≠ 32)
    (hd : isdigit (current l) = false) (ha : isalpha (current l) = false)
    (h39 : current l ≠ 39) (h34 : current l ≠ 34) (h95 : current l ≠ 95)
    (h64 : current l ≠ 64) :
    lex_director l = lex_symbols { l with len := 0, begin_tok_line := l.line } := by
  rw [lex_director_eq, dispatch_state_of_not_space l h10 h32]
  have hcur : current { l with len := 0, begin_tok_line := l.line } = current l := rfl
  simp only [hcur, hd, ha]
  rw [if_neg (by simp), if_neg h39, if_neg h34, if_neg (by simp [h95]), if_neg h64]

theorem lex_director_NUL (l : Lexer) (h : current l = 0) :
    lex_director l =
      (exit_code.EXIT_DONE, { l with len := 1, begin_tok_line := l.line, is_done := true }) := by
  rw [lex_director_symbol l (by omega) (by omega) (by rw [h]; rfl) (by rw [h]; rfl) (by omega)
    (by omega) (by omega) (by omega)]
  have hcur : current { l with len := 0, begin_tok_line := l.line } = 0 := h
  simp [lex_symbols, hcur]

/-- The last pass of the loop of `lex`: at a NUL byte the sentinel is appended. -/
theorem lex_loop_NUL (n : Nat) (l : Lexer) (h : current l = 0) :
    lex_loop (n + 1) l =
      some (exit_code.EXIT_SUCCESS,
        { l with len := 0, begin_tok_line := l.line, is_done := true,
                 tokens := l.tokens ++ [⟨token_type.EOT, l.index, 0, l.line⟩] }) := by
  rw [lex_loop_succ, lex_director_NUL l h]
  simp [add_token_eq, nl_count]

theorem is_ident_byte_ne (x : Nat) (h : is_ident_byte x = true) :
    x ≠ 0 ∧ x ≠ 10 ∧ x ≠ 32 ∧ x ≠ 46 ∧ x ≠ 34 ∧ x ≠ 39 := by
  simp only [is_ident_byte, isalnum, isalpha, isdigit, Bool.or_eq_true, Bool.and_eq_true,
    decide_eq_true_eq] at h
  omega

theorem lex_identifiers_lexeme (l : Lexer) (w rest : List Nat) (hlen0 : l.len = 0)
    (hdrop : l.file.contents.drop l.index = w ++ rest) (hne : w ≠ [])
    (hall : ∀ x ∈ w, is_ident_byte x = true) (hstop : is_ident_byte (rest.headD 0) = false)
    (h100 : w.length ≤ 100) :
    lex_identifiers l =
      (exit_code.EXIT_SUCCESS,
        { l with index := l.index + w.length, len := w.length,
                 tokens := l.tokens ++ [⟨keyword_kind w, l.index, w.length, l.begin_tok_line⟩] })
    := by
  obtain ⟨x, w1, rfl⟩ := List.exists_cons_of_ne_nil hne
  have hdrop1 : l.file.contents.drop (l.index + 1) = w1 ++ rest :=
    drop_succ_of_drop_cons _ _ _ _ hdrop
  have hbud := length_of_drop l.file _ _ _ hdrop
  simp only [List.length_cons] at hbud h100 ⊢
  have hrun : run_length is_ident_byte l.file (l.index + 1) (l.file.length - (l.index + 1))
      = w1.length :=
    run_length_lexeme _ _ w1 rest _ _ hdrop1
      (fun y hy => hall y (List.mem_cons_of_mem x hy)) hstop (by omega)
  have hnl : nl_count l.file l.index (w1.length + 1) = 0 :=
    nl_count_lexeme l.file (x :: w1) rest l.index hdrop
      (fun y hy => (is_ident_byte_ne y (hall y hy)).2.1)
  have hnl1 : nl_count l.file (l.index + 1) w1.length = 0 :=
    nl_count_lexeme l.file w1 rest (l.index + 1) hdrop1
      (fun y hy => (is_ident_byte_ne y (hall y (List.mem_cons_of_mem x hy))).2.1)
  have hcur : current l ≠ 10 := by
    rw [current_eq_headD l _ hdrop]
    exact (is_ident_byte_ne x (hall x (List.mem_cons_self x w1))).2.1
  have hty := lex_identifiers_type_lexeme
    { l with len := w1.length + 1 } (x :: w1) rest hdrop rfl
    (fun y hy => (is_ident_byte_ne y (hall y hy)).1)
  unfold lex_identifiers
  dsimp only
  rw [lex_identifiers_loop_eq, advance_len_inc_times_eq]
  simp only [advance_len_inc, Lexer.budget, hlen0, hrun, hnl1, hcur, if_false, Nat.add_zero,
    Nat.zero_add]
  rw [if_neg (by omega), add_token_eq]
  simp only [show 1 + w1.length = w1.length + 1 by omega,
    show l.index + 1 + w1.length - (w1.length + 1) = l.index by omega, hty, hnl, Nat.add_zero]

/-! ## Numbers -/

theorem isdigit_ne (x : Nat) (h : isdigit x = true) : x ≠ 0 ∧ x ≠ 10 ∧ x ≠ 46 ∧ x ≠ 32 := by
  simp only [isdigit, Bool.and_eq_true, decide_eq_true_eq] at h
  omega

theorem advance_len_inc_of_ne (l : Lexer) (h : current l ≠ 10) :
    advance_len_inc l = { l with index := l.index + 1, len := l.len + 1 } := by
  simp [advance_len_inc, h]

/-- The loop of `lex_numbers` over a run of digits `ds`: it consumes the run;
at a `.` after the run it stops when a `.` was seen before, and otherwise
records the `.` and goes on. -/
theorem lex_numbers_loop_digits (ds : List Nat) (hne : ds ≠ []) (rest : List Nat) (l : Lexer)
    (n : Nat) (reached_dot : Bool)
    (hdrop : l.file.contents.drop l.index = ds ++ rest)
    (hall : ∀ x ∈ ds, isdigit x = true) (hn : ds.length ≤ n) :
    lex_numbers_loop n l reached_dot =
      if rest.headD 0 = 46 then
        if reached_dot then
          ({ l with index := l.index + ds.length, len := l.len + ds.length }, true)
        else
          lex_numbers_loop (n - ds.length)
            { l with index := l.index + ds.length, len := l.len + ds.length } true
      else
        lex_numbers_loop (n - ds.length)
          { l with index := l.index + ds.length, len := l.len + ds.length } reached_dot := by
  induction ds generalizing l n with
  | nil => exact absurd rfl hne
  | cons x ds ih =>
    have hx := hall x (List.mem_cons_self x ds)
    have hcur : current l = x := current_eq_headD l _ hdrop
    have hdrop1 := drop_succ_of_drop_cons _ _ _ _ hdrop
    obtain ⟨m, rfl⟩ : ∃ m, n = m + 1 := ⟨n - 1, by simp only [List.length_cons] at hn; omega⟩
    have hstep : advance_len_inc l = { l with index := l.index + 1, len := l.len + 1 } :=
      advance_len_inc_of_ne l (by rw [hcur]; exact (isdigit_ne x hx).2.1)
    rw [lex_numbers_loop, if_pos (by rw [hcur, hx]; rfl)]
    dsimp only
    rw [hstep]
    cases ds with
    | nil =>
      have hnext : current { l with index := l.index + 1, len := l.len + 1 } = rest.headD 0 :=
        current_eq_headD _ _ hdrop1
      rw [hnext]
      simp only [List.length_cons, List.length_nil, Nat.zero_add, Nat.add_sub_cancel]
      cases reached_dot <;> simp
    | cons y ds =>
      have hy := hall y (List.mem_cons_of_mem x (List.mem_cons_self y ds))
      have hnext : current { l with index := l.index + 1, len := l.len + 1 } = y := by
        rw [current_eq_headD _ _ hdrop1]
        rfl
      rw [if_neg (by rw [hnext]; exact (isdigit_ne y hy).2.2.1)]
      rw [ih (List.cons_ne_nil y ds) { l with index := l.index + 1, len := l.len + 1 } m hdrop1
        (fun z hz => hall z (List.mem_cons_of_mem x hz))
        (by simp only [List.length_cons] at hn ⊢; omega)]
      simp only [List.length_cons, Nat.add_assoc, Nat.add_comm 1, Nat.add_sub_add_right]

theorem lex_numbers_loop_stop (l : Lexer) (n : Nat) (reached_dot : Bool)
    (hd : isdigit (current l) = false) (h46 : current l ≠ 46) :
    lex_numbers_loop n l reached_dot = (l, reached_dot) := by
  cases n with
  | zero => rfl
  | succ n => simp [lex_numbers_loop, hd, h46]

theorem drop_add_of_drop_append (xs : List Nat) (i : Nat) (w rest : List Nat)
    (h : xs.drop i = w ++ rest) : xs.drop (i + w.length) = rest := by
  have h1 : (xs.drop i).drop w.length = rest := by
    rw [h]
    simp
  rw [← h1, List.drop_drop]

/-- The loop of `lex_numbers` on `a . b` followed by a second `.`: it stops
before the second `.` with the flag set. -/
theorem lex_numbers_loop_float (a b rest : List Nat) (ha : a ≠ []) (hb : b ≠ []) (l : Lexer)
    (n : Nat) (hdrop : l.file.contents.drop l.index = a ++ 46 :: (b ++ 46 :: rest))
    (hda : ∀ x ∈ a, isdigit x = true) (hdb : ∀ x ∈ b, isdigit x = true)
    (hn : a.length + 1 + b.length ≤ n) :
    lex_numbers_loop n l false =
      ({ l with index := l.index + (a.length + 1 + b.length),
                len := l.len + (a.length + 1 + b.length) }, true) := by
  obtain ⟨y, b1, rfl⟩ := List.exists_cons_of_ne_nil hb
  have hy := hdb y (List.mem_cons_self y b1)
  rw [lex_numbers_loop_digits a ha _ l n false hdrop hda (by omega)]
  simp only [List.headD_cons, if_true, Bool.false_eq_true, if_false]
  obtain ⟨m, hm⟩ : ∃ m, n - a.length = m + 1 := ⟨n - a.length - 1, by omega⟩
  have hdrop1 := drop_add_of_drop_append _ _ _ _ hdrop
  have hdrop2 := drop_succ_of_drop_cons _ _ _ _ hdrop1
  have hcur : current { l with index := l.index + a.length, len := l.len + a.length } = 46 := by
    rw [current_eq_headD _ _ hdrop1]
    rfl
  have hnext : current { l with index := l.index + a.length + 1, len := l.len + a.length + 1 }
      = y := by
    rw [current_eq_headD _ _ hdrop2]
    rfl
  rw [hm, lex_numbers_loop, if_pos (by rw [hcur]; rfl)]
  dsimp only
  rw [advance_len_inc_of_ne _ (by rw [hcur]; decide)]
  dsimp only
  rw [if_neg (by rw [hnext]; exact (isdigit_ne y hy).2.2.1)]
  rw [lex_numbers_loop_digits (y :: b1) hb (46 :: rest) _ m true hdrop2 hdb (by omega)]
  simp only [List.headD_cons, if_true, Nat.add_assoc]

/-- The loop of `lex_numbers` on a run of digits that no `.` follows. -/
theorem lex_numbers_loop_integer (a rest : List Nat) (ha : a ≠ []) (l : Lexer) (n : Nat)
    (hdrop : l.file.contents.drop l.index = a ++ rest)
    (hda : ∀ x ∈ a, isdigit x = true) (hstop : isdigit (rest.headD 0) = false)
    (h46 : rest.headD 0 ≠ 46) (hn : a.length ≤ n) :
    lex_numbers_loop n l false =
      ({ l with index := l.index + a.length, len := l.len + a.length }, false) := by
  rw [lex_numbers_loop_digits a ha _ l n false hdrop hda hn, if_neg h46]
  have hdrop1 := drop_add_of_drop_append _ _ _ _ hdrop
  have hcur : current { l with index := l.index + a.length, len := l.len + a.length }
      = rest.headD 0 := current_eq_headD _ _ hdrop1
  exact lex_numbers_loop_stop _ _ _ (by rw [hcur]; exact hstop) (by rw [hcur]; exact h46)

/-- The token of `lex_numbers`, from the result of its loop. -/
theorem lex_numbers_of_loop (l : Lexer) (k : Nat) (flag : Bool) (hlen0 : l.len = 0)
    (hloop : lex_numbers_loop l.budget l false =
      ({ l with index := l.index + k, len := l.len + k }, flag))
    (hk : k ≤ 100) (hnl : nl_count l.file l.index k = 0) :
    lex_numbers l =
      (exit_code.EXIT_SUCCESS,
        { l with index := l.index + k, len := k,
                 tokens := l.tokens ++
                   [⟨if flag then token_type.Float else token_type.Integer, l.index, k,
                     l.begin_tok_line⟩] }) := by
  unfold lex_numbers
  dsimp only
  rw [hloop]
  dsimp only
  rw [if_neg (by omega), add_token_eq]
  simp [hlen0, hnl]

/-! ## The step budgets are enough

Each loop is run with a budget taken from the length of the buffer.  A larger
budget gives the same result: the loops of the model stop where the loops of
the source stop, not because the budget is used up. -/

theorem current_eq_zero_of_budget (l : Lexer) (h : l.budget = 0) : current l = 0 :=
  at_eq_zero_of_le l.file l.index (by unfold Lexer.budget at h; omega)

theorem budget_advance_len_inc (l : Lexer) : (advance_len_inc l).budget = l.budget - 1 := by
  simp only [Lexer.budget, advance_len_inc]
  omega

theorem budget_advance (l : Lexer) : (advance l).budget = l.budget - 1 := by
  simp only [Lexer.budget, advance]
  omega

theorem run_length_fuel (p : Nat → Bool) (hp : p 0 = false) (f : file_t) (i n : Nat)
    (hn : f.length - i ≤ n) : run_length p f i n = run_length p f i (f.length - i) := by
  induction n generalizing i with
  | zero =>
    rw [show f.length - i = 0 by omega]
  | succ n ih =>
    by_cases h0 : f.length - i = 0
    · rw [h0]
      simp [run_length, at_eq_zero_of_le f i (by omega), hp]
    · obtain ⟨k, hk⟩ : ∃ k, f.length - i = k + 1 := ⟨f.length - i - 1, by omega⟩
      rw [hk]
      simp only [run_length]
      rw [ih (i + 1) (by omega), show f.length - (i + 1) = k by omega]

theorem skip_whitespace_loop_fuel (n : Nat) (l : Lexer) (hn : l.budget ≤ n) :
    skip_whitespace_loop n l = skip_whitespace l := by
  rw [skip_whitespace, skip_whitespace_loop_eq, skip_whitespace_loop_eq,
    run_length_fuel _ (by decide) l.file l.index n hn]
  rfl

theorem lex_identifiers_loop_fuel (n : Nat) (l : Lexer) (hn : l.budget ≤ n) :
    lex_identifiers_loop n l = lex_identifiers_loop l.budget l := by
  rw [lex_identifiers_loop_eq, lex_identifiers_loop_eq,
    run_length_fuel _ (by decide) l.file l.index n hn]
  rfl

theorem lex_builtin_funcs_loop_fuel (n : Nat) (l : Lexer) (hn : l.budget ≤ n) :
    lex_builtin_funcs_loop n l = lex_builtin_funcs_loop l.budget l := by
  rw [lex_builtin_funcs_loop_eq, lex_builtin_funcs_loop_eq,
    run_length_fuel _ (by decide) l.file l.index n hn]
  rfl

theorem lex_numbers_loop_fuel (n m : Nat) (l : Lexer) (reached_dot : Bool)
    (hn : l.budget ≤ n) (hm : n ≤ m) :
    lex_numbers_loop m l reached_dot = lex_numbers_loop n l reached_dot := by
  induction n generalizing m l reached_dot with
  | zero =>
    have h0 := current_eq_zero_of_budget l (by omega)
    exact (lex_numbers_loop_stop l m reached_dot (by rw [h0]; rfl) (by omega)).trans
      (lex_numbers_loop_stop l 0 reached_dot (by rw [h0]; rfl) (by omega)).symm
  | succ n ih =>
    obtain ⟨k, rfl⟩ : ∃ k, m = k + 1 := ⟨m - 1, by omega⟩
    have hb := budget_advance_len_inc l
    simp only [lex_numbers_loop]
    rw [ih k (advance_len_inc l) true (by omega) (by omega),
      ih k (advance_len_inc l) reached_dot (by omega) (by omega)]

theorem lex_strings_loop_fuel (n m : Nat) (l : Lexer) (hn : l.budget < n) (hm : n ≤ m) :
    lex_strings_loop m l = lex_strings_loop n l := by
  induction n generalizing m l with
  | zero => omega
  | succ n ih =>
    obtain ⟨k, rfl⟩ : ∃ k, m = k + 1 := ⟨m - 1, by omega⟩
    simp only [lex_strings_loop]
    by_cases h0 : current l = 0
    · simp [h0]
    · have hlt : 0 < l.budget := by
        by_contra hb
        exact h0 (current_eq_zero_of_budget l (by omega))
      have hb := budget_advance_len_inc l
      rw [ih k (advance_len_inc l) (by omega) (by omega)]

theorem line_comment_loop_fuel (n m : Nat) (l : Lexer) (hfl : l.file_length = l.file.length)
    (hn : l.budget ≤ n) (hm : n ≤ m) : line_comment_loop m l = line_comment_loop n l := by
  induction n generalizing m l with
  | zero =>
    have h0 : is_not_eof l = false := by
      simp only [is_not_eof, hfl, decide_eq_false_iff_not]
      unfold Lexer.budget at hn
      omega
    cases m with
    | zero => rfl
    | succ m => simp [line_comment_loop, h0]
  | succ n ih =>
    obtain ⟨k, rfl⟩ : ∃ k, m = k + 1 := ⟨m - 1, by omega⟩
    have hb := budget_advance l
    simp only [line_comment_loop]
    rw [ih k (advance l) hfl (by omega) (by omega)]

theorem block_comment_loop_fuel (n m : Nat) (l : Lexer) (end_comment : Bool)
    (hfl : l.file_length = l.file.length) (hn : l.budget ≤ n) (hm : n ≤ m) :
    block_comment_loop m l end_comment = block_comment_loop n l end_comment := by
  induction n generalizing m l end_comment with
  | zero =>
    have h0 : is_not_eof l = false := by
      simp only [is_not_eof, hfl, decide_eq_false_iff_not]
      unfold Lexer.budget at hn
      omega
    cases m with
    | zero => rfl
    | succ m => simp [block_comment_loop, h0]
  | succ n ih =>
    obtain ⟨k, rfl⟩ : ∃ k, m = k + 1 := ⟨m - 1, by omega⟩
    have hb := budget_advance l
    have hb2 := budget_advance (advance l)
    simp only [block_comment_loop]
    rw [ih k (advance (advance l)) true hfl (by omega) (by omega),
      ih k (advance l) end_comment hfl (by omega) (by omega)]

/-! ## Strings -/

theorem advance_len_inc_times_succ (k : Nat) (l : Lexer) :
    advance_len_inc (advance_len_inc_times k l) = advance_len_inc_times (k + 1) l := by
  induction k generalizing l with
  | zero => rfl
  | succ k ih => exact ih (advance_len_inc l)

theorem past_advance_len_inc (l : Lexer) : past (advance_len_inc l) = current l := rfl

/-- The loop of `lex_strings` over a body without quote, backslash and NUL that
a quote follows: it stops at that quote. -/
theorem lex_strings_loop_body (body rest : List Nat) (l : Lexer) (n : Nat)
    (hdrop : l.file.contents.drop l.index = body ++ 34 :: rest) (hpast : past l ≠ 92)
    (hbody : ∀ x ∈ body, x ≠ 34 ∧ x ≠ 92 ∧ x ≠ 0) (hn : body.length < n) :
    lex_strings_loop n l = Except.ok (advance_len_inc_times body.length l) := by
  induction body generalizing l n with
  | nil =>
    obtain ⟨m, rfl⟩ : ∃ m, n = m + 1 := ⟨n - 1, by simp at hn; omega⟩
    have hcur : current l = 34 := current_eq_headD l _ hdrop
    simp [lex_strings_loop, hcur, advance_len_inc_times]
  | cons x body ih =>
    obtain ⟨m, rfl⟩ : ∃ m, n = m + 1 := ⟨n - 1, by omega⟩
    have hx := hbody x (List.mem_cons_self x body)
    have hcur : current l = x := current_eq_headD l _ hdrop
    rw [lex_strings_loop, if_pos ⟨by rw [hcur]; exact hx.1, hpast⟩,
      if_neg (by rw [hcur]; exact hx.2.2)]
    rw [ih (advance_len_inc l) m (drop_succ_of_drop_cons _ _ _ _ hdrop)
      (by rw [past_advance_len_inc, hcur]; exact hx.2.1)
      (fun y hy => hbody y (List.mem_cons_of_mem x hy))
      (by simp only [List.length_cons] at hn; omega)]
    rfl

/-- The loop of `lex_strings` over a body without quote, backslash and NUL
that runs to the end of the buffer: it returns failure at the NUL. -/
theorem lex_strings_loop_unclosed (body : List Nat) (l : Lexer) (n : Nat)
    (hdrop : l.file.contents.drop l.index = body) (hpast : past l ≠ 92)
    (hbody : ∀ x ∈ body, x ≠ 34 ∧ x ≠ 92 ∧ x ≠ 0) (hn : body.length < n) :
    lex_strings_loop n l =
      Except.error
        { (reverse_len_for_error (advance_len_inc_times body.length l)).2 with
          error := error_type.NOT_CLOSED_STRING } := by
  induction body generalizing l n with
  | nil =>
    obtain ⟨m, rfl⟩ : ∃ m, n = m + 1 := ⟨n - 1, by simp at hn; omega⟩
    have hcur : current l = 0 := current_eq_headD l _ hdrop
    rw [lex_strings_loop, if_pos ⟨by omega, hpast⟩, if_pos hcur]
    rfl
  | cons x body ih =>
    obtain ⟨m, rfl⟩ : ∃ m, n = m + 1 := ⟨n - 1, by omega⟩
    have hx := hbody x (List.mem_cons_self x body)
    have hcur : current l = x := current_eq_headD l _ hdrop
    rw [lex_strings_loop, if_pos ⟨by rw [hcur]; exact hx.1, hpast⟩,
      if_neg (by rw [hcur]; exact hx.2.2)]
    rw [ih (advance_len_inc l) m (drop_succ_of_drop_cons _ _ _ _ hdrop)
      (by rw [past_advance_len_inc, hcur]; exact hx.2.1)
      (fun y hy => hbody y (List.mem_cons_of_mem x hy))
      (by simp only [List.length_cons] at hn; omega)]
    rfl

/-- The token of `lex_strings` for a closed literal whose body of `n` bytes has
no quote, backslash or NUL: its length is `n + 3`, one more than the literal,
and the cursor ends one byte past the closing quote.  The line counter counts
the newlines of the literal twice. -/
theorem lex_strings_plain_body (body rest : List Nat) (l : Lexer) (hlen0 : l.len = 0)
    (hdrop : l.file.contents.drop l.index = 34 :: (body ++ 34 :: rest))
    (hbody : ∀ x ∈ body, x ≠ 34 ∧ x ≠ 92 ∧ x ≠ 0) :
    lex_strings l =
      (exit_code.EXIT_SUCCESS,
        { l with index := l.index + (body.length + 3), len := body.length + 3,
                 line := l.line + nl_count l.file l.index (body.length + 2) +
                         nl_count l.file l.index (body.length + 3),
                 tokens := l.tokens ++
                   [⟨token_type.String, l.index, body.length + 3, l.begin_tok_line⟩] }) := by
  have hcur : current l = 34 := current_eq_headD l _ hdrop
  have hdrop1 := drop_succ_of_drop_cons _ _ _ _ hdrop
  have hbud := length_of_drop l.file (34 :: body) (34 :: rest) l.index (by rw [hdrop]; rfl)
  simp only [List.length_cons] at hbud
  have hloop := lex_strings_loop_body body rest (advance_len_inc l)
    ((advance_len_inc l).budget + 1) hdrop1 (by rw [past_advance_len_inc, hcur]; decide) hbody
    (by rw [budget_advance_len_inc]
        unfold Lexer.budget
        omega)
  unfold lex_strings
  dsimp only
  rw [hloop]
  dsimp only
  rw [show advance_len_inc_times body.length (advance_len_inc l)
      = advance_len_inc_times (body.length + 1) l from rfl,
    advance_len_inc_times_succ, advance_len_inc_times_eq, add_token_eq]
  simp only [hlen0, Nat.zero_add, Nat.add_sub_cancel]

/-- The failure of `lex_strings` on a literal whose body has no quote,
backslash or NUL and runs to the end of the buffer: `NOT_CLOSED_STRING`, with
the cursor back on the opening quote and no token appended. -/
theorem lex_strings_plain_unclosed (body : List Nat) (l : Lexer) (hlen0 : l.len = 0)
    (hdrop : l.file.contents.drop l.index = 34 :: body)
    (hbody : ∀ x ∈ body, x ≠ 34 ∧ x ≠ 92 ∧ x ≠ 0) :
    lex_strings l =
      (exit_code.EXIT_FAILURE,
        { l with len := body.length + 1,
                 line := l.line + nl_count l.file l.index (body.length + 1),
                 error := error_type.NOT_CLOSED_STRING }) := by
  have hcur : current l = 34 := current_eq_headD l _ hdrop
  have hdrop1 := drop_succ_of_drop_cons _ _ _ _ hdrop
  have hbud := length_of_drop l.file (34 :: body) [] l.index (by rw [hdrop]; simp)
  simp only [List.length_cons, List.length_nil] at hbud
  have hloop := lex_strings_loop_unclosed body (advance_len_inc l)
    ((advance_len_inc l).budget + 1) hdrop1 (by rw [past_advance_len_inc, hcur]; decide) hbody
    (by rw [budget_advance_len_inc]
        unfold Lexer.budget
        omega)
  unfold lex_strings
  dsimp only
  rw [hloop]
  dsimp only
  rw [show advance_len_inc_times body.length (advance_len_inc l)
      = advance_len_inc_times (body.length + 1) l from rfl, advance_len_inc_times_eq]
  simp only [reverse_len_for_error, hlen0, Nat.zero_add, u32_sub_add_cancel]

/-! ## One pass of the dispatcher on a known lexeme -/

theorem lex_loop_pass (n : Nat) (l l1 : Lexer)
    (h : lex_director l = (exit_code.EXIT_SUCCESS, l1)) : lex_loop (n + 1) l = lex_loop n l1 := by
  rw [lex_loop_succ, h]

theorem lex_director_float (a b rest : List Nat) (ha : a ≠ []) (hb : b ≠ []) (l : Lexer)
    (hdrop : l.file.contents.drop l.index = a ++ 46 :: (b ++ 46 :: rest))
    (hda : ∀ x ∈ a, isdigit x = true) (hdb : ∀ x ∈ b, isdigit x = true)
    (hk : a.length + 1 + b.length ≤ 100) :
    lex_director l =
      (exit_code.EXIT_SUCCESS,
        { l with index := l.index + (a.length + 1 + b.length),
                 len := a.length + 1 + b.length, begin_tok_line := l.line,
                 tokens := l.tokens ++
                   [⟨token_type.Float, l.index, a.length + 1 + b.length, l.line⟩] }) := by
  obtain ⟨x, a1, rfl⟩ := List.exists_cons_of_ne_nil ha
  have hx := hda x (List.mem_cons_self x a1)
  have hcur : current l = x := current_eq_headD l _ hdrop
  have hbud := length_of_drop l.file _ _ _ hdrop
  have hdrop' : l.file.contents.drop l.index = (x :: a1 ++ 46 :: b) ++ 46 :: rest := by
    rw [hdrop]
    simp
  have hnl : nl_count l.file l.index (x :: a1 ++ 46 :: b).length = 0 := by
    apply nl_count_lexeme l.file _ _ _ hdrop'
    intro z hz
    rcases List.mem_append.mp hz with hz | hz
    · exact (isdigit_ne z (hda z hz)).2.1
    · rcases List.mem_cons.mp hz with rfl | hz
      · decide
      · exact (isdigit_ne z (hdb z hz)).2.1
  simp only [List.length_append, List.length_cons] at hnl hbud
  rw [lex_director_number l (by rw [hcur]; exact hx)]
  have h := lex_numbers_of_loop { l with len := 0, begin_tok_line := l.line }
    ((x :: a1).length + 1 + b.length) true rfl
    (lex_numbers_loop_float (x :: a1) b rest ha hb _ _ hdrop hda hdb
      (by show _ ≤ l.file.length - l.index
          simp only [List.length_cons]
          omega)) hk
    (by rw [← hnl]
        congr 1
        simp only [List.length_cons]
        omega)
  simpa using h

theorem lex_director_integer (a rest : List Nat) (ha : a ≠ []) (l : Lexer)
    (hdrop : l.file.contents.drop l.index = a ++ rest)
    (hda : ∀ x ∈ a, isdigit x = true) (hstop : isdigit (rest.headD 0) = false)
    (h46 : rest.headD 0 ≠ 46) (hk : a.length ≤ 100) :
    lex_director l =
      (exit_code.EXIT_SUCCESS,
        { l with index := l.index + a.length, len := a.length, begin_tok_line := l.line,
                 tokens := l.tokens ++ [⟨token_type.Integer, l.index, a.length, l.line⟩] }) := by
  obtain ⟨x, a1, rfl⟩ := List.exists_cons_of_ne_nil ha
  have hx := hda x (List.mem_cons_self x a1)
  have hcur : current l = x := current_eq_headD l _ hdrop
  have hbud := length_of_drop l.file _ _ _ hdrop
  have hnl : nl_count l.file l.index (x :: a1).length = 0 :=
    nl_count_lexeme l.file _ _ _ hdrop (fun z hz => (isdigit_ne z (hda z hz)).2.1)
  rw [lex_director_number l (by rw [hcur]; exact hx)]
  have h := lex_numbers_of_loop { l with len := 0, begin_tok_line := l.line }
    (x :: a1).length false rfl
    (lex_numbers_loop_integer (x :: a1) rest ha _ _ hdrop hda hstop h46
      (by show _ ≤ l.file.length - l.index
          omega)) hk hnl
  simpa using h

theorem lex_director_dot (l : Lexer) (hc : current l = 46) (hp : peek l ≠ 46) :
    lex_director l =
      (exit_code.EXIT_SUCCESS,
        { l with index := l.index + 1, len := 1, begin_tok_line := l.line,
                 tokens := l.tokens ++ [⟨token_type.Dot, l.index, 1, l.line⟩] }) := by
  rw [lex_director_symbol l (by omega) (by omega) (by rw [hc]; rfl) (by rw [hc]; rfl)
    (by omega) (by omega) (by omega) (by omega)]
  have hc1 : l.file.at l.index = 46 := hc
  have hc2 : current { l with len := 0, begin_tok_line := l.line } = 46 := hc
  have hp2 : peek { l with len := 0, begin_tok_line := l.line } ≠ 46 := hp
  simp [lex_symbols, lex_symbols_pair, hc2, hp2, add_token_eq, nl_count, hc1]

theorem lex_loop_step (n : Nat) (l l1 : Lexer) (r : Option (exit_code × Lexer))
    (h : lex_director l = (exit_code.EXIT_SUCCESS, l1)) (h2 : lex_loop n l1 = r) :
    lex_loop (n + 1) l = r := by
  rw [lex_loop_succ, h]
  exact h2

theorem peek_eq_headD (l : Lexer) (w : List Nat)
    (hdrop : l.file.contents.drop (l.index + 1) = w) : peek l = w.headD 0 := by
  unfold peek
  rw [at_eq_headD_drop, hdrop]

theorem lex_director_char (l : Lexer) (h : current l = 39) :
    lex_director l = lex_chars { l with len := 0, begin_tok_line := l.line } := by
  rw [lex_director_eq, dispatch_state_of_not_space l (by omega) (by omega)]
  have hcur : current { l with len := 0, begin_tok_line := l.line } = 39 := h
  simp [hcur, isdigit]

theorem lex_director_string (l : Lexer) (h : current l = 34) :
    lex_director l = lex_strings { l with len := 0, begin_tok_line := l.line } := by
  rw [lex_director_eq, dispatch_state_of_not_space l (by omega) (by omega)]
  have hcur : current { l with len := 0, begin_tok_line := l.line } = 34 := h
  simp [hcur, isdigit]

theorem lex_chars_escape_iff (e : Nat) :
    lex_chars_escape e = true ↔
      e = 110 ∨ e = 116 ∨ e = 114 ∨ e = 98 ∨ e = 102 ∨ e = 92 ∨ e = 39 := by
  simp [lex_chars_escape, or_assoc]

/-! ## The states that a pass reaches -/

theorem run_length_eq (p : Nat → Bool) (f : file_t) (i n k : Nat)
    (hall : ∀ j, j < k → p (f.at (i + j)) = true) (hstop : p (f.at (i + k)) = false)
    (hn : k ≤ n) : run_length p f i n = k := by
  induction k generalizing i n with
  | zero =>
    cases n with
    | zero => rfl
    | succ n =>
      have h0 : p (f.at i) = false := hstop
      simp [run_length, h0]
  | succ k ih =>
    obtain ⟨m, rfl⟩ : ∃ m, n = m + 1 := ⟨n - 1, by omega⟩
    have h0 : p (f.at i) = true := hall 0 (by omega)
    simp only [run_length, h0, if_true]
    rw [ih (i + 1) m (fun j hj => by
      have := hall (j + 1) (by omega)
      rwa [show i + (j + 1) = i + 1 + j by omega] at this)
      (by rwa [show i + (k + 1) = i + 1 + k by omega] at hstop) (by omega)]

theorem lex_of_dispatch (l l1 : Lexer) (hfl : l.file_length = l.file.length)
    (h : lex_director l = (exit_code.EXIT_SUCCESS, l1)) : lex l = lex l1 := by
  obtain ⟨h1, h2, _, h4, h5, _⟩ := lex_director_success l l1 hfl h
  have hfl1 : l1.file_length = l1.file.length := by rw [h2, h1, hfl]
  unfold lex
  rw [lex_loop_succ, h]
  exact lex_loop_eq_lex _ l1 hfl1 (by
    unfold Lexer.budget
    rw [h1]
    omega)

/-- What holds of every state that a pass reaches. -/
theorem dispatches_invariant (k : Nat) (l0 l : Lexer) (hfl : l0.file_length = l0.file.length)
    (htok : ∀ tok ∈ l0.tokens, tok.index < l0.index) (h : dispatches k l0 = some l) :
    lex l0 = lex l ∧ l.file = l0.file ∧ l.file_length = l.file.length ∧ l.error = l0.error ∧
      ∀ tok ∈ l.tokens, tok.index < l.index := by
  induction k generalizing l0 with
  | zero =>
    simp only [dispatches, Option.some.injEq] at h
    subst h
    exact ⟨rfl, rfl, hfl, rfl, htok⟩
  | succ k ih =>
    simp only [dispatches] at h
    rcases hd : lex_director l0 with ⟨e, l1⟩
    rw [hd] at h
    cases e with
    | EXIT_SUCCESS =>
      obtain ⟨h1, h2, h3, h4, h5, h6⟩ := lex_director_success l0 l1 hfl hd
      have hfl1 : l1.file_length = l1.file.length := by rw [h2, h1, hfl]
      have htok1 : ∀ tok ∈ l1.tokens, tok.index < l1.index := by
        rcases h6 with h6 | ⟨t, ht, _, _, hl, hs⟩
        · rw [h6]
          intro tok htk
          have := htok tok htk
          omega
        · rw [ht]
          intro tok htk
          rcases List.mem_append.mp htk with htk | htk
          · have := htok tok htk
            omega
          · rw [List.mem_singleton.mp htk]
            omega
      obtain ⟨i1, i2, i3, i4, i5⟩ := ih l1 hfl1 htok1 h
      exact ⟨(lex_of_dispatch l0 l1 hfl hd).trans i1, i2.trans h1, i3, i4.trans h3, i5⟩
    | EXIT_FAILURE => exact Option.noConfusion h
    | EXIT_DONE => exact Option.noConfusion h

/-- A dispatch whose first byte after the spaces and newlines is a tab. -/
theorem lex_director_tab (l : Lexer) (t : Nat) (hle : l.index ≤ t)
    (hws : ∀ j, l.index ≤ j → j < t → l.file.at j = 10 ∨ l.file.at j = 32)
    (htab : l.file.at t = 9) :
    ∃ ln, lex_director l =
      (exit_code.EXIT_FAILURE,
        { l with index := t, len := 1, line := ln, begin_tok_line := ln,
                 error := error_type.TABS }) := by
  have hrun : run_length (fun c => decide (c = 10) || decide (c = 32)) l.file l.index l.budget
      = t - l.index := by
    apply run_length_eq
    · intro j hj
      have := hws (l.index + j) (by omega) (by omega)
      simpa using this
    · rw [show l.index + (t - l.index) = t by omega, htab]
      rfl
    · have := lt_length_of_at_ne_zero l.file t (by omega)
      unfold Lexer.budget
      omega
  have hd : dispatch_state l =
      { l with index := t, len := 0,
               line := l.line + nl_count l.file l.index (t - l.index),
               begin_tok_line := l.line + nl_count l.file l.index (t - l.index) } := by
    simp only [dispatch_state, skip_whitespace, skip_whitespace_loop_eq, hrun, advance_times_eq]
    rw [show l.index + (t - l.index) = t by omega]
  refine ⟨l.line + nl_count l.file l.index (t - l.index), ?_⟩
  rw [lex_director_eq, hd]
  have hcur : ∀ ln : Nat,
      current { l with index := t, len := 0, line := ln, begin_tok_line := ln } = 9 :=
    fun _ => htab
  simp [hcur, isdigit, isalpha, lex_symbols]

/-! ## Whole passes over one lexeme -/

theorem is_ident_byte_of_first (x : Nat) (h : x = 95 ∨ isalpha x = true) :
    is_ident_byte x = true := by
  rcases h with h | h
  · simp [is_ident_byte, h]
  · simp [is_ident_byte, isalnum, h]

/-- The failure of `lex_identifiers` on a run of more than 100 bytes. -/
theorem lex_identifiers_too_long (l : Lexer) (w rest : List Nat) (hlen0 : l.len = 0)
    (hdrop : l.file.contents.drop l.index = w ++ rest) (hne : w ≠ [])
    (hall : ∀ x ∈ w, is_ident_byte x = true) (hstop : is_ident_byte (rest.headD 0) = false)
    (h100 : 100 < w.length) :
    lex_identifiers l =
      (exit_code.EXIT_FAILURE,
        { l with len := w.length, error := error_type.TOO_LONG_IDENTIFIER }) := by
  obtain ⟨x, w1, rfl⟩ := List.exists_cons_of_ne_nil hne
  have hdrop1 : l.file.contents.drop (l.index + 1) = w1 ++ rest :=
    drop_succ_of_drop_cons _ _ _ _ hdrop
  have hbud := length_of_drop l.file _ _ _ hdrop
  simp only [List.length_cons] at hbud h100 ⊢
  have hrun : run_length is_ident_byte l.file (l.index + 1) (l.file.length - (l.index + 1))
      = w1.length :=
    run_length_lexeme _ _ w1 rest _ _ hdrop1
      (fun y hy => hall y (List.mem_cons_of_mem x hy)) hstop (by omega)
  have hnl1 : nl_count l.file (l.index + 1) w1.length = 0 :=
    nl_count_lexeme l.file w1 rest (l.index + 1) hdrop1
      (fun y hy => (is_ident_byte_ne y (hall y (List.mem_cons_of_mem x hy))).2.1)
  have hcur : current l ≠ 10 := by
    rw [current_eq_headD l _ hdrop]
    exact (is_ident_byte_ne x (hall x (List.mem_cons_self x w1))).2.1
  unfold lex_identifiers
  dsimp only
  rw [lex_identifiers_loop_eq, advance_len_inc_times_eq]
  simp only [advance_len_inc, Lexer.budget, hlen0, hrun, hnl1, hcur, if_false, Nat.add_zero,
    Nat.zero_add]
  rw [if_pos (by omega)]
  simp only [show 1 + w1.length = w1.length + 1 by omega,
    show l.index + 1 + w1.length - (w1.length + 1) = l.index by omega]

/-- A buffer that is one identifier shaped run of at most 100 bytes. -/
theorem scan_identifier (w : List Nat) (hne : w ≠ [])
    (hfirst : w.headD 0 = 95 ∨ isalpha (w.headD 0) = true)
    (hall : ∀ y ∈ w, is_ident_byte y = true) (hlen : w.length ≤ 100) :
    scan_tokens w =
      some (exit_code.EXIT_SUCCESS,
        [⟨keyword_kind w, 0, w.length, 1⟩, ⟨token_type.EOT, w.length, 0, 1⟩]) := by
  obtain ⟨x, w1, rfl⟩ := List.exists_cons_of_ne_nil hne
  have hid := lex_identifiers_lexeme
    { Lexer.new ⟨x :: w1⟩ with len := 0, begin_tok_line := 1 } (x :: w1) [] rfl
    (by simp [Lexer.new]) hne hall (by decide) hlen
  unfold scan_tokens scan lex
  rw [show (Lexer.new ⟨x :: w1⟩).budget + 1 = (w1.length + 1) + 1 by
    simp [Lexer.budget, Lexer.new, file_t.length]]
  rw [lex_loop_succ, lex_director_identifier (Lexer.new ⟨x :: w1⟩) hfirst]
  simp only [Lexer.new] at hid ⊢
  rw [hid]
  dsimp only
  rw [lex_loop_NUL _ _ (at_eq_zero_of_le _ _ (by simp [file_t.length]))]
  simp

/-- A buffer that is one identifier shaped run of more than 100 bytes. -/
theorem scan_identifier_too_long (w : List Nat) (hne : w ≠ [])
    (hfirst : w.headD 0 = 95 ∨ isalpha (w.headD 0) = true)
    (hall : ∀ y ∈ w, is_ident_byte y = true) (hlen : 100 < w.length) :
    scan w =
      some (exit_code.EXIT_FAILURE,
        { Lexer.new ⟨w⟩ with
          len := w.length, begin_tok_line := 1,
          error := error_type.TOO_LONG_IDENTIFIER }) := by
  obtain ⟨x, w1, rfl⟩ := List.exists_cons_of_ne_nil hne
  have hid := lex_identifiers_too_long
    { Lexer.new ⟨x :: w1⟩ with len := 0, begin_tok_line := 1 } (x :: w1) [] rfl
    (by simp [Lexer.new]) hne hall (by decide) hlen
  unfold scan lex
  rw [show (Lexer.new ⟨x :: w1⟩).budget + 1 = (w1.length + 1) + 1 by
    simp [Lexer.budget, Lexer.new, file_t.length]]
  rw [lex_loop_succ, lex_director_identifier (Lexer.new ⟨x :: w1⟩) hfirst]
  simp only [Lexer.new] at hid ⊢
  rw [hid]
  rfl

/-- A buffer that is one run of more than 100 digits: `lex_numbers` returns
failure without rewinding and without assigning a failure kind. -/
theorem scan_integer_too_long (a : List Nat) (ha : a ≠ [])
    (hda : ∀ x ∈ a, isdigit x = true) (hlen : 100 < a.length) :
    scan a =
      some (exit_code.EXIT_FAILURE,
        { Lexer.new ⟨a⟩ with index := a.length, len := a.length, begin_tok_line := 1 }) := by
  obtain ⟨x, a1, rfl⟩ := List.exists_cons_of_ne_nil ha
  have hx := hda x (List.mem_cons_self x a1)
  have hloop := lex_numbers_loop_integer (x :: a1) [] ha
    { Lexer.new ⟨x :: a1⟩ with len := 0, begin_tok_line := 1 }
    (Lexer.budget { Lexer.new ⟨x :: a1⟩ with len := 0, begin_tok_line := 1 })
    (by simp [Lexer.new]) hda (by decide) (by decide)
    (by simp [Lexer.budget, Lexer.new, file_t.length])
  unfold scan lex
  rw [show (Lexer.new ⟨x :: a1⟩).budget + 1 = (a1.length + 1) + 1 by
    simp [Lexer.budget, Lexer.new, file_t.length]]
  rw [lex_loop_succ, lex_director_number (Lexer.new ⟨x :: a1⟩) hx]
  simp only [Lexer.new] at hloop ⊢
  unfold lex_numbers
  dsimp only
  rw [hloop]
  dsimp only
  rw [if_pos (by simpa using hlen)]
  simp [report_error]

/-! ## Builtin functions -/

theorem isalpha_ne (x : Nat) (h : isalpha x = true) : x ≠ 0 ∧ x ≠ 10 ∧ x ≠ 32 := by
  simp only [isalpha, Bool.or_eq_true, Bool.and_eq_true, decide_eq_true_eq] at h
  omega

theorem lex_director_builtin (l : Lexer) (h : current l = 64) :
    lex_director l = lex_builtin_funcs { l with len := 0, begin_tok_line := l.line } := by
  rw [lex_director_eq, dispatch_state_of_not_space l (by omega) (by omega)]
  have hcur : current { l with len := 0, begin_tok_line := l.line } = 64 := h
  simp [hcur, isdigit, isalpha]

/-- The `switch (len)` of `lex_builtin_funcs` on a known name: it accepts the
five names of the directive set. -/
theorem lex_builtin_funcs_match_lexeme (l : Lexer) (w rest : List Nat)
    (hdrop : l.file.contents.drop l.index = w ++ rest) (hlen : l.len = w.length)
    (hnz : ∀ x ∈ w, x ≠ 0) : lex_builtin_funcs_match l = decide (w ∈ builtin_names) := by
  have hk : ∀ s : List Nat, w.length = s.length →
      keyword_match l s s.length = decide (w = s) :=
    fun s hs => keyword_match_lexeme l w rest s hdrop hs hnz
  rcases w with _ | ⟨a, _ | ⟨b, _ | ⟨c, _ | ⟨d, _ | ⟨e, _ | ⟨f, _ | ⟨g, _ | ⟨h, w⟩⟩⟩⟩⟩⟩⟩⟩
  · simp [lex_builtin_funcs_match, builtin_names, hlen]
  · simp [lex_builtin_funcs_match, builtin_names, hlen]
  · simp [lex_builtin_funcs_match, builtin_names, hlen]
  · have h3 := hk [99, 111, 108] rfl
    simp only [List.length_cons, List.length_nil] at h3
    simp [lex_builtin_funcs_match, builtin_names, hlen, h3]
  · have h4 := hk [108, 105, 110, 101] rfl
    have h4f := hk [102, 105, 108, 101] rfl
    simp only [List.length_cons, List.length_nil] at h4 h4f
    simp [lex_builtin_funcs_match, builtin_names, hlen, h4, h4f]
  · have h5 := hk [112, 114, 105, 110, 116] rfl
    simp only [List.length_cons, List.length_nil] at h5
    simp [lex_builtin_funcs_match, builtin_names, hlen, h5]
  · simp [lex_builtin_funcs_match, builtin_names, hlen]
  · have h7 := hk [112, 114, 105, 110, 116, 108, 110] rfl
    simp only [List.length_cons, List.length_nil] at h7
    simp [lex_builtin_funcs_match, builtin_names, hlen, h7]
  · simp [lex_builtin_funcs_match, builtin_names, hlen]

/-- The result of `lex_builtin_funcs` on `@` and a run `w` of letters: a
`BuiltinFunc` token that starts after the `@` when `w` is one of the five
names, and otherwise a failure with `LEXER_INVALID_BUILTN_FN`, the cursor
rewound a second time, with the wrap of the unsigned subtraction. -/
theorem lex_builtin_funcs_lexeme (l : Lexer) (w rest : List Nat) (hlen0 : l.len = 0)
    (hcur : current l = 64) (hdrop : l.file.contents.drop (l.index + 1) = w ++ rest)
    (hall : ∀ x ∈ w, isalpha x = true) (hstop : isalpha (rest.headD 0) = false) :
    lex_builtin_funcs l =
      if w ∈ builtin_names then
        (exit_code.EXIT_SUCCESS,
          { l with index := l.index + 1 + w.length, len := w.length,
                   tokens := l.tokens ++
                     [⟨token_type.BuiltinFunc, l.index + 1, w.length, l.begin_tok_line⟩] })
      else
        (exit_code.EXIT_FAILURE,
          { l with index := u32_sub (l.index + 1) w.length, len := w.length,
                   error := error_type.LEXER_INVALID_BUILTN_FN }) := by
  have hbud := length_of_drop l.file _ _ _ hdrop
  have hrun : run_length isalpha l.file (l.index + 1) (l.file.length - (l.index + 1))
      = w.length :=
    run_length_lexeme _ _ w rest _ _ hdrop hall hstop (by omega)
  have hnl : nl_count l.file (l.index + 1) w.length = 0 :=
    nl_count_lexeme l.file w rest (l.index + 1) hdrop (fun y hy => (isalpha_ne y (hall y hy)).2.1)
  have hm := lex_builtin_funcs_match_lexeme
    { l with index := l.index + 1, len := w.length } w rest hdrop rfl
    (fun y hy => (isalpha_ne y (hall y hy)).1)
  unfold lex_builtin_funcs
  dsimp only
  rw [lex_builtin_funcs_loop_eq, advance_len_inc_times_eq]
  simp only [advance, Lexer.budget, hlen0, hrun, hnl, hcur, Nat.add_zero, Nat.zero_add,
    Nat.add_sub_cancel, show (64 : Nat) = 10 ↔ False from by decide, if_false]
  rw [hm]
  by_cases hw : w ∈ builtin_names
  · simp only [hw, decide_True, if_true]
    rw [add_token_eq]
    simp only [hnl, Nat.add_zero]
  · simp only [hw, decide_False, if_false, Bool.false_eq_true, reverse_len_for_error]

/-- The buffer `@` and a name of the directive set. -/
theorem scan_builtin (w : List Nat) (hw : w ∈ builtin_names) :
    scan_tokens (64 :: w) =
      some (exit_code.EXIT_SUCCESS,
        [⟨token_type.BuiltinFunc, 1, w.length, 1⟩, ⟨token_type.EOT, w.length + 1, 0, 1⟩]) := by
  simp only [builtin_names, List.mem_cons, List.mem_singleton, List.not_mem_nil, or_false] at hw
  rcases hw with rfl | rfl | rfl | rfl | rfl <;> decide

/-- The buffer `@` and a run of letters that is not in the directive set. -/
theorem scan_builtin_unknown (w : List Nat) (hall : ∀ x ∈ w, isalpha x = true)
    (hw : w ∉ builtin_names) :
    scan (64 :: w) =
      some (exit_code.EXIT_FAILURE,
        { Lexer.new ⟨64 :: w⟩ with
          index := u32_sub 1 w.length, len := w.length, begin_tok_line := 1,
          error := error_type.LEXER_INVALID_BUILTN_FN }) := by
  have h := lex_builtin_funcs_lexeme
    { Lexer.new ⟨64 :: w⟩ with len := 0, begin_tok_line := 1 } w [] rfl rfl
    (by simp [Lexer.new]) hall (by decide)
  unfold scan lex
  rw [show (Lexer.new ⟨64 :: w⟩).budget + 1 = w.length + 1 + 1 by
    simp [Lexer.budget, Lexer.new, file_t.length]]
  rw [lex_loop_succ, lex_director_builtin (Lexer.new ⟨64 :: w⟩) rfl]
  simp only [Lexer.new] at h ⊢
  rw [h, if_neg hw]
  simp [report_error]

/-! ## The order of the tokens -/

/-- An ordered token sequence whose tokens all have a length of at least 1 and
end at or before `c` stays ordered when a token that starts at or after `c` is
appended. -/
theorem tokens_ordered_snoc (ts : List Token) (tok : Token) (c : Nat)
    (hord : tokens_ordered ts)
    (hall : ∀ t ∈ ts, 1 ≤ t.length ∧ t.index + t.length ≤ c) (hc : c ≤ tok.index) :
    tokens_ordered (ts ++ [tok]) := by
  unfold tokens_ordered at *
  refine List.Chain'.append hord (List.chain'_singleton tok) ?_
  intro x hx y hy
  have hxm : x ∈ ts := List.mem_of_mem_getLast? hx
  have hyt : y = tok := by simpa using hy.symm
  have := hall x hxm
  rw [hyt]
  unfold token_before
  omega

theorem dispatch_keeps_order (l l1 : Lexer) (hfl : l.file_length = l.file.length)
    (hd : lex_director l = (exit_code.EXIT_SUCCESS, l1))
    (hord : tokens_ordered l.tokens)
    (hall : ∀ t ∈ l.tokens, 1 ≤ t.length ∧ t.index + t.length ≤ l.index) :
    tokens_ordered l1.tokens ∧
      ∀ t ∈ l1.tokens, 1 ≤ t.length ∧ t.index + t.length ≤ l1.index := by
  obtain ⟨_, _, _, h4, _, h6⟩ := lex_director_success l l1 hfl hd
  rcases h6 with h6 | ⟨tok, ht, _, hi, hl, hs⟩
  · rw [h6]
    exact ⟨hord, fun t htm => ⟨(hall t htm).1, by have := (hall t htm).2; omega⟩⟩
  · rw [ht]
    refine ⟨tokens_ordered_snoc _ tok l.index hord hall hi, ?_⟩
    intro t htm
    rcases List.mem_append.mp htm with htm | htm
    · exact ⟨(hall t htm).1, by have := (hall t htm).2; omega⟩
    · rw [List.mem_singleton.mp htm]
      exact ⟨hl, by omega⟩

theorem dispatches_keep_order (k : Nat) (l0 l : Lexer) (hfl : l0.file_length = l0.file.length)
    (hord : tokens_ordered l0.tokens)
    (hall : ∀ t ∈ l0.tokens, 1 ≤ t.length ∧ t.index + t.length ≤ l0.index)
    (h : dispatches k l0 = some l) :
    tokens_ordered l.tokens ∧ ∀ t ∈ l.tokens, 1 ≤ t.length ∧ t.index + t.length ≤ l.index := by
  induction k generalizing l0 with
  | zero =>
    simp only [dispatches, Option.some.injEq] at h
    subst h
    exact ⟨hord, hall⟩
  | succ k ih =>
    simp only [dispatches] at h
    rcases hd : lex_director l0 with ⟨e, l1⟩
    rw [hd] at h
    cases e with
    | EXIT_SUCCESS =>
      obtain ⟨h1, h2, _⟩ := lex_director_success l0 l1 hfl hd
      obtain ⟨o1, a1⟩ := dispatch_keeps_order l0 l1 hfl hd hord hall
      exact ih l1 (by rw [h2, h1, hfl]) o1 a1 h
    | EXIT_FAILURE => exact Option.noConfusion h
    | EXIT_DONE => exact Option.noConfusion h

theorem lex_loop_keeps_order (n : Nat) (l r : Lexer) (e : exit_code)
    (hfl : l.file_length = l.file.length) (hord : tokens_ordered l.tokens)
    (hall : ∀ t ∈ l.tokens, 1 ≤ t.length ∧ t.index + t.length ≤ l.index)
    (h : lex_loop n l = some (e, r)) :
    tokens_ordered r.tokens ∧ ∀ t ∈ r.tokens, t.type ≠ token_type.EOT → 1 ≤ t.length := by
  induction n generalizing l with
  | zero => exact Option.noConfusion h
  | succ n ih =>
    rw [lex_loop_succ] at h
    rcases hd : lex_director l with ⟨e1, l1⟩
    rw [hd] at h
    cases e1 with
    | EXIT_SUCCESS =>
      obtain ⟨h1, h2, _⟩ := lex_director_success l l1 hfl hd
      obtain ⟨o1, a1⟩ := dispatch_keeps_order l l1 hfl hd hord hall
      exact ih l1 (by rw [h2, h1, hfl]) o1 a1 h
    | EXIT_FAILURE =>
      obtain ⟨_, _, h3⟩ := lex_director_failure l l1 hfl hd
      simp only [report_error, Option.some.injEq, Prod.mk.injEq] at h
      rw [← h.2, h3]
      exact ⟨hord, fun t htm _ => (hall t htm).1⟩
    | EXIT_DONE =>
      obtain ⟨_, _, h3, _, h5⟩ := lex_director_done l l1 hfl hd
      dsimp only at h
      rw [add_token_eq] at h
      simp only [Option.some.injEq, Prod.mk.injEq] at h
      rw [← h.2]
      dsimp only
      rw [h3]
      refine ⟨tokens_ordered_snoc _ _ l.index hord hall h5, ?_⟩
      intro t htm hty
      rcases List.mem_append.mp htm with htm | htm
      · exact (hall t htm).1
      · rw [List.mem_singleton.mp htm] at hty
        exact absurd rfl hty

/-! ## Characters -/

/-- The fall through of `lex_chars`: after the quote comes a byte that is not
a backslash, and the byte after it is not a quote. -/
theorem lex_chars_fall_through (l : Lexer) (hc : current l = 39) (hp : peek l ≠ 92)
    (hq : l.file.at (l.index + 2) ≠ 39) :
    lex_chars l = (exit_code.EXIT_FAILURE, { l with index := l.index + 1, len := l.len + 1 }) := by
  have h1 : current { l with index := l.index + 1, len := l.len + 1 } = peek l := rfl
  have h2 : peek { l with index := l.index + 1, len := l.len + 1 } = l.file.at (l.index + 2) :=
    rfl
  unfold lex_chars
  dsimp only
  rw [advance_len_inc_of_ne l (by omega), h1, h2, if_neg (fun h => hq h.2), if_neg hp]

theorem dispatch_state_fields (l : Lexer) :
    (dispatch_state l).file = l.file ∧ (dispatch_state l).tokens = l.tokens ∧
      (dispatch_state l).error = l.error ∧ (dispatch_state l).len = 0 := by
  obtain ⟨k, hk⟩ := dispatch_state_eq l
  rw [hk]
  exact ⟨rfl, rfl, rfl, rfl⟩

/-! ## Block comments -/

theorem block_comment_loop_done (n : Nat) (l : Lexer) : block_comment_loop n l true = l := by
  cases n with
  | zero => rfl
  | succ n => simp [block_comment_loop]

/-- The loop of the block comment, from a cursor at or before the first
closing `*/` whose `*` does not follow a `/`: it stops right after it. -/
theorem block_comment_loop_close (n : Nat) (l : Lexer) (i : Nat)
    (hle : l.index ≤ i) (hlt : i < l.file_length)
    (h1 : l.file.at i = 42) (h2 : l.file.at (i + 1) = 47) (h3 : l.file.at (i - 1) ≠ 47)
    (hno : ∀ j, l.index ≤ j → j < i →
      ¬(l.file.at (j - 1) ≠ 47 ∧ l.file.at j = 42 ∧ l.file.at (j + 1) = 47))
    (hn : i - l.index < n) :
    block_comment_loop n l false = advance_times (i + 2 - l.index) l := by
  induction n generalizing l with
  | zero => omega
  | succ n ih =>
    have heof : is_not_eof l = true := by
      simp only [is_not_eof, decide_eq_true_eq]
      omega
    rw [block_comment_loop, if_pos (by rw [heof]; rfl)]
    by_cases hi : l.index = i
    · have hclose : past l ≠ 47 ∧ current l = 42 ∧ peek l = 47 := by
        unfold past current peek
        rw [hi]
        exact ⟨h3, h1, h2⟩
      rw [if_pos hclose, block_comment_loop_done, show i + 2 - l.index = 2 by omega]
      rfl
    · have hnc : ¬(past l ≠ 47 ∧ current l = 42 ∧ peek l = 47) :=
        hno l.index (Nat.le_refl _) (by omega)
      rw [if_neg hnc, ih (advance l) (by show l.index + 1 ≤ i; omega) hlt h1 h2 h3
        (fun j hj1 hj2 => hno j (by have : l.index + 1 ≤ j := hj1; omega) hj2)
        (by show i - (l.index + 1) < n; omega)]
      rw [show i + 2 - l.index = (i + 2 - (advance l).index) + 1 by
        show i + 2 - l.index = (i + 2 - (l.index + 1)) + 1
        omega]
      rfl

theorem lex_symbols_block_comment (l : Lexer) (hc : current l = 47) (hp : peek l = 42) :
    lex_symbols l =
      (exit_code.EXIT_SUCCESS,
        block_comment_loop (Lexer.budget (advance { l with len := 1 }))
          (advance { l with len := 1 }) false) := by
  simp [lex_symbols, hc, hp]

/-! ## Scanning the slice of a token again -/

theorem token_relexes_ite (P : Prop) [Decidable P] (l : Lexer) (a b : exit_code × Lexer)
    (ha : P → token_relexes l a) (hb : ¬P → token_relexes l b) :
    token_relexes l (if P then a else b) := by
  split
  · exact ha (by assumption)
  · exact hb (by assumption)

theorem token_relexes_failure (l x : Lexer) : token_relexes l (exit_code.EXIT_FAILURE, x) :=
  fun h => exit_code.noConfusion h

theorem token_relexes_done (l x : Lexer) : token_relexes l (exit_code.EXIT_DONE, x) :=
  fun h => exit_code.noConfusion h

theorem token_relexes_same (l x : Lexer) (e : exit_code) (h : x.tokens = l.tokens) :
    token_relexes l (e, x) :=
  fun _ => Or.inl h

theorem token_relexes_add_token (l0 l : Lexer) (type : token_type)
    (htok : l.tokens = l0.tokens)
    (h : type = token_type.String ∨
      relexes l0.file ⟨type, l.index, l.len, l.begin_tok_line⟩) :
    token_relexes l0 (add_token l type) := by
  rw [add_token_eq]
  intro _
  exact Or.inr ⟨⟨type, l.index, l.len, l.begin_tok_line⟩, by simp [htok], h⟩

theorem slice_of_drop (f : file_t) (i : Nat) (w rest : List Nat)
    (hdrop : f.contents.drop i = w ++ rest) : slice f i w.length = w := by
  unfold slice
  rw [hdrop]
  simp

theorem slice_succ (f : file_t) (i k : Nat) (h : i < f.length) :
    slice f i (k + 1) = f.at i :: slice f (i + 1) k := by
  unfold slice file_t.at file_t.length at *
  rw [List.drop_eq_getElem_cons h, List.take_succ_cons, List.getD_eq_getElem _ _ h]

theorem slice_zero (f : file_t) (i : Nat) : slice f i 0 = [] := by
  simp [slice]

/-- A pass that appends one token and then sees the end of the buffer. -/
theorem first_kind_of_dispatch (buffer : List Nat) (l1 : Lexer) (tok : Token)
    (hb : buffer ≠ [])
    (h1 : lex_director (Lexer.new ⟨buffer⟩) = (exit_code.EXIT_SUCCESS, l1))
    (hcur : current l1 = 0) (htok : l1.tokens = [tok]) :
    first_kind buffer = some tok.type := by
  obtain ⟨x, xs, rfl⟩ := List.exists_cons_of_ne_nil hb
  have hs : scan (x :: xs) =
      some (exit_code.EXIT_SUCCESS,
        { l1 with len := 0, begin_tok_line := l1.line, is_done := true,
                  tokens := l1.tokens ++ [⟨token_type.EOT, l1.index, 0, l1.line⟩] }) := by
    unfold scan lex
    rw [show (Lexer.new ⟨x :: xs⟩).budget + 1 = xs.length + 1 + 1 by
      simp [Lexer.budget, Lexer.new, file_t.length]]
    exact lex_loop_step _ _ _ _ h1 (lex_loop_NUL _ _ hcur)
  unfold first_kind
  rw [hs]
  simp [htok]

theorem token_relexes_one (l : Lexer) (c : Nat) (type : token_type) (hcur : current l = c)
    (hc : c ≠ 0)
    (hk : first_kind [c] =
      some (if type = token_type.BuiltinFunc then token_type.Identifier else type)) :
    token_relexes l (add_token { l with len := 1 } type) := by
  have hc1 : l.file.at l.index = c := hcur
  have hlt : l.index < l.file.length := lt_length_of_at_ne_zero _ _ (by rw [hc1]; exact hc)
  refine token_relexes_add_token l _ type rfl (Or.inr ⟨?_, ?_⟩)
  · show l.index + 1 ≤ l.file.length
    omega
  · show first_kind (slice l.file l.index 1) = _
    rw [slice_succ _ _ _ hlt, slice_zero, hc1]
    exact hk

theorem token_relexes_two (l : Lexer) (c q : Nat) (type : token_type) (hcur : current l = c)
    (hpeek : peek l = q) (hc : c ≠ 0) (hq : q ≠ 0)
    (hk : first_kind [c, q] =
      some (if type = token_type.BuiltinFunc then token_type.Identifier else type)) :
    token_relexes l (add_token { l with len := 1 + 1 } type) := by
  have hc1 : l.file.at l.index = c := hcur
  have hq1 : l.file.at (l.index + 1) = q := hpeek
  have hlt : l.index < l.file.length := lt_length_of_at_ne_zero _ _ (by rw [hc1]; exact hc)
  have hlt1 : l.index + 1 < l.file.length :=
    lt_length_of_at_ne_zero _ _ (by rw [hq1]; exact hq)
  refine token_relexes_add_token l _ type rfl (Or.inr ⟨?_, ?_⟩)
  · show l.index + (1 + 1) ≤ l.file.length
    omega
  · show first_kind (slice l.file l.index (1 + 1)) = _
    rw [slice_succ _ _ _ hlt, slice_succ _ _ _ hlt1, slice_zero, hc1, hq1]
    exact hk

theorem token_relexes_line_comment (l : Lexer) (n : Nat) :
    token_relexes l (exit_code.EXIT_SUCCESS, line_comment_loop n { l with len := 1 }) := by
  obtain ⟨k, _, he, _⟩ := line_comment_loop_eq n { l with len := 1 }
  rw [he, advance_times_eq]
  exact token_relexes_same _ _ _ rfl

theorem token_relexes_block_comment (l : Lexer) (n : Nat) :
    token_relexes l
      (exit_code.EXIT_SUCCESS, block_comment_loop n (advance { l with len := 1 }) false) := by
  obtain ⟨k, he⟩ := block_comment_loop_eq n (advance { l with len := 1 }) false
  rw [he, advance_times_eq]
  exact token_relexes_same _ _ _ rfl

/-- The tokens of `lex_symbols` scan again to their kind. -/
theorem lex_symbols_relexes (l : Lexer) : token_relexes l (lex_symbols l) := by
  unfold lex_symbols
  dsimp only
  repeat' refine token_relexes_ite _ l _ _ (fun _ => ?_) (fun _ => ?_)
  all_goals
    first
    | exact token_relexes_one l _ _ (by assumption) (by decide) (by decide)
    | exact token_relexes_two l _ _ _ (by assumption) (by assumption) (by decide) (by decide)
        (by decide)
    | exact token_relexes_line_comment l _
    | exact token_relexes_block_comment l _
    | exact token_relexes_failure l _
    | exact token_relexes_done l _

/-- The token of `lex_strings` is a `String`. -/
theorem lex_strings_relexes (l : Lexer) : token_relexes l (lex_strings l) := by
  unfold lex_strings
  dsimp only
  obtain ⟨k, _, he⟩ := lex_strings_loop_eq ((advance_len_inc l).budget + 1) (advance_len_inc l)
  rcases he with he | he
  · rw [he]
    dsimp only
    rw [advance_len_inc_times_eq]
    exact token_relexes_add_token l _ _ rfl (Or.inl rfl)
  · rw [he]
    exact token_relexes_failure l _

theorem slice_three (f : file_t) (i : Nat) (h : f.at (i + 2) ≠ 0) :
    slice f i 3 = [f.at i, f.at (i + 1), f.at (i + 2)] ∧ i + 3 ≤ f.length := by
  have hlt := lt_length_of_at_ne_zero f (i + 2) h
  rw [slice_succ _ _ _ (by omega), slice_succ _ _ _ (by omega), slice_succ _ _ _ (by omega),
    slice_zero]
  exact ⟨rfl, by omega⟩

theorem slice_four (f : file_t) (i : Nat) (h : f.at (i + 3) ≠ 0) :
    slice f i 4 = [f.at i, f.at (i + 1), f.at (i + 2), f.at (i + 3)] ∧ i + 4 ≤ f.length := by
  have hlt := lt_length_of_at_ne_zero f (i + 3) h
  rw [slice_succ _ _ _ (by omega), slice_succ _ _ _ (by omega), slice_succ _ _ _ (by omega),
    slice_succ _ _ _ (by omega), slice_zero]
  exact ⟨rfl, by omega⟩

/-- A pass over a character literal without escape. -/
theorem first_kind_char (x : Nat) (hx : x ≠ 92) :
    first_kind [39, x, 39] = some token_type.Char := by
  have hd : lex_director (Lexer.new ⟨[39, x, 39]⟩) =
      (exit_code.EXIT_SUCCESS,
        { Lexer.new ⟨[39, x, 39]⟩ with
          index := 3, len := 3, begin_tok_line := 1,
          line := 1 + (if x = 10 then 1 else 0) + (if x = 10 then 1 else 0),
          tokens := [⟨token_type.Char, 0, 3, 1⟩] }) := by
    rw [lex_director_char (Lexer.new ⟨[39, x, 39]⟩) rfl]
    simp [lex_chars, advance_len_inc, current, peek, file_t.at, Lexer.new, hx, add_token_eq,
      nl_count, file_t.length]
  exact first_kind_of_dispatch _ _ ⟨token_type.Char, 0, 3, 1⟩ (by simp) hd rfl rfl

/-- A pass over a character literal with an escape. -/
theorem first_kind_char_escape (e : Nat) (he : lex_chars_escape e = true) :
    first_kind [39, 92, e, 39] = some token_type.Char := by
  rcases (lex_chars_escape_iff e).mp he with h | h | h | h | h | h | h <;> subst h <;> decide

theorem token_relexes_add_token_at (l0 l : Lexer) (type : token_type) (i k : Nat)
    (htok : l.tokens = l0.tokens) (hi : l.index = i) (hk : l.len = k)
    (h : type = token_type.String ∨ relexes l0.file ⟨type, i, k, l.begin_tok_line⟩) :
    token_relexes l0 (add_token l type) := by
  subst hi hk
  exact token_relexes_add_token l0 l type htok h

theorem relexes_char (f : file_t) (i ln : Nat) (h1 : f.at i = 39) (h2 : f.at (i + 1) ≠ 92)
    (h3 : f.at (i + 2) = 39) : relexes f ⟨token_type.Char, i, 3, ln⟩ := by
  obtain ⟨hs, hl⟩ := slice_three f i (by omega)
  refine ⟨hl, ?_⟩
  show first_kind (slice f i 3) = _
  rw [hs, h1, h3]
  exact first_kind_char _ h2

theorem relexes_char_escape (f : file_t) (i ln : Nat) (h1 : f.at i = 39)
    (h2 : f.at (i + 1) = 92) (h3 : lex_chars_escape (f.at (i + 2)) = true)
    (h4 : f.at (i + 3) = 39) : relexes f ⟨token_type.Char, i, 4, ln⟩ := by
  obtain ⟨hs, hl⟩ := slice_four f i (by omega)
  refine ⟨hl, ?_⟩
  show first_kind (slice f i 4) = _
  rw [hs, h1, h2, h4]
  exact first_kind_char_escape _ h3

/-- The tokens of `lex_chars` scan again to a `Char`. -/
theorem lex_chars_relexes (l : Lexer) (hlen0 : l.len = 0) (hcur : current l = 39) :
    token_relexes l (lex_chars l) := by
  have hc1 : l.file.at l.index = 39 := hcur
  unfold lex_chars
  dsimp only
  simp only [advance_len_inc, hlen0, reverse_len_for_error, current, peek]
  refine token_relexes_ite _ l _ _ (fun h => ?_) (fun _ => ?_)
  · refine token_relexes_add_token_at l _ _ l.index 3 rfl ?_ ?_
      (Or.inr (relexes_char l.file l.index _ hc1 h.1 h.2))
    · simp only []
      omega
    · rfl
  · refine token_relexes_ite _ l _ _ (fun h92 => ?_) (fun _ => token_relexes_failure l _)
    refine token_relexes_ite _ l _ _ (fun hesc => ?_) (fun _ => token_relexes_failure l _)
    refine token_relexes_ite _ l _ _ (fun h39 => ?_) (fun _ => token_relexes_failure l _)
    refine token_relexes_add_token_at l _ _ l.index 4 rfl ?_ ?_
      (Or.inr (relexes_char_escape l.file l.index _ hc1 h92 hesc h39))
    · simp only []
      omega
    · rfl

theorem exists_run (p : Nat → Bool) (hp : p 0 = false) (xs : List Nat) :
    ∃ w rest, xs = w ++ rest ∧ (∀ x ∈ w, p x = true) ∧ p (rest.headD 0) = false := by
  induction xs with
  | nil => exact ⟨[], [], rfl, fun x hx => absurd hx (List.not_mem_nil x), hp⟩
  | cons x xs ih =>
    by_cases hx : p x = true
    · obtain ⟨w, rest, h1, h2, h3⟩ := ih
      refine ⟨x :: w, rest, by rw [h1]; rfl, ?_, h3⟩
      intro y hy
      rcases List.mem_cons.mp hy with rfl | hy
      · exact hx
      · exact h2 y hy
    · exact ⟨[], x :: xs, rfl, fun y hy => absurd hy (List.not_mem_nil y), by simpa using hx⟩

theorem first_kind_of_scan_tokens (buffer : List Nat) (t : Token) (ts : List Token)
    (h : scan_tokens buffer = some (exit_code.EXIT_SUCCESS, t :: ts)) :
    first_kind buffer = some t.type := by
  unfold scan_tokens at h
  unfold first_kind
  rcases hs : scan buffer with _ | ⟨e, r⟩
  · rw [hs] at h
    exact Option.noConfusion h
  · rw [hs] at h
    simp only [Option.map_some', Option.some.injEq, Prod.mk.injEq] at h
    obtain ⟨h1, h2⟩ := h
    subst h1
    simp [h2]

theorem ite_ne_BuiltinFunc (P : Prop) [Decidable P] (a b : token_type)
    (ha : a ≠ token_type.BuiltinFunc) (hb : b ≠ token_type.BuiltinFunc) :
    (if P then a else b) ≠ token_type.BuiltinFunc := by
  split
  · exact ha
  · exact hb

theorem keyword_kind_ne_BuiltinFunc (w : List Nat) : keyword_kind w ≠ token_type.BuiltinFunc := by
  unfold keyword_kind
  repeat' refine ite_ne_BuiltinFunc _ _ _ ?_ ?_
  all_goals decide

/-- The token of `lex_identifiers` scans again to its kind. -/
theorem lex_identifiers_relexes (l : Lexer) (hlen0 : l.len = 0)
    (hfirst : current l = 95 ∨ isalpha (current l) = true) :
    token_relexes l (lex_identifiers l) := by
  obtain ⟨w, rest, hdrop, hall, hstop⟩ :=
    exists_run is_ident_byte (by decide) (l.file.contents.drop l.index)
  have hne : w ≠ [] := by
    intro hw
    subst hw
    have hcur := current_eq_headD l _ hdrop
    rw [List.nil_append] at hcur
    rw [← hcur, is_ident_byte_of_first _ hfirst] at hstop
    exact Bool.noConfusion hstop
  have hhead : w.headD 0 = current l := by
    rw [current_eq_headD l _ hdrop]
    obtain ⟨x, w1, rfl⟩ := List.exists_cons_of_ne_nil hne
    rfl
  have hbud := length_of_drop l.file _ _ _ hdrop
  have hpos : 0 < w.length := List.length_pos.mpr hne
  by_cases h100 : w.length ≤ 100
  · rw [lex_identifiers_lexeme l w rest hlen0 hdrop hne hall hstop h100]
    intro _
    refine Or.inr ⟨_, rfl, Or.inr ⟨?_, ?_⟩⟩
    · show l.index + w.length ≤ l.file.length
      omega
    · show first_kind (slice l.file l.index w.length) = _
      rw [slice_of_drop _ _ _ _ hdrop, if_neg (keyword_kind_ne_BuiltinFunc w)]
      exact first_kind_of_scan_tokens w ⟨keyword_kind w, 0, w.length, 1⟩ _
        (scan_identifier w hne (by rw [hhead]; exact hfirst) hall h100)
  · rw [lex_identifiers_too_long l w rest hlen0 hdrop hne hall hstop (by omega)]
    exact token_relexes_failure l _

/-- The token of `lex_builtin_funcs`, the name without the `@`, scans again to
an `Identifier`. -/
theorem lex_builtin_funcs_relexes (l : Lexer) (hlen0 : l.len = 0) (hcur : current l = 64) :
    token_relexes l (lex_builtin_funcs l) := by
  obtain ⟨w, rest, hdrop, hall, hstop⟩ :=
    exists_run isalpha (by decide) (l.file.contents.drop (l.index + 1))
  have hlt : l.index < l.file.length :=
    lt_length_of_at_ne_zero l.file l.index (by unfold current at hcur; omega)
  have hbud := length_of_drop l.file _ _ _ hdrop
  rw [lex_builtin_funcs_lexeme l w rest hlen0 hcur hdrop hall hstop]
  refine token_relexes_ite _ l _ _ (fun hw => ?_) (fun _ => token_relexes_failure l _)
  intro _
  refine Or.inr ⟨_, rfl, Or.inr ⟨?_, ?_⟩⟩
  · show l.index + 1 + w.length ≤ l.file.length
    omega
  · show first_kind (slice l.file (l.index + 1) w.length) = some token_type.Identifier
    rw [slice_of_drop _ _ _ _ hdrop]
    simp only [builtin_names, List.mem_cons, List.mem_singleton, List.not_mem_nil, or_false]
      at hw
    rcases hw with rfl | rfl | rfl | rfl | rfl <;> decide

/-- The loop of `lex_numbers` on `a . b` that no digit follows (`b` may be
empty): it consumes `a . b` and sets the flag. -/
theorem lex_numbers_loop_fraction (a b rest : List Nat) (ha : a ≠ []) (l : Lexer) (n : Nat)
    (hdrop : l.file.contents.drop l.index = a ++ 46 :: (b ++ rest))
    (hda : ∀ x ∈ a, isdigit x = true) (hdb : ∀ x ∈ b, isdigit x = true)
    (hstop : isdigit (rest.headD 0) = false) (hn : a.length + 1 + b.length ≤ n) :
    lex_numbers_loop n l false =
      ({ l with index := l.index + (a.length + 1 + b.length),
                len := l.len + (a.length + 1 + b.length) }, true) := by
  rw [lex_numbers_loop_digits a ha _ l n false hdrop hda (by omega)]
  simp only [List.headD_cons, if_true, Bool.false_eq_true, if_false]
  obtain ⟨m, hm⟩ : ∃ m, n - a.length = m + 1 := ⟨n - a.length - 1, by omega⟩
  have hdrop1 := drop_add_of_drop_append _ _ _ _ hdrop
  have hdrop2 := drop_succ_of_drop_cons _ _ _ _ hdrop1
  have hcur : current { l with index := l.index + a.length, len := l.len + a.length } = 46 := by
    rw [current_eq_headD _ _ hdrop1]
    rfl
  rw [hm, lex_numbers_loop, if_pos (by rw [hcur]; rfl)]
  dsimp only
  rw [advance_len_inc_of_ne _ (by rw [hcur]; decide)]
  dsimp only
  cases b with
  | nil =>
    have hnext : current { l with index := l.index + a.length + 1,
                                  len := l.len + a.length + 1 } = rest.headD 0 := by
      rw [current_eq_headD _ _ hdrop2]
      rfl
    simp only [List.length_nil, Nat.add_zero, Nat.add_assoc] at hnext ⊢
    by_cases h46 : rest.headD 0 = 46
    · rw [if_pos (by rw [hnext]; exact h46)]
      rfl
    · rw [if_neg (by rw [hnext]; exact h46)]
      exact lex_numbers_loop_stop _ _ _ (by rw [hnext]; exact hstop) (by rw [hnext]; exact h46)
  | cons y b1 =>
    have hy := hdb y (List.mem_cons_self y b1)
    have hnext : current { l with index := l.index + a.length + 1,
                                  len := l.len + a.length + 1 } = y := by
      rw [current_eq_headD _ _ hdrop2]
      rfl
    rw [if_neg (by rw [hnext]; exact (isdigit_ne y hy).2.2.1)]
    rw [lex_numbers_loop_digits (y :: b1) (List.cons_ne_nil y b1) rest _ m true hdrop2 hdb
      (by omega)]
    simp only [if_true]
    have hdrop3 := drop_add_of_drop_append _ _ _ _ hdrop2
    have hlast : current { l with index := l.index + a.length + 1 + (y :: b1).length,
                                  len := l.len + a.length + 1 + (y :: b1).length }
        = rest.headD 0 := current_eq_headD _ _ hdrop3
    by_cases h46 : rest.headD 0 = 46
    · rw [if_pos h46]
      simp only [Nat.add_assoc]
    · rw [if_neg h46,
        lex_numbers_loop_stop _ _ _ (by rw [hlast]; exact hstop) (by rw [hlast]; exact h46)]
      simp only [Nat.add_assoc]

theorem token_relexes_numbers_of_loop (l : Lexer) (k : Nat) (flag : Bool) (hlen0 : l.len = 0)
    (hloop : lex_numbers_loop l.budget l false =
      ({ l with index := l.index + k, len := l.len + k }, flag))
    (hrel : k ≤ 100 →
      relexes l.file
        ⟨if flag then token_type.Float else token_type.Integer, l.index, k,
          l.begin_tok_line⟩) :
    token_relexes l (lex_numbers l) := by
  unfold lex_numbers
  dsimp only
  rw [hloop]
  dsimp only
  refine token_relexes_ite _ l _ _ (fun _ => token_relexes_failure l _) (fun h => ?_)
  refine token_relexes_add_token_at l _ _ l.index k rfl ?_ ?_ (Or.inr (hrel ?_))
  · simp only [hlen0]
    omega
  · simp only [hlen0]
    omega
  · simp only [hlen0] at h
    omega

/-- A pass over a run of digits. -/
theorem first_kind_integer (a : List Nat) (ha : a ≠ []) (hda : ∀ x ∈ a, isdigit x = true)
    (h100 : a.length ≤ 100) : first_kind a = some token_type.Integer := by
  have hd := lex_director_integer a [] ha (Lexer.new ⟨a⟩) (by simp [Lexer.new]) hda
    (by decide) (by decide) h100
  exact first_kind_of_dispatch a _ ⟨token_type.Integer, 0, a.length, 1⟩ ha hd
    (at_eq_zero_of_le _ _ (by simp [Lexer.new, file_t.length])) rfl

/-- A pass over digits, a `.` and digits. -/
theorem first_kind_fraction (a b : List Nat) (ha : a ≠ []) (hda : ∀ x ∈ a, isdigit x = true)
    (hdb : ∀ x ∈ b, isdigit x = true) (h100 : a.length + 1 + b.length ≤ 100) :
    first_kind (a ++ 46 :: b) = some token_type.Float := by
  obtain ⟨x, a1, rfl⟩ := List.exists_cons_of_ne_nil ha
  have hx := hda x (List.mem_cons_self x a1)
  have hnl : nl_count ⟨x :: a1 ++ 46 :: b⟩ 0 ((x :: a1).length + 1 + b.length) = 0 := by
    have h := nl_count_lexeme ⟨x :: a1 ++ 46 :: b⟩ (x :: a1 ++ 46 :: b) [] 0 (by simp)
      (by
        intro z hz
        rcases List.mem_append.mp hz with hz | hz
        · exact (isdigit_ne z (hda z hz)).2.1
        · rcases List.mem_cons.mp hz with rfl | hz
          · decide
          · exact (isdigit_ne z (hdb z hz)).2.1)
    rw [← h]
    congr 1
    simp only [List.length_append, List.length_cons]
    omega
  have hloop := lex_numbers_loop_fraction (x :: a1) b [] ha
    { Lexer.new ⟨x :: a1 ++ 46 :: b⟩ with len := 0, begin_tok_line := 1 }
    (Lexer.budget { Lexer.new ⟨x :: a1 ++ 46 :: b⟩ with len := 0, begin_tok_line := 1 })
    (by simp [Lexer.new]) hda hdb (by decide)
    (by simp only [Lexer.budget, Lexer.new, file_t.length, List.length_append,
          List.length_cons]
        omega)
  have hnum := lex_numbers_of_loop
    { Lexer.new ⟨x :: a1 ++ 46 :: b⟩ with len := 0, begin_tok_line := 1 }
    ((x :: a1).length + 1 + b.length) true rfl hloop h100 hnl
  have hd : lex_director (Lexer.new ⟨x :: a1 ++ 46 :: b⟩) = _ :=
    (lex_director_number (Lexer.new ⟨x :: a1 ++ 46 :: b⟩) hx).trans hnum
  exact first_kind_of_dispatch _ _ ⟨token_type.Float, 0, (x :: a1).length + 1 + b.length, 1⟩
    (by simp) hd
    (at_eq_zero_of_le _ _ (by
      simp only [Lexer.new, file_t.length, List.length_append, List.length_cons]
      omega)) rfl

theorem slice_of_drop_length (f : file_t) (i k : Nat) (w rest : List Nat)
    (hdrop : f.contents.drop i = w ++ rest) (hk : k = w.length) : slice f i k = w := by
  rw [hk]
  exact slice_of_drop f i w rest hdrop

/-- The token of `lex_numbers` scans again to its kind. -/
theorem lex_numbers_relexes (l : Lexer) (hlen0 : l.len = 0)
    (hdig : isdigit (current l) = true) : token_relexes l (lex_numbers l) := by
  obtain ⟨a, r1, hdrop, hda, hstop1⟩ :=
    exists_run isdigit (by decide) (l.file.contents.drop l.index)
  have ha : a ≠ [] := by
    intro hw
    subst hw
    have hcur := current_eq_headD l _ hdrop
    rw [List.nil_append] at hcur
    rw [← hcur, hdig] at hstop1
    exact Bool.noConfusion hstop1
  have hpos : 0 < a.length := List.length_pos.mpr ha
  by_cases h46 : r1.headD 0 = 46
  · obtain ⟨r2, rfl⟩ : ∃ r2, r1 = 46 :: r2 := by
      cases r1 with
      | nil => simp at h46
      | cons y r2 => exact ⟨r2, by simp only [List.headD_cons] at h46; rw [h46]⟩
    obtain ⟨b, rest, hr2, hdb, hstop⟩ := exists_run isdigit (by decide) r2
    rw [hr2] at hdrop
    have hdrop1 : l.file.contents.drop l.index = (a ++ 46 :: b) ++ rest := by
      rw [hdrop]
      simp
    have hbud := length_of_drop l.file _ _ _ hdrop1
    have hlen : (a ++ 46 :: b).length = a.length + 1 + b.length := by
      simp only [List.length_append, List.length_cons]
      omega
    rw [hlen] at hbud
    apply token_relexes_numbers_of_loop l (a.length + 1 + b.length) true hlen0
      (lex_numbers_loop_fraction a b rest ha l l.budget hdrop hda hdb hstop
        (by unfold Lexer.budget; omega))
    intro hk
    refine ⟨?_, ?_⟩
    · show l.index + (a.length + 1 + b.length) ≤ l.file.length
      omega
    · show first_kind (slice l.file l.index (a.length + 1 + b.length)) =
        some token_type.Float
      rw [slice_of_drop_length _ _ _ _ _ hdrop1 hlen.symm]
      exact first_kind_fraction a b ha hda hdb hk
  · have hbud := length_of_drop l.file _ _ _ hdrop
    apply token_relexes_numbers_of_loop l a.length false hlen0
      (lex_numbers_loop_integer a r1 ha l l.budget hdrop hda hstop1 h46
        (by unfold Lexer.budget; omega))
    intro hk
    refine ⟨?_, ?_⟩
    · show l.index + a.length ≤ l.file.length
      omega
    · show first_kind (slice l.file l.index a.length) = some token_type.Integer
      rw [slice_of_drop _ _ _ _ hdrop]
      exact first_kind_integer a ha hda hk

/-- The token of one dispatch is a `String` or scans again to its kind. -/
theorem lex_director_relexes (l : Lexer) :
    token_relexes (dispatch_state l) (lex_director l) := by
  have hlen : (dispatch_state l).len = 0 := rfl
  rw [lex_director_eq]
  dsimp only
  refine token_relexes_ite _ _ _ _ (fun h => lex_numbers_relexes _ hlen h) (fun _ => ?_)
  refine token_relexes_ite _ _ _ _ (fun h => lex_chars_relexes _ hlen h) (fun _ => ?_)
  refine token_relexes_ite _ _ _ _ (fun _ => lex_strings_relexes _) (fun _ => ?_)
  refine token_relexes_ite _ _ _ _ (fun h => lex_identifiers_relexes _ hlen h) (fun _ => ?_)
  refine token_relexes_ite _ _ _ _ (fun h => lex_builtin_funcs_relexes _ hlen h) (fun _ => ?_)
  exact lex_symbols_relexes _

theorem lex_loop_relexes (n : Nat) (l r : Lexer) (hfl : l.file_length = l.file.length)
    (hinv : ∀ t ∈ l.tokens, t.type = token_type.String ∨ relexes l.file t)
    (h : lex_loop n l = some (exit_code.EXIT_SUCCESS, r)) :
    ∀ t ∈ r.tokens,
      t.type = token_type.EOT ∨ t.type = token_type.String ∨ relexes l.file t := by
  induction n generalizing l with
  | zero => exact Option.noConfusion h
  | succ n ih =>
    rw [lex_loop_succ] at h
    rcases hd : lex_director l with ⟨e, l1⟩
    rw [hd] at h
    cases e with
    | EXIT_SUCCESS =>
      obtain ⟨h1, h2, _⟩ := lex_director_success l l1 hfl hd
      obtain ⟨f1, f2, _, _⟩ := dispatch_state_fields l
      have hr := lex_director_relexes l
      rw [hd, token_relexes, f1, f2] at hr
      have hinv1 : ∀ t ∈ l1.tokens, t.type = token_type.String ∨ relexes l1.file t := by
        rw [h1]
        rcases hr rfl with hr | ⟨tok, ht, hg⟩
        · rw [hr]
          exact hinv
        · rw [ht]
          intro t htm
          rcases List.mem_append.mp htm with htm | htm
          · exact hinv t htm
          · rw [List.mem_singleton.mp htm]
            exact hg
      have := ih l1 (by rw [h2, h1, hfl]) hinv1 h
      rw [h1] at this
      exact this
    | EXIT_FAILURE =>
      dsimp only [report_error] at h
      simp at h
    | EXIT_DONE =>
      obtain ⟨_, _, h3, _⟩ := lex_director_done l l1 hfl hd
      dsimp only at h
      rw [add_token_eq] at h
      simp only [Option.some.injEq, Prod.mk.injEq, true_and] at h
      subst h
      intro t htm
      rcases List.mem_append.mp htm with htm | htm
      · rw [h3] at htm
        exact Or.inr (hinv t htm)
      · rw [List.mem_singleton.mp htm]
        exact Or.inl rfl

/-! ## A number that ends with a dot -/

/-- One dispatch on `a . b` that no digit follows (`b` may be empty): a
`Float` token of length `|a| + 1 + |b|`. -/
theorem lex_director_fraction (a b rest : List Nat) (ha : a ≠ []) (l : Lexer)
    (hdrop : l.file.contents.drop l.index = a ++ 46 :: (b ++ rest))
    (hda : ∀ x ∈ a, isdigit x = true) (hdb : ∀ x ∈ b, isdigit x = true)
    (hstop : isdigit (rest.headD 0) = false) (hk : a.length + 1 + b.length ≤ 100) :
    lex_director l =
      (exit_code.EXIT_SUCCESS,
        { l with index := l.index + (a.length + 1 + b.length),
                 len := a.length + 1 + b.length, begin_tok_line := l.line,
                 tokens := l.tokens ++
                   [⟨token_type.Float, l.index, a.length + 1 + b.length, l.line⟩] }) := by
  obtain ⟨x, a1, rfl⟩ := List.exists_cons_of_ne_nil ha
  have hx := hda x (List.mem_cons_self x a1)
  have hcur : current l = x := current_eq_headD l _ hdrop
  have hdrop' : l.file.contents.drop l.index = (x :: a1 ++ 46 :: b) ++ rest := by
    rw [hdrop]
    simp
  have hbud := length_of_drop l.file _ _ _ hdrop'
  have hnl : nl_count l.file l.index (x :: a1 ++ 46 :: b).length = 0 := by
    apply nl_count_lexeme l.file _ _ _ hdrop'
    intro z hz
    rcases List.mem_append.mp hz with hz | hz
    · exact (isdigit_ne z (hda z hz)).2.1
    · rcases List.mem_cons.mp hz with rfl | hz
      · decide
      · exact (isdigit_ne z (hdb z hz)).2.1
  simp only [List.length_append, List.length_cons] at hnl hbud
  rw [lex_director_number l (by rw [hcur]; exact hx)]
  have h := lex_numbers_of_loop { l with len := 0, begin_tok_line := l.line }
    ((x :: a1).length + 1 + b.length) true rfl
    (lex_numbers_loop_fraction (x :: a1) b rest ha _ _ hdrop hda hdb hstop
      (by show _ ≤ l.file.length - l.index
          simp only [List.length_cons]
          omega)) hk
    (by rw [← hnl]
        congr 1
        simp only [List.length_cons]
        omega)
  simpa using h

/-! ## Claims -/

/-- C1. When `lex` returns success on a buffer, the token sequence is not
empty, its last token is the sentinel `EOT` with length 0, and no token before
the last one has kind `EOT`. -/
theorem lex_success_ends_with_single_EOT (buffer : List Nat) (r : Lexer)
    (h : scan buffer = some (exit_code.EXIT_SUCCESS, r)) :
    ∃ ts t, r.tokens = ts ++ [t] ∧ t.type = token_type.EOT ∧ t.length = 0 ∧
      ∀ x ∈ ts, x.type ≠ token_type.EOT :=
  lex_loop_tokens _ (Lexer.new ⟨buffer⟩) r rfl (fun x hx => absurd hx (List.not_mem_nil x)) h

/-- Witness of C1 on the buffer `a;`. -/
theorem lex_success_ends_with_single_EOT_witness :
    scan [97, 59] = some (exit_code.EXIT_SUCCESS,
      { index := 2, len := 0, line := 1, begin_tok_line := 1, file := ⟨[97, 59]⟩,
        file_length := 2, is_done := true, error := error_type.UNKNOWN,
        tokens := [⟨token_type.Identifier, 0, 1, 1⟩, ⟨token_type.SemiColon, 1, 1, 1⟩,
                   ⟨token_type.EOT, 2, 0, 1⟩] }) ∧
    ∃ ts t, [(⟨token_type.Identifier, 0, 1, 1⟩ : Token), ⟨token_type.SemiColon, 1, 1, 1⟩,
        ⟨token_type.EOT, 2, 0, 1⟩] = ts ++ [t] ∧
      t.type = token_type.EOT ∧ t.length = 0 ∧ ∀ x ∈ ts, x.type ≠ token_type.EOT :=
  ⟨by decide, lex_success_ends_with_single_EOT [97, 59] _ rfl⟩

/-- C2. A buffer that is one identifier shaped run `w` of at most 100 bytes
(an ASCII letter or `_`, then letters, digits or `_`) gives exactly two
tokens: one at offset 0 of length `|w|` on line 1, whose kind is the keyword
kind of `w` for the 25 keywords and `Identifier` otherwise, and then `EOT`. -/
theorem lex_identifier_or_keyword (w : List Nat) (hne : w ≠ [])
    (hfirst : isalpha (w.headD 0) = true ∨ w.headD 0 = 95)
    (hrest : ∀ x ∈ w.tail, isalnum x = true ∨ x = 95) (hlen : w.length ≤ 100) :
    scan_tokens w =
      some (exit_code.EXIT_SUCCESS,
        [⟨keyword_kind w, 0, w.length, 1⟩, ⟨token_type.EOT, w.length, 0, 1⟩]) := by
  obtain ⟨x, w1, rfl⟩ := List.exists_cons_of_ne_nil hne
  simp only [List.headD_cons, List.tail_cons] at hfirst hrest
  have hall : ∀ y ∈ x :: w1, is_ident_byte y = true := by
    intro y hy
    rcases List.mem_cons.mp hy with rfl | hy
    · rcases hfirst with h | h
      · simp [is_ident_byte, isalnum, h]
      · simp [is_ident_byte, h]
    · rcases hrest y hy with h | h
      · simp [is_ident_byte, h]
      · simp [is_ident_byte, h]
  have hcur : current (Lexer.new ⟨x :: w1⟩) = x := rfl
  have hid := lex_identifiers_lexeme
    { Lexer.new ⟨x :: w1⟩ with len := 0, begin_tok_line := 1 } (x :: w1) [] rfl
    (by simp [Lexer.new]) hne hall (by decide) hlen
  unfold scan_tokens scan lex
  rw [show (Lexer.new ⟨x :: w1⟩).budget + 1 = (w1.length + 1) + 1 by
    simp [Lexer.budget, Lexer.new, file_t.length]]
  rw [lex_loop_succ, lex_director_identifier _ (by rw [hcur]; tauto)]
  simp only [Lexer.new] at hid ⊢
  rw [hid]
  dsimp only
  rw [lex_loop_NUL _ _ (at_eq_zero_of_le _ _ (by simp [file_t.length]))]
  simp


/-- Witness of C2 on the keyword `while`. -/
theorem lex_identifier_or_keyword_witness :
    scan_tokens [119, 104, 105, 108, 101] =
      some (exit_code.EXIT_SUCCESS,
        [⟨token_type.While, 0, 5, 1⟩, ⟨token_type.EOT, 5, 0, 1⟩]) :=
  lex_identifier_or_keyword [119, 104, 105, 108, 101] (by decide) (by decide) (by decide)
    (by decide)

/-- C3. For each of the ten operator pairs, `lex_symbols` dispatched on the
first byte appends exactly one token: the two byte kind with length 2, the
cursor moving by 2, when the next byte completes the operator; the one byte
kind with length 1, the cursor moving by 1, when it does not (and, for `/`,
the next byte opens no comment).  The buffer `a>=b` scans to `Identifier`,
`GreaterEql`, `Identifier`, `EOT`. -/
theorem lex_symbols_operator_pairs (l : Lexer) (c q : Nat) (two one : token_type)
    (hp : (c, q, two, one) ∈ operator_pairs) (hc : current l = c) :
    (peek l = q →
      lex_symbols l =
        (exit_code.EXIT_SUCCESS,
          { l with len := 2, index := l.index + 2,
                   tokens := l.tokens ++ [⟨two, l.index, 2, l.begin_tok_line⟩] })) ∧
    (peek l ≠ q → (c = 47 → peek l ≠ 47 ∧ peek l ≠ 42) →
      lex_symbols l =
        (exit_code.EXIT_SUCCESS,
          { l with len := 1, index := l.index + 1,
                   tokens := l.tokens ++ [⟨one, l.index, 1, l.begin_tok_line⟩] })) ∧
    scan_tokens [97, 62, 61, 98] =
      some (exit_code.EXIT_SUCCESS,
        [⟨token_type.Identifier, 0, 1, 1⟩, ⟨token_type.GreaterEql, 1, 2, 1⟩,
         ⟨token_type.Identifier, 3, 1, 1⟩, ⟨token_type.EOT, 4, 0, 1⟩]) := by
  have hc1 : l.file.at l.index = c := hc
  simp only [operator_pairs, List.mem_cons, Prod.mk.injEq, List.mem_singleton,
    List.not_mem_nil, or_false] at hp
  refine ⟨fun hq => ?_, fun hq hs => ?_, by decide⟩
  · have hq1 : l.file.at (l.index + 1) = q := hq
    rcases hp with hp | hp | hp | hp | hp | hp | hp | hp | hp | hp <;>
      obtain ⟨rfl, rfl, rfl, rfl⟩ := hp <;>
      simp [lex_symbols, lex_symbols_pair, hc, hq, add_token_eq, nl_count, hc1, hq1]
  · rcases hp with hp | hp | hp | hp | hp | hp | hp | hp | hp | hp <;>
      obtain ⟨rfl, rfl, rfl, rfl⟩ := hp <;>
      simp_all [lex_symbols, lex_symbols_pair, add_token_eq, nl_count]


/-- Witness of C3 on the buffer `>=`. -/
theorem lex_symbols_operator_pairs_witness :
    (62, 61, token_type.GreaterEql, token_type.Greater) ∈ operator_pairs ∧
    current (Lexer.new ⟨[62, 61]⟩) = 62 ∧ peek (Lexer.new ⟨[62, 61]⟩) = 61 ∧
    lex_symbols (Lexer.new ⟨[62, 61]⟩) =
      (exit_code.EXIT_SUCCESS,
        { Lexer.new ⟨[62, 61]⟩ with
          len := 2, index := 2, tokens := [⟨token_type.GreaterEql, 0, 2, 0⟩] }) :=
  ⟨by decide, rfl, rfl,
    (lex_symbols_operator_pairs (Lexer.new ⟨[62, 61]⟩) 62 61 token_type.GreaterEql
      token_type.Greater (by decide) rfl).1 rfl⟩

/-- C4. For non-empty digit strings `a`, `b`, `c` whose total length with the
two dots is at most 100, the buffer `a . b . c` scans to exactly four tokens:
`Float` at offset 0 of length `|a|+1+|b|`, `Dot` at `|a|+1+|b|` of length 1,
`Integer` at `|a|+|b|+2` of length `|c|`, and `EOT`: the number scanner stops
before the second `.` and leaves it to the next dispatch. -/
theorem lex_number_second_dot (a b c : List Nat) (ha : a ≠ []) (hb : b ≠ []) (hc : c ≠ [])
    (hda : ∀ x ∈ a, isdigit x = true) (hdb : ∀ x ∈ b, isdigit x = true)
    (hdc : ∀ x ∈ c, isdigit x = true) (hlen : a.length + b.length + c.length + 2 ≤ 100) :
    scan_tokens (a ++ [46] ++ b ++ [46] ++ c) =
      some (exit_code.EXIT_SUCCESS,
        [⟨token_type.Float, 0, a.length + 1 + b.length, 1⟩,
         ⟨token_type.Dot, a.length + 1 + b.length, 1, 1⟩,
         ⟨token_type.Integer, a.length + b.length + 2, c.length, 1⟩,
         ⟨token_type.EOT, a.length + b.length + c.length + 2, 0, 1⟩]) := by
  have hbuf : a ++ [46] ++ b ++ [46] ++ c = a ++ 46 :: (b ++ 46 :: c) := by simp
  rw [hbuf]
  obtain ⟨z, c1, rfl⟩ := List.exists_cons_of_ne_nil hc
  have hz := hdc z (List.mem_cons_self z c1)
  have hk : (a ++ 46 :: b).length = a.length + 1 + b.length := by
    simp only [List.length_append, List.length_cons]
    omega
  have hd1 : (a ++ 46 :: (b ++ 46 :: z :: c1)).drop (0 + (a.length + 1 + b.length))
      = 46 :: z :: c1 := by
    rw [← hk]
    exact drop_add_of_drop_append _ 0 (a ++ 46 :: b) (46 :: z :: c1) (by simp)
  have hd2 : (a ++ 46 :: (b ++ 46 :: z :: c1)).drop (0 + (a.length + 1 + b.length) + 1)
      = z :: c1 := drop_succ_of_drop_cons _ _ _ _ hd1
  simp only [List.length_cons] at hlen
  unfold scan_tokens scan lex
  rw [show (Lexer.new ⟨a ++ 46 :: (b ++ 46 :: z :: c1)⟩).budget + 1
      = (a.length + b.length + c1.length) + 1 + 1 + 1 + 1 by
    simp only [Lexer.budget, Lexer.new, file_t.length, List.length_append, List.length_cons]
    omega]
  rw [lex_loop_step _ (Lexer.new ⟨a ++ 46 :: (b ++ 46 :: z :: c1)⟩) _ _
    (lex_director_float a b (z :: c1) ha hb _ rfl hda hdb (by omega))
    (lex_loop_step _ _ _ _
      (lex_director_dot _ (current_eq_headD _ (46 :: z :: c1) hd1)
        (by rw [peek_eq_headD _ (z :: c1) hd2]
            exact (isdigit_ne z hz).2.2.1))
      (lex_loop_step _ _ _ _
        (lex_director_integer (z :: c1) [] hc _ (by rw [List.append_nil]; exact hd2) hdc
          (by decide) (by decide) (by simp only [List.length_cons]; omega))
        (lex_loop_NUL _ _ (at_eq_zero_of_le _ _ (by
          show (a ++ 46 :: (b ++ 46 :: z :: c1)).length ≤ _
          simp only [Lexer.new, List.length_append, List.length_cons]
          omega)))))]
  simp [Lexer.new]
  omega


/-- Witness of C4 on the buffer `3.14.15`. -/
theorem lex_number_second_dot_witness :
    scan_tokens ([51] ++ [46] ++ [49, 52] ++ [46] ++ [49, 53]) =
      some (exit_code.EXIT_SUCCESS,
        [⟨token_type.Float, 0, 4, 1⟩, ⟨token_type.Dot, 4, 1, 1⟩,
         ⟨token_type.Integer, 5, 2, 1⟩, ⟨token_type.EOT, 7, 0, 1⟩]) :=
  lex_number_second_dot [51] [49, 52] [49, 53] (by decide) (by decide) (by decide)
    (by decide) (by decide) (by decide) (by decide)

/-- C5, evaluated on the buffer `"ab";` (the literal starts at 0 and has a
body of 2 bytes).  The string scanner appends a `String` token of length 5 and
leaves the cursor at 5, one byte past the closing quote at 3: the `;` is inside
the token, and the whole buffer scans to `String`, `EOT` without a `SemiColon`. -/
theorem lex_strings_takes_one_byte_more :
    lex_strings (dispatch_state (Lexer.new ⟨[34, 97, 98, 34, 59]⟩)) =
      (exit_code.EXIT_SUCCESS,
        { Lexer.new ⟨[34, 97, 98, 34, 59]⟩ with
          index := 5, len := 5, begin_tok_line := 1,
          tokens := [⟨token_type.String, 0, 5, 1⟩] }) ∧
    scan_tokens [34, 97, 98, 34, 59] =
      some (exit_code.EXIT_SUCCESS,
        [⟨token_type.String, 0, 5, 1⟩, ⟨token_type.EOT, 5, 0, 1⟩]) := by
  constructor <;> decide

/-- C6, evaluated on the 6 byte literal quote, `a`, backslash, quote, `b`,
quote.  The scan of the string stops at the byte that follows the backslash:
a `String` token of length 5 is appended, the last quote is dispatched as the
start of a new string, and the pass fails with `NOT_CLOSED_STRING`. -/
theorem lex_strings_stops_after_backslash :
    scan [34, 97, 92, 34, 98, 34] =
      some (exit_code.EXIT_FAILURE,
        { index := 5, len := 1, line := 1, begin_tok_line := 1,
          file := ⟨[34, 97, 92, 34, 98, 34]⟩, file_length := 6, is_done := false,
          error := error_type.NOT_CLOSED_STRING,
          tokens := [⟨token_type.String, 0, 5, 1⟩] }) := by
  decide

/-- C7, evaluated on the buffer quote, `a`, backslash, `b`, `c`, `d`, which
has no closing quote.  The pass does not fail: the scan of the string stops
at the byte after the backslash, a `String` token of length 5 is appended and
the pass returns success. -/
theorem lex_strings_unclosed_with_backslash :
    scan_tokens [34, 97, 92, 98, 99, 100] =
      some (exit_code.EXIT_SUCCESS,
        [⟨token_type.String, 0, 5, 1⟩, ⟨token_type.Identifier, 5, 1, 1⟩,
         ⟨token_type.EOT, 6, 0, 1⟩]) := by
  decide


/-- C8. The 4 byte buffer quote, backslash, `e`, quote scans to a `Char` token
of length 4 and `EOT` when `e` is one of `n t r b f \ '`, and fails with
`NOT_VALID_ESCAPE_CHAR` for every other byte `e`.  When `e` is a valid escape
and the byte after it is not a quote, the pass fails with
`LEXER_INVALID_CHAR`. -/
theorem lex_chars_escape_literal (e : Nat) :
    (lex_chars_escape e = true →
      scan_tokens [39, 92, e, 39] =
        some (exit_code.EXIT_SUCCESS,
          [⟨token_type.Char, 0, 4, 1⟩, ⟨token_type.EOT, 4, 0, 1⟩])) ∧
    (lex_chars_escape e = false →
      scan [39, 92, e, 39] =
        some (exit_code.EXIT_FAILURE,
          { Lexer.new ⟨[39, 92, e, 39]⟩ with
            len := 2, begin_tok_line := 1,
            error := error_type.NOT_VALID_ESCAPE_CHAR })) ∧
    (∀ tail : List Nat, lex_chars_escape e = true → tail.headD 0 ≠ 39 →
      scan (39 :: 92 :: e :: tail) =
        some (exit_code.EXIT_FAILURE,
          { Lexer.new ⟨39 :: 92 :: e :: tail⟩ with
            len := 3, begin_tok_line := 1,
            error := error_type.LEXER_INVALID_CHAR })) := by
  refine ⟨fun h => ?_, fun h => ?_, fun tail h ht => ?_⟩
  · rcases (lex_chars_escape_iff e).mp h with h | h | h | h | h | h | h <;> subst h <;> decide
  · unfold scan lex
    rw [show (Lexer.new ⟨[39, 92, e, 39]⟩).budget + 1 = 4 + 1 from rfl, lex_loop_succ,
      lex_director_char (Lexer.new ⟨[39, 92, e, 39]⟩) rfl]
    simp [lex_chars, advance_len_inc, current, peek, file_t.at, Lexer.new, h,
      reverse_len_for_error, u32_sub, report_error, file_t.length]
  · have hne : e ≠ 10 := by
      rcases (lex_chars_escape_iff e).mp h with h | h | h | h | h | h | h <;> omega
    unfold scan lex
    rw [show (Lexer.new ⟨39 :: 92 :: e :: tail⟩).budget + 1 = (tail.length + 3) + 1 from rfl,
      lex_loop_succ, lex_director_char (Lexer.new ⟨39 :: 92 :: e :: tail⟩) rfl]
    have ht1 : tail[0]?.getD 0 ≠ 39 := by
      cases tail with
      | nil => simp
      | cons y ys => simpa using ht
    simp [lex_chars, advance_len_inc, current, peek, file_t.at, Lexer.new, h,
      reverse_len_for_error, u32_sub, report_error, file_t.length, ht1, hne]

/-- Witness of C8 on the escapes `\n` (valid) and `\q` (not valid), and on
quote, backslash, `n`, `x`. -/
theorem lex_chars_escape_literal_witness :
    scan_tokens [39, 92, 110, 39] =
      some (exit_code.EXIT_SUCCESS,
        [⟨token_type.Char, 0, 4, 1⟩, ⟨token_type.EOT, 4, 0, 1⟩]) ∧
    scan [39, 92, 113, 39] =
      some (exit_code.EXIT_FAILURE,
        { Lexer.new ⟨[39, 92, 113, 39]⟩ with
          len := 2, begin_tok_line := 1, error := error_type.NOT_VALID_ESCAPE_CHAR }) ∧
    scan [39, 92, 110, 120] =
      some (exit_code.EXIT_FAILURE,
        { Lexer.new ⟨[39, 92, 110, 120]⟩ with
          len := 3, begin_tok_line := 1, error := error_type.LEXER_INVALID_CHAR }) :=
  ⟨(lex_chars_escape_literal 110).1 rfl, (lex_chars_escape_literal 113).2.1 rfl,
    (lex_chars_escape_literal 110).2.2 [120] rfl (by decide)⟩

/-- C9, evaluated on the buffer `/* unterminated`.  The loop of the block
comment ends at the end of the buffer and the dispatch returns success; the
pass then returns success with the sentinel as its only token, and no
failure kind is assigned. -/
theorem lex_unterminated_comment_succeeds :
    scan [47, 42, 32, 117, 110, 116, 101, 114, 109, 105, 110, 97, 116, 101, 100] =
      some (exit_code.EXIT_SUCCESS,
        { index := 15, len := 0, line := 1, begin_tok_line := 1,
          file := ⟨[47, 42, 32, 117, 110, 116, 101, 114, 109, 105, 110, 97, 116, 101, 100]⟩,
          file_length := 15, is_done := true, error := error_type.UNKNOWN,
          tokens := [⟨token_type.EOT, 15, 0, 1⟩] }) := by
  decide


/-- C10 as stated fails on the buffer `#` tab: the tab at offset 1 is outside
every string, character literal and comment (the buffer has no quote and no
slash), and the pass fails at the `#` with `LEXER_INVALID_CHAR`, not with
`TABS`. -/
theorem lex_tab_after_invalid_byte :
    ([35, 9] : List Nat).getD 1 0 = 9 ∧
    (∀ x ∈ ([35, 9] : List Nat), x ≠ 34 ∧ x ≠ 39 ∧ x ≠ 47) ∧
    scan [35, 9] =
      some (exit_code.EXIT_FAILURE,
        { Lexer.new ⟨[35, 9]⟩ with
          len := 1, begin_tok_line := 1, error := error_type.LEXER_INVALID_CHAR }) ∧
    error_type.LEXER_INVALID_CHAR ≠ error_type.TABS := by
  decide

/-- C10, amended.  When the pass reaches a tab, that is when after some number
of successful dispatches only spaces and newlines lie between the cursor and a
tab byte at offset `t`, then `lex` fails with `TABS`, the cursor is at the
tab, the token sequence is the one built before that dispatch, and every token
in it starts before `t`: no token that starts at or after the tab is ever
appended. -/
theorem lex_fails_at_reached_tab (buffer : List Nat) (k : Nat) (l : Lexer) (t : Nat)
    (hreach : dispatches k (Lexer.new ⟨buffer⟩) = some l) (hle : l.index ≤ t)
    (hws : ∀ j, l.index ≤ j → j < t → buffer.getD j 0 = 10 ∨ buffer.getD j 0 = 32)
    (htab : buffer.getD t 0 = 9) :
    ∃ r, scan buffer = some (exit_code.EXIT_FAILURE, r) ∧ r.error = error_type.TABS ∧
      r.index = t ∧ r.tokens = l.tokens ∧ ∀ tok ∈ r.tokens, tok.index < t := by
  obtain ⟨h1, h2, _, _, h5⟩ :=
    dispatches_invariant k (Lexer.new ⟨buffer⟩) l rfl
      (fun tok htok => absurd htok (List.not_mem_nil tok)) hreach
  have hfile : ∀ j, l.file.at j = buffer.getD j 0 := by
    intro j
    rw [h2]
    rfl
  obtain ⟨ln, hd⟩ := lex_director_tab l t hle
    (fun j hj1 hj2 => by rw [hfile]; exact hws j hj1 hj2) (by rw [hfile]; exact htab)
  refine ⟨{ l with index := t, len := 1, line := ln, begin_tok_line := ln,
                     error := error_type.TABS }, ?_, rfl, rfl, rfl, ?_⟩
  · unfold scan
    rw [h1]
    unfold lex
    rw [lex_loop_succ, hd]
    rfl
  · intro tok htok
    have := h5 tok htok
    omega

/-- Witness of the amended C10 on the buffer `a`, space, tab, `b`: after one
dispatch the cursor is at offset 1 and the tab is at offset 2. -/
theorem lex_fails_at_reached_tab_witness :
    dispatches 1 (Lexer.new ⟨[97, 32, 9, 98]⟩) =
      some { Lexer.new ⟨[97, 32, 9, 98]⟩ with
             index := 1, len := 1, begin_tok_line := 1,
             tokens := [⟨token_type.Identifier, 0, 1, 1⟩] } ∧
    ∃ r, scan [97, 32, 9, 98] = some (exit_code.EXIT_FAILURE, r) ∧
      r.error = error_type.TABS ∧ r.index = 2 ∧
      r.tokens = [⟨token_type.Identifier, 0, 1, 1⟩] ∧ ∀ tok ∈ r.tokens, tok.index < 2 :=
  ⟨by decide,
    lex_fails_at_reached_tab [97, 32, 9, 98] 1
      { Lexer.new ⟨[97, 32, 9, 98]⟩ with
        index := 1, len := 1, begin_tok_line := 1,
        tokens := [⟨token_type.Identifier, 0, 1, 1⟩] } 2 (by decide) (by decide)
      (fun j h1 h2 => by
        have hj : j = 1 := Nat.le_antisymm (Nat.le_of_lt_succ h2) h1
        subst hj
        decide)
      (by decide)⟩


/-- C11, evaluated on the buffer quote, newline, quote, space, `x` (a
character literal that holds a newline, then an identifier on line 2).  The
newline is counted when the literal is scanned and again when `add_token`
advances over the token, so the identifier and the sentinel carry line 3
instead of line 2. -/
theorem lex_counts_newline_in_token_twice :
    scan_tokens [39, 10, 39, 32, 120] =
      some (exit_code.EXIT_SUCCESS,
        [⟨token_type.Char, 0, 3, 1⟩, ⟨token_type.Identifier, 4, 1, 3⟩,
         ⟨token_type.EOT, 5, 0, 3⟩]) ∧
    1 + nl_count ⟨[39, 10, 39, 32, 120]⟩ 0 4 = 2 := by
  constructor <;> decide

/-- C12. A buffer that is one run of `n >= 1` identifier bytes (the first a
letter or `_`): when `n <= 100` the pass succeeds with one token of length `n`
and then `EOT`; when `n > 100` it fails with `TOO_LONG_IDENTIFIER`, the token
sequence still empty. -/
theorem lex_identifier_length_limit (w : List Nat) (hne : w ≠ [])
    (hfirst : isalpha (w.headD 0) = true ∨ w.headD 0 = 95)
    (hrest : ∀ x ∈ w.tail, isalnum x = true ∨ x = 95) :
    (w.length ≤ 100 →
      scan_tokens w =
        some (exit_code.EXIT_SUCCESS,
          [⟨keyword_kind w, 0, w.length, 1⟩, ⟨token_type.EOT, w.length, 0, 1⟩])) ∧
    (100 < w.length →
      scan w =
        some (exit_code.EXIT_FAILURE,
          { Lexer.new ⟨w⟩ with
            len := w.length, begin_tok_line := 1,
            error := error_type.TOO_LONG_IDENTIFIER, tokens := [] })) := by
  have hall : ∀ y ∈ w, is_ident_byte y = true := by
    obtain ⟨x, w1, rfl⟩ := List.exists_cons_of_ne_nil hne
    intro y hy
    rcases List.mem_cons.mp hy with rfl | hy
    · exact is_ident_byte_of_first _ (Or.symm hfirst)
    · rcases hrest y hy with h | h
      · simp [is_ident_byte, h]
      · simp [is_ident_byte, h]
  exact ⟨scan_identifier w hne (Or.symm hfirst) hall,
    scan_identifier_too_long w hne (Or.symm hfirst) hall⟩

/-- Witness of C12 on runs of 100 and of 101 letters `a`. -/
theorem lex_identifier_length_limit_witness :
    scan_tokens (List.replicate 100 97) =
      some (exit_code.EXIT_SUCCESS,
        [⟨keyword_kind (List.replicate 100 97), 0, (List.replicate 100 97).length, 1⟩,
         ⟨token_type.EOT, (List.replicate 100 97).length, 0, 1⟩]) ∧
    scan (List.replicate 101 97) =
      some (exit_code.EXIT_FAILURE,
        { Lexer.new ⟨List.replicate 101 97⟩ with
          len := (List.replicate 101 97).length, begin_tok_line := 1,
          error := error_type.TOO_LONG_IDENTIFIER, tokens := [] }) :=
  ⟨(lex_identifier_length_limit (List.replicate 100 97) (by decide) (by decide)
      (fun x hx => Or.inl (by rw [List.eq_of_mem_replicate (List.mem_of_mem_tail hx)]; rfl))).1
      (by decide),
   (lex_identifier_length_limit (List.replicate 101 97) (by decide) (by decide)
      (fun x hx => Or.inl (by rw [List.eq_of_mem_replicate (List.mem_of_mem_tail hx)]; rfl))).2
      (by decide)⟩


/-- C13, evaluated on the buffer of 101 digits `1`.  The pass fails, the
cursor left at the end of the run, and the failure kind is still the initial
`UNKNOWN`: `lex_numbers` returns failure without assigning
`TOO_LONG_NUMBER`. -/
theorem lex_long_number_keeps_failure_kind :
    scan (List.replicate 101 49) =
      some (exit_code.EXIT_FAILURE,
        { index := 101, len := 101, line := 1, begin_tok_line := 1,
          file := ⟨List.replicate 101 49⟩, file_length := 101, is_done := false,
          error := error_type.UNKNOWN, tokens := [] }) :=
  scan_integer_too_long (List.replicate 101 49) (by decide)
    (fun x hx => by rw [List.eq_of_mem_replicate hx]; rfl) (by decide)


/-- C20. At every point of a pass over a buffer, after any number of
dispatches and when `lex` has returned with success or with failure, the
tokens appended so far are in source order and do not overlap: each token
starts at or after the end of the one before it, and strictly after its
start; every token other than the sentinel has a length of at least 1. -/
theorem lex_tokens_in_source_order (buffer : List Nat) :
    (∀ k l, dispatches k (Lexer.new ⟨buffer⟩) = some l →
      tokens_ordered l.tokens ∧ ∀ t ∈ l.tokens, 1 ≤ t.length) ∧
    (∀ e r, scan buffer = some (e, r) →
      tokens_ordered r.tokens ∧ ∀ t ∈ r.tokens, t.type ≠ token_type.EOT → 1 ≤ t.length) := by
  have h0 : ∀ t ∈ (Lexer.new ⟨buffer⟩).tokens,
      1 ≤ t.length ∧ t.index + t.length ≤ (Lexer.new ⟨buffer⟩).index :=
    fun t ht => absurd ht (List.not_mem_nil t)
  have hnil : tokens_ordered (Lexer.new ⟨buffer⟩).tokens := List.chain'_nil
  refine ⟨fun k l h => ?_, fun e r h => ?_⟩
  · obtain ⟨o, a⟩ := dispatches_keep_order k (Lexer.new ⟨buffer⟩) l rfl hnil h0 h
    exact ⟨o, fun t ht => (a t ht).1⟩
  · exact lex_loop_keeps_order _ (Lexer.new ⟨buffer⟩) r e rfl hnil h0 h

/-- Witness of C20 on the buffer `a>=b`: the state after two dispatches and
the result of the pass. -/
theorem lex_tokens_in_source_order_witness :
    tokens_ordered
      [⟨token_type.Identifier, 0, 1, 1⟩, ⟨token_type.GreaterEql, 1, 2, 1⟩] ∧
    tokens_ordered
      [⟨token_type.Identifier, 0, 1, 1⟩, ⟨token_type.GreaterEql, 1, 2, 1⟩,
       ⟨token_type.Identifier, 3, 1, 1⟩, ⟨token_type.EOT, 4, 0, 1⟩] :=
  ⟨((lex_tokens_in_source_order [97, 62, 61, 98]).1 2
      { Lexer.new ⟨[97, 62, 61, 98]⟩ with
        index := 3, len := 2, begin_tok_line := 1,
        tokens := [⟨token_type.Identifier, 0, 1, 1⟩, ⟨token_type.GreaterEql, 1, 2, 1⟩] }
      (by decide)).1,
   ((lex_tokens_in_source_order [97, 62, 61, 98]).2 exit_code.EXIT_SUCCESS
      { Lexer.new ⟨[97, 62, 61, 98]⟩ with
        index := 4, len := 0, begin_tok_line := 1, is_done := true,
        tokens := [⟨token_type.Identifier, 0, 1, 1⟩, ⟨token_type.GreaterEql, 1, 2, 1⟩,
                   ⟨token_type.Identifier, 3, 1, 1⟩, ⟨token_type.EOT, 4, 0, 1⟩] }
      (by decide)).1⟩


/-- C16. A closed string literal whose body has no quote, backslash or NUL
and whose total length exceeds 65535 bytes is not a failure: `lex_strings`
returns success and appends a `String` token that starts at the opening
quote. -/
theorem lex_long_string_is_no_failure (body rest : List Nat) (l : Lexer) (hlen0 : l.len = 0)
    (hdrop : l.file.contents.drop l.index = 34 :: (body ++ 34 :: rest))
    (hbody : ∀ x ∈ body, x ≠ 34 ∧ x ≠ 92 ∧ x ≠ 0) (_hlong : 65535 < body.length + 2) :
    lex_strings l =
      (exit_code.EXIT_SUCCESS,
        { l with index := l.index + (body.length + 3), len := body.length + 3,
                 line := l.line + nl_count l.file l.index (body.length + 2) +
                         nl_count l.file l.index (body.length + 3),
                 tokens := l.tokens ++
                   [⟨token_type.String, l.index, body.length + 3, l.begin_tok_line⟩] }) :=
  lex_strings_plain_body body rest l hlen0 hdrop hbody

/-- Witness of C16 on a literal with a body of 65534 letters `a`. -/
theorem lex_long_string_is_no_failure_witness :
    65535 < (List.replicate 65534 97).length + 2 ∧
    lex_strings (Lexer.new ⟨34 :: (List.replicate 65534 97 ++ 34 :: [])⟩) =
      (exit_code.EXIT_SUCCESS,
        { Lexer.new ⟨34 :: (List.replicate 65534 97 ++ 34 :: [])⟩ with
          index := (Lexer.new ⟨34 :: (List.replicate 65534 97 ++ 34 :: [])⟩).index +
            ((List.replicate 65534 97).length + 3),
          len := (List.replicate 65534 97).length + 3,
          line := (Lexer.new ⟨34 :: (List.replicate 65534 97 ++ 34 :: [])⟩).line +
            nl_count (Lexer.new ⟨34 :: (List.replicate 65534 97 ++ 34 :: [])⟩).file
              (Lexer.new ⟨34 :: (List.replicate 65534 97 ++ 34 :: [])⟩).index
              ((List.replicate 65534 97).length + 2) +
            nl_count (Lexer.new ⟨34 :: (List.replicate 65534 97 ++ 34 :: [])⟩).file
              (Lexer.new ⟨34 :: (List.replicate 65534 97 ++ 34 :: [])⟩).index
              ((List.replicate 65534 97).length + 3),
          tokens := (Lexer.new ⟨34 :: (List.replicate 65534 97 ++ 34 :: [])⟩).tokens ++
            [⟨token_type.String,
              (Lexer.new ⟨34 :: (List.replicate 65534 97 ++ 34 :: [])⟩).index,
              (List.replicate 65534 97).length + 3,
              (Lexer.new ⟨34 :: (List.replicate 65534 97 ++ 34 :: [])⟩).begin_tok_line⟩] }) :=
  ⟨by rw [List.length_replicate]; decide,
   lex_long_string_is_no_failure (List.replicate 65534 97) []
     (Lexer.new ⟨34 :: (List.replicate 65534 97 ++ 34 :: [])⟩) rfl rfl
     (fun x hx => by rw [List.eq_of_mem_replicate hx]; decide)
     (by rw [List.length_replicate]; decide)⟩

/-- C19. When `lex_chars` is dispatched on a quote that is followed by a byte
other than a backslash, and the byte after that one is not a quote, it returns
failure, appends no token and assigns no failure kind: the slot keeps the
value it had before the dispatch.  In a pass from a freshly constructed
`Lexer` that reaches such a dispatch, `lex` fails and the slot holds the
initial `UNKNOWN`. -/
theorem lex_chars_keeps_failure_kind (l : Lexer) (hc : current l = 39) (hp : peek l ≠ 92)
    (hq : l.file.at (l.index + 2) ≠ 39) :
    lex_chars l = (exit_code.EXIT_FAILURE, { l with index := l.index + 1, len := l.len + 1 }) ∧
    (lex_chars l).2.error = l.error ∧ (lex_chars l).2.tokens = l.tokens ∧
    ∀ (buffer : List Nat) (k : Nat) (l0 : Lexer),
      dispatches k (Lexer.new ⟨buffer⟩) = some l0 → dispatch_state l0 = l →
      ∃ r, scan buffer = some (exit_code.EXIT_FAILURE, r) ∧
        r.error = error_type.UNKNOWN ∧ r.tokens = l0.tokens := by
  have hf := lex_chars_fall_through l hc hp hq
  refine ⟨hf, by rw [hf], by rw [hf], ?_⟩
  intro buffer k l0 hreach hd
  obtain ⟨h1, _, _, h4, _⟩ :=
    dispatches_invariant k (Lexer.new ⟨buffer⟩) l0 rfl
      (fun tok htok => absurd htok (List.not_mem_nil tok)) hreach
  obtain ⟨_, f2, f3, _⟩ := dispatch_state_fields l0
  have hdir : lex_director l0 = lex_chars l := by
    rw [lex_director_eq, hd]
    simp [hc, isdigit]
  refine ⟨{ l with index := l.index + 1, len := l.len + 1 }, ?_, ?_, ?_⟩
  · unfold scan
    rw [h1]
    unfold lex
    rw [lex_loop_succ, hdir, hf]
    rfl
  · show l.error = error_type.UNKNOWN
    rw [← hd, f3, h4]
    rfl
  · show l.tokens = l0.tokens
    rw [← hd, f2]

/-- Witness of C19 on the buffer quote, `a`, `b`, quote. -/
theorem lex_chars_keeps_failure_kind_witness :
    lex_chars (dispatch_state (Lexer.new ⟨[39, 97, 98, 39]⟩)) =
      (exit_code.EXIT_FAILURE,
        { Lexer.new ⟨[39, 97, 98, 39]⟩ with index := 1, len := 1, begin_tok_line := 1 }) ∧
    scan [39, 97, 98, 39] =
      some (exit_code.EXIT_FAILURE,
        { Lexer.new ⟨[39, 97, 98, 39]⟩ with
          index := 1, len := 1, begin_tok_line := 1,
          error := error_type.UNKNOWN, tokens := [] }) :=
  ⟨(lex_chars_keeps_failure_kind (dispatch_state (Lexer.new ⟨[39, 97, 98, 39]⟩))
      (by decide) (by decide) (by decide)).1,
   by decide⟩


/-- C18. When `lex_symbols` is dispatched on `/*` at offset `s` and `i` is the
least offset from `s + 2` on with a `*` at `i`, a `/` at `i + 1` and no `/` at
`i - 1`, the dispatch returns success, appends no token, leaves the cursor at
`i + 2` and adds to the line counter the number of newlines in the bytes from
`s` to `i + 2`.  A `*/` whose `*` follows a `/`, as in `/*/`, does not close
the comment: it is not such an `i`. -/
theorem lex_block_comment_skips_to_close (l : Lexer) (i : Nat)
    (hfl : l.file_length = l.file.length) (hc : current l = 47) (hp : peek l = 42)
    (hi : l.index + 2 ≤ i)
    (h1 : l.file.at i = 42) (h2 : l.file.at (i + 1) = 47) (h3 : l.file.at (i - 1) ≠ 47)
    (hmin : ∀ j, l.index + 2 ≤ j → j < i →
      ¬(l.file.at j = 42 ∧ l.file.at (j + 1) = 47 ∧ l.file.at (j - 1) ≠ 47)) :
    lex_symbols l =
      (exit_code.EXIT_SUCCESS,
        { l with len := 1, index := i + 2,
                 line := l.line + nl_count l.file l.index (i + 2 - l.index) }) := by
  have hlt : i < l.file.length := lt_length_of_at_ne_zero l.file i (by omega)
  have hc1 : l.file.at l.index = 47 := hc
  have hloop := block_comment_loop_close (Lexer.budget (advance { l with len := 1 }))
    (advance { l with len := 1 }) i (by show l.index + 1 ≤ i; omega)
    (by show i < l.file_length; omega) h1 h2 h3
    (fun j hj1 hj2 hcl => by
      have hj : l.index + 1 ≤ j := hj1
      by_cases hjs : j = l.index + 1
      · apply hcl.1
        show l.file.at (j - 1) = 47
        rw [hjs, Nat.add_sub_cancel]
        exact hc1
      · exact hmin j (by omega) hj2 ⟨hcl.2.1, hcl.2.2, hcl.1⟩)
    (by show i - (l.index + 1) < l.file.length - (l.index + 1); omega)
  have hcur : current { l with len := 1 } = 47 := hc
  have hnl : nl_count l.file l.index (i + 2 - l.index) =
      nl_count l.file (l.index + 1) (i + 2 - (l.index + 1)) := by
    rw [show i + 2 - l.index = (i + 2 - (l.index + 1)) + 1 by omega, nl_count, hc1]
    simp
  rw [lex_symbols_block_comment l hc hp, hloop, advance_times_eq, hnl]
  simp only [advance, hcur, show l.index + 1 + (i + 2 - (l.index + 1)) = i + 2 by omega]
  simp


/-- Witness of C18 on the buffer `/*`, newline, `/*/ */`: the `*/` at offset 4
follows a `/` and does not close the comment, the one at offset 7 does. -/
theorem lex_block_comment_skips_to_close_witness :
    lex_symbols (Lexer.new ⟨[47, 42, 10, 47, 42, 47, 32, 42, 47]⟩) =
      (exit_code.EXIT_SUCCESS,
        { Lexer.new ⟨[47, 42, 10, 47, 42, 47, 32, 42, 47]⟩ with
          len := 1, index := 9, line := 2 }) :=
  lex_block_comment_skips_to_close (Lexer.new ⟨[47, 42, 10, 47, 42, 47, 32, 42, 47]⟩) 7
    rfl (by decide) (by decide) (by decide) (by decide) (by decide) (by decide)
    (fun j hj1 hj2 => by
      have hj3 : 2 ≤ j := hj1
      interval_cases j <;> decide)

/-- C17, evaluated on the buffers `$` and `a`, newline, `$`, at the cursor of
the failure.  On `$` (cursor 0, no newline before it) `report_error` computes
the line start 1, not 0: `low++` is applied also when the backward scan ends
at the start of the buffer.  On the second buffer (cursor 2, newline at 1) the
line start is 2 and the column is 1, not `2 - 2 = 0`: the column counts the
steps back to the newline itself. -/
theorem report_error_line_start_and_column :
    (scan [36]).map (fun r => (r.1, r.2.index, (report_error_diagnostic r.2).low,
        (report_error_diagnostic r.2).col)) =
      some (exit_code.EXIT_FAILURE, 0, 1, 0) ∧
    (scan [97, 10, 36]).map (fun r => (r.1, r.2.index, (report_error_diagnostic r.2).low,
        (report_error_diagnostic r.2).col)) =
      some (exit_code.EXIT_FAILURE, 2, 2, 1) := by
  constructor <;> decide


/-- C15 as stated fails on the buffer `@col`: the pass succeeds with a
`BuiltinFunc` token at offset 1 of length 3, whose slice is the name `col`
without the `@`; a pass over `col` alone gives an `Identifier`. -/
theorem lex_builtin_slice_is_identifier :
    scan_tokens [64, 99, 111, 108] =
      some (exit_code.EXIT_SUCCESS,
        [⟨token_type.BuiltinFunc, 1, 3, 1⟩, ⟨token_type.EOT, 4, 0, 1⟩]) ∧
    slice ⟨[64, 99, 111, 108]⟩ 1 3 = [99, 111, 108] ∧
    first_kind [99, 111, 108] = some token_type.Identifier ∧
    token_type.Identifier ≠ token_type.BuiltinFunc := by
  decide

/-- C15, amended.  For every buffer on which `lex` succeeds and every token of
its output that is neither the sentinel nor a `String`, the slice of the token
lies inside the buffer and a pass over that slice alone succeeds with a first
token of the same kind; the slice of a `BuiltinFunc` token is the name without
the `@`, and a pass over it gives an `Identifier`. -/
theorem lex_token_slice_scans_to_its_kind (buffer : List Nat) (r : Lexer)
    (h : scan buffer = some (exit_code.EXIT_SUCCESS, r)) (t : Token) (ht : t ∈ r.tokens)
    (hEOT : t.type ≠ token_type.EOT) (hString : t.type ≠ token_type.String) :
    t.index + t.length ≤ buffer.length ∧
    first_kind (slice ⟨buffer⟩ t.index t.length) =
      some (if t.type = token_type.BuiltinFunc then token_type.Identifier else t.type) := by
  have := lex_loop_relexes _ (Lexer.new ⟨buffer⟩) r rfl
    (fun t ht => absurd ht (List.not_mem_nil t)) h t ht
  rcases this with h1 | h1 | h1
  · exact absurd h1 hEOT
  · exact absurd h1 hString
  · exact h1

/-- Witness of the amended C15 on the buffer `@col x`, at its `BuiltinFunc`
token and at its `Identifier` token. -/
theorem lex_token_slice_scans_to_its_kind_witness :
    (1 + 3 ≤ [64, 99, 111, 108, 32, 120].length ∧
      first_kind (slice ⟨[64, 99, 111, 108, 32, 120]⟩ 1 3) = some token_type.Identifier) ∧
    (5 + 1 ≤ [64, 99, 111, 108, 32, 120].length ∧
      first_kind (slice ⟨[64, 99, 111, 108, 32, 120]⟩ 5 1) = some token_type.Identifier) :=
  ⟨lex_token_slice_scans_to_its_kind [64, 99, 111, 108, 32, 120]
      { Lexer.new ⟨[64, 99, 111, 108, 32, 120]⟩ with
        index := 6, len := 0, begin_tok_line := 1, is_done := true,
        tokens := [⟨token_type.BuiltinFunc, 1, 3, 1⟩, ⟨token_type.Identifier, 5, 1, 1⟩,
                   ⟨token_type.EOT, 6, 0, 1⟩] }
      (by decide) ⟨token_type.BuiltinFunc, 1, 3, 1⟩ (by decide) (by decide) (by decide),
   lex_token_slice_scans_to_its_kind [64, 99, 111, 108, 32, 120]
      { Lexer.new ⟨[64, 99, 111, 108, 32, 120]⟩ with
        index := 6, len := 0, begin_tok_line := 1, is_done := true,
        tokens := [⟨token_type.BuiltinFunc, 1, 3, 1⟩, ⟨token_type.Identifier, 5, 1, 1⟩,
                   ⟨token_type.EOT, 6, 0, 1⟩] }
      (by decide) ⟨token_type.Identifier, 5, 1, 1⟩ (by decide) (by decide) (by decide)⟩


/-- C21. On a state whose recorded length is the length of the buffer, every
call of `lex_director` that returns `EXIT_SUCCESS` leaves the cursor strictly
greater than it was before the call, and it was inside the buffer before the
call; so the loop of `lex` returns: `lex` gives a result, and every budget
above the rest of the buffer gives the same one. -/
theorem lex_director_success_moves_cursor (l : Lexer)
    (hfl : l.file_length = l.file.length) :
    (∀ l1, lex_director l = (exit_code.EXIT_SUCCESS, l1) →
      l.index < l1.index ∧ l.index < l.file.length) ∧
    ∃ r, lex l = some r ∧ ∀ n, l.budget < n → lex_loop n l = some r := by
  refine ⟨fun l1 h => ?_, ?_⟩
  · obtain ⟨_, _, _, h4, h5, _⟩ := lex_director_success l l1 hfl h
    exact ⟨h4, h5⟩
  · obtain ⟨r, hr⟩ := lex_returns l hfl
    exact ⟨r, hr, fun n hn => by rw [lex_loop_eq_lex n l hfl hn]; exact hr⟩

/-- Witness of C21 on the buffer `//x`, a newline, `a`: the first dispatch
skips the line comment and moves the cursor from 0 to 3. -/
theorem lex_director_success_moves_cursor_witness :
    (Lexer.new ⟨[47, 47, 120, 10, 97]⟩).file_length
      = (Lexer.new ⟨[47, 47, 120, 10, 97]⟩).file.length ∧
    lex_director (Lexer.new ⟨[47, 47, 120, 10, 97]⟩) =
      (exit_code.EXIT_SUCCESS,
        { Lexer.new ⟨[47, 47, 120, 10, 97]⟩ with index := 3, len := 1, begin_tok_line := 1 }) ∧
    ((0 : Nat) < 3 ∧ (0 : Nat) < 5) ∧
    ∃ r, lex (Lexer.new ⟨[47, 47, 120, 10, 97]⟩) = some r ∧
      ∀ n, (Lexer.new ⟨[47, 47, 120, 10, 97]⟩).budget < n →
        lex_loop n (Lexer.new ⟨[47, 47, 120, 10, 97]⟩) = some r :=
  ⟨rfl, by decide,
   (lex_director_success_moves_cursor (Lexer.new ⟨[47, 47, 120, 10, 97]⟩) rfl).1
     { Lexer.new ⟨[47, 47, 120, 10, 97]⟩ with index := 3, len := 1, begin_tok_line := 1 }
     (by decide),
   (lex_director_success_moves_cursor (Lexer.new ⟨[47, 47, 120, 10, 97]⟩) rfl).2⟩

/-- C22. For non-empty digit strings `a` and `b` with `|a| < 100` and
`|b| ≤ 100`, the buffer `a .. b` scans to exactly four tokens: `Float` at
offset 0 of length `|a| + 1`, whose slice is `a` followed by one `.`, `Dot`
at `|a| + 1` of length 1, `Integer` at `|a| + 2` of length `|b|`, and `EOT`;
no token has the range kind `To`. -/
theorem lex_range_after_integer (a b : List Nat) (ha : a ≠ []) (hb : b ≠ [])
    (hda : ∀ x ∈ a, isdigit x = true) (hdb : ∀ x ∈ b, isdigit x = true)
    (hla : a.length < 100) (hlb : b.length ≤ 100) :
    scan_tokens (a ++ [46, 46] ++ b) =
      some (exit_code.EXIT_SUCCESS,
        [⟨token_type.Float, 0, a.length + 1, 1⟩,
         ⟨token_type.Dot, a.length + 1, 1, 1⟩,
         ⟨token_type.Integer, a.length + 2, b.length, 1⟩,
         ⟨token_type.EOT, a.length + 2 + b.length, 0, 1⟩]) ∧
    slice ⟨a ++ [46, 46] ++ b⟩ 0 (a.length + 1) = a ++ [46] := by
  have hbuf : a ++ [46, 46] ++ b = a ++ 46 :: ([] ++ 46 :: b) := by simp
  rw [hbuf]
  obtain ⟨z, b1, rfl⟩ := List.exists_cons_of_ne_nil hb
  have hz := hdb z (List.mem_cons_self z b1)
  have hk : (a ++ [46]).length = a.length + 1 + ([] : List Nat).length := by simp
  have hd1 : (a ++ 46 :: ([] ++ 46 :: z :: b1)).drop
      (0 + (a.length + 1 + ([] : List Nat).length)) = 46 :: z :: b1 := by
    rw [← hk]
    exact drop_add_of_drop_append _ 0 (a ++ [46]) (46 :: z :: b1) (by simp)
  have hd2 : (a ++ 46 :: ([] ++ 46 :: z :: b1)).drop
      (0 + (a.length + 1 + ([] : List Nat).length) + 1) = z :: b1 :=
    drop_succ_of_drop_cons _ _ _ _ hd1
  simp only [List.length_cons] at hlb
  refine ⟨?_, ?_⟩
  · unfold scan_tokens scan lex
    rw [show (Lexer.new ⟨a ++ 46 :: ([] ++ 46 :: z :: b1)⟩).budget + 1
        = (a.length + b1.length) + 1 + 1 + 1 + 1 by
      simp only [Lexer.budget, Lexer.new, file_t.length, List.length_append, List.length_cons,
        List.length_nil]
      omega]
    rw [lex_loop_step _ (Lexer.new ⟨a ++ 46 :: ([] ++ 46 :: z :: b1)⟩) _ _
      (lex_director_fraction a [] (46 :: z :: b1) ha _ rfl hda
        (fun x hx => absurd hx (List.not_mem_nil x)) rfl
        (by simp only [List.length_nil]; omega))
      (lex_loop_step _ _ _ _
        (lex_director_dot _ (current_eq_headD _ (46 :: z :: b1) hd1)
          (by rw [peek_eq_headD _ (z :: b1) hd2]
              exact (isdigit_ne z hz).2.2.1))
        (lex_loop_step _ _ _ _
          (lex_director_integer (z :: b1) [] hb _ (by rw [List.append_nil]; exact hd2) hdb
            (by decide) (by decide) (by simp only [List.length_cons]; omega))
          (lex_loop_NUL _ _ (at_eq_zero_of_le _ _ (by
            show (a ++ 46 :: ([] ++ 46 :: z :: b1)).length ≤ _
            simp only [Lexer.new, List.length_append, List.length_cons, List.length_nil]
            omega)))))]
    simp [Lexer.new]
  · have := slice_of_drop ⟨a ++ 46 :: ([] ++ 46 :: z :: b1)⟩ 0 (a ++ [46]) (46 :: z :: b1)
      (by simp)
    simpa using this

/-- Witness of C22 on the buffer `1..2`. -/
theorem lex_range_after_integer_witness :
    scan_tokens ([49] ++ [46, 46] ++ [50]) =
      some (exit_code.EXIT_SUCCESS,
        [⟨token_type.Float, 0, 2, 1⟩, ⟨token_type.Dot, 2, 1, 1⟩,
         ⟨token_type.Integer, 3, 1, 1⟩, ⟨token_type.EOT, 4, 0, 1⟩]) ∧
    slice ⟨[49] ++ [46, 46] ++ [50]⟩ 0 2 = [49] ++ [46] :=
  lex_range_after_integer [49] [50] (by decide) (by decide) (by decide) (by decide)
    (by decide) (by decide)

end rotate
